import Mathlib

/-
  Verification development for the graph-ql-compiler repository: a shallow
  embedding of the GraphQL-to-Cypher query compiler (graph-ql-query-compiler,
  models, utils, graph-ql-query-traverse, tenant-based-graph-ql-query-compiler)
  together with theorems that settle the specification claims.

  Modelling conventions, used throughout:
  - JavaScript runtime values (the `any`-typed values flowing through the
    compiler: variable values, serialized condition values, token elements)
    are modelled by the inductive `JsVal`.  JavaScript string coercion,
    truthiness and `Array.prototype.join` are modelled explicitly.
  - JavaScript arrays are Lean lists kept in JS order (push appends at the
    right end, `last` reads the right end).
  - A thrown exception (either a TypeError from a member access on
    `undefined`, or an ApolloError raised by the compiler) is modelled by
    `Except CompErr`; `.typeErr` stands for the former, `.apollo msg` for
    the latter.
  - Optional TS fields are `Option`; a JS optional string interpolated into
    a template literal renders as the text undefined when absent, which
    `jsOptStr` reproduces.
-/

namespace GraphQlCompiler

/-- Compilation failure: a JS TypeError (member access on undefined /
calling a missing method), or an ApolloError with its message. -/
inductive CompErr where
  | typeErr : CompErr
  | apollo (msg : String) : CompErr
deriving DecidableEq

/-- JavaScript runtime value, as flows through the `any`-typed parts of the
compiler: deserialized vars, serialized condition values and emitted
token elements. -/
inductive JsVal where
  | str (s : String)
  | int (n : Int)
  | bool (b : Bool)
  | null
  | undefJ
  | arr (elems : List JsVal)
  | obj (fields : List (String × JsVal))

/-- The single-quote character, used when serializing string literals into
Cypher. -/
def sq : String := "\x27"

mutual
/-- JS string coercion (template-literal interpolation semantics). -/
def JsVal.jsToString : JsVal → String
  | .str s => s
  | .int n => toString n
  | .bool b => if b then "true" else "false"
  | .null => "null"
  | .undefJ => "undefined"
  | .arr elems => String.intercalate "," (JsVal.jsToStringArr elems)
  | .obj _ => "[object Object]"

/-- Element rendering inside JS array-to-string coercion: null and undefined
render empty. -/
def JsVal.jsToStringArr : List JsVal → List String
  | [] => []
  | .null :: es => "" :: JsVal.jsToStringArr es
  | .undefJ :: es => "" :: JsVal.jsToStringArr es
  | e :: es => e.jsToString :: JsVal.jsToStringArr es
end

/-- JS truthiness. -/
def JsVal.jsTruthy : JsVal → Bool
  | .str s => !(s == "")
  | .int n => !(n == 0)
  | .bool b => b
  | .null => false
  | .undefJ => false
  | .arr _ => true
  | .obj _ => true

/-- Modelled from the spec: the shared `isEmptyValue` helper (the repository
imports it from shared code outside this repo slice).  Per the spec it tests
for emptiness, not falsiness: an explicit 0 offset is not empty, while a
missing value is.  We model empty as null, undefined or the empty string. -/
def JsVal.isEmptyValue : JsVal → Bool
  | .null => true
  | .undefJ => true
  | .str s => s == ""
  | _ => false

def JsVal.isArray : JsVal → Bool
  | .arr _ => true
  | _ => false

/-- An array with length zero (the `!isArray(item) || item.length` keep-test
of `insertBetweenArrayItems` rejects exactly these among arrays). -/
def JsVal.isEmptyArray : JsVal → Bool
  | .arr [] => true
  | _ => false

/-- JS `Array.prototype.join(" ")` element rendering: null and undefined
render as the empty string, everything else by string coercion. -/
def JsVal.joinElem : JsVal → String
  | .null => ""
  | .undefJ => ""
  | v => v.jsToString

/-- JS member read on a (possibly non-object) value: object lookup yields
the property or undefined; reads on primitives yield undefined; reads on
null or undefined throw. -/
def JsVal.getProp : JsVal → String → Except CompErr JsVal
  | .obj fields, name =>
      match fields.lookup name with
      | some v => .ok v
      | none => .ok .undefJ
  | .null, _ => .error .typeErr
  | .undefJ, _ => .error .typeErr
  | _, _ => .ok .undefJ

/-- Render an optional JS string the way a template literal would. -/
def jsOptStr : Option String → String
  | some s => s
  | none => "undefined"

/-- utils.ts `toCamelCase`: first character lowercased, rest unchanged.
(On the empty string the source would throw; named types are never empty.) -/
def toCamelCase (value : String) : String :=
  match value.data with
  | [] => ""
  | c :: cs => String.mk (c.toLower :: cs)

/-- `ConnectionSuffixRegex.test` from models.ts: the regex is `Connection$`
(a character-level suffix test). -/
def testConnectionSuffix (s : String) : Bool :=
  "Connection".data.isSuffixOf s.data

/-- `RelationshipSuffixRegex.test` from models.ts: the regex is
`Relationship$`. -/
def testRelationshipSuffix (s : String) : Bool :=
  "Relationship".data.isSuffixOf s.data

/-- `name.replace(ConnectionSuffixRegex, "")`. -/
def stripConnectionSuffix (s : String) : String :=
  if "Connection".data.isSuffixOf s.data then
    String.mk (s.data.take (s.data.length - "Connection".data.length))
  else s

/-- Modelled from the spec: the shared `partition` helper (imported from
shared code outside this repo slice).  Per spec section 4.4.6 it splits a
list into the elements satisfying the predicate and the rest, preserving
order. -/
def jsPartition (l : List α) (p : α → Bool) : List α × List α :=
  (l.filter p, l.filter (fun x => !(p x)))

mutual
/-- Schema-side type model (GraphQLOutputType): object, scalar and enum
types plus list and non-null wrappers. -/
inductive GqlType where
  | scalar (name : String)
  | enumT (name : String)
  | obj (name : String) (fields : List GqlField)
  | listT (ofType : GqlType)
  | nonNull (ofType : GqlType)

/-- Schema-side field model (GraphQLField): name and (wrapped) output type. -/
inductive GqlField where
  | mk (name : String) (type : GqlType)
end


def GqlField.name : GqlField → String
  | .mk n _ => n

def GqlField.type : GqlField → GqlType
  | .mk _ t => t

/-- The JS `.name` property of a type: named types have one; list and
non-null wrappers do not, and reading it yields undefined, which templates
render as the text undefined. -/
def GqlType.jsName : GqlType → String
  | .scalar n => n
  | .enumT n => n
  | .obj n _ => n
  | .listT _ => "undefined"
  | .nonNull _ => "undefined"

/-- `getFields()` is only available on object types; calling it on anything
else throws a TypeError. -/
def GqlType.fieldsOf : GqlType → Except CompErr (List GqlField)
  | .obj _ fs => .ok fs
  | _ => .error .typeErr

/-- `getFields()[name]` followed by a member access on the result: a missing
field is undefined and the subsequent access throws. -/
def GqlType.lookupField (t : GqlType) (name : String) : Except CompErr GqlField := do
  let fs ← t.fieldsOf
  match fs.find? (fun f => f.name == name) with
  | some f => .ok f
  | none => .error .typeErr

/-- Does `getFields()` of an object type contain a key (the TS `in` check)? -/
def GqlType.hasField (t : GqlType) (name : String) : Except CompErr Bool := do
  let fs ← t.fieldsOf
  .ok ((fs.find? (fun f => f.name == name)).isSome)

def GqlType.isScalar : GqlType → Bool
  | .scalar _ => true
  | _ => false

def GqlType.isEnum : GqlType → Bool
  | .enumT _ => true
  | _ => false

def GqlType.isObject : GqlType → Bool
  | .obj _ _ => true
  | _ => false

def GqlType.isList : GqlType → Bool
  | .listT _ => true
  | _ => false

/-- utils.ts `unwrapType`: strip non-null and list wrappers recursively. -/
def unwrapType : GqlType → GqlType
  | .nonNull t => unwrapType t
  | .listT t => unwrapType t
  | t => t

/-- utils.ts `unwrapNullableType`: strip a single non-null wrapper. -/
def unwrapNullableType : GqlType → GqlType
  | .nonNull t => t
  | t => t

/-- Query-document value node (graphql ValueNode).  Int and float literals
carry their raw source text, as in graphql-js. -/
inductive ValueNode where
  | objectV (fields : List (String × ValueNode))
  | listV (values : List ValueNode)
  | stringV (s : String)
  | enumV (s : String)
  | intV (s : String)
  | floatV (s : String)
  | boolV (b : Bool)
  | nullV
  | variableV (name : String)

/-- Argument node: name and value. -/
structure Argument where
  name : String
  value : ValueNode

/-- Directive node: name plus named arguments. -/
structure Directive where
  name : String
  args : List Argument

/-- The JS `.value` property read off a value node cast to a string or enum
value node: literal kinds expose their raw value, the rest read as
undefined (rendered as the text undefined when interpolated). -/
def ValueNode.jsValueProp : ValueNode → String
  | .stringV s => s
  | .enumV s => s
  | .intV s => s
  | .floatV s => s
  | .boolV b => if b then "true" else "false"
  | _ => "undefined"

/-- `relationshipDirection?.value === "OUT"`: a strict comparison of the
`.value` property with the string OUT; a missing argument or a non-string
value compares false. -/
def isOutDirection : Option ValueNode → Bool
  | some (.stringV s) => s == "OUT"
  | some (.enumV s) => s == "OUT"
  | some (.intV s) => s == "OUT"
  | some (.floatV s) => s == "OUT"
  | _ => false

/-- The filter-DSL condition node (models.ts `Condition`).  Absent optional
fields are `none` (or the empty string for `operator`, whose absent and
empty forms are indistinguishable to the compiler: both are falsy and both
default to EQUALS); an absent `nested` behaves exactly like an empty list
in every use site, so `nested` is a plain list. -/
inductive Condition where
  | mk (parentType : Option GqlType) (parentPropertyName : Option String)
       (property : Option String) (operator : String)
       (isOr : Bool) (isGroup : Bool) (isRelationship : Bool)
       (value : JsVal) (nested : List Condition)


def Condition.parentType : Condition → Option GqlType
  | .mk pt _ _ _ _ _ _ _ _ => pt

def Condition.parentPropertyName : Condition → Option String
  | .mk _ ppn _ _ _ _ _ _ _ => ppn

def Condition.property : Condition → Option String
  | .mk _ _ p _ _ _ _ _ _ => p

def Condition.operator : Condition → String
  | .mk _ _ _ op _ _ _ _ _ => op

def Condition.isOr : Condition → Bool
  | .mk _ _ _ _ o _ _ _ _ => o

def Condition.isGroup : Condition → Bool
  | .mk _ _ _ _ _ g _ _ _ => g

def Condition.isRelationship : Condition → Bool
  | .mk _ _ _ _ _ _ r _ _ => r

def Condition.value : Condition → JsVal
  | .mk _ _ _ _ _ _ _ v _ => v

def Condition.nested : Condition → List Condition
  | .mk _ _ _ _ _ _ _ _ n => n

/-- utils.ts `insertBetweenArrayItems` instantiated at JS values (used while
serializing list literals): drop empty values and empty arrays, then
interleave the separator. -/
def insertBetweenJsItems (items : List JsVal) (insertion : JsVal) : List JsVal :=
  let kept := items.filter (fun item =>
    !item.isEmptyValue && !item.isEmptyArray)
  match kept with
  | [] => []
  | x :: xs => x :: xs.flatMap (fun item => [insertion, item])

/-- utils.ts `insertBetweenArrayItems` instantiated at strings (used for
ORDER BY items): drop empty strings, interleave the separator. -/
def insertBetweenStringItems (items : List String) (insertion : String) : List String :=
  let kept := items.filter (fun item => !(item == ""))
  match kept with
  | [] => []
  | x :: xs => x :: xs.flatMap (fun item => [insertion, item])

/-- utils.ts `insertBetweenArrayItems` instantiated at token sequences
(arrays of JS values): drop empty arrays, interleave the separator. -/
def insertBetweenTokenLists (items : List (List JsVal)) (insertion : List JsVal) :
    List (List JsVal) :=
  let kept := items.filter (fun item => !item.isEmpty)
  match kept with
  | [] => []
  | x :: xs => x :: xs.flatMap (fun item => [insertion, item])

/-- JS `Array.prototype.flat()` on an array that mixes scalars and arrays:
one level of array elements is spliced in place. -/
def jsFlatOne (l : List JsVal) : List JsVal :=
  l.flatMap (fun v => match v with
    | .arr xs => xs
    | v => [v])

/-- Truthiness of an optional string (`parentPropertyName && …`). -/
def optStrTruthy : Option String → Bool
  | some s => !(s == "")
  | none => false

/-- JS `field.split("_")` at the character level (the separator is the
single underscore), modelled structurally. -/
def splitChars (cs : List Char) : List (List Char) :=
  match cs with
  | [] => [[]]
  | c :: rest =>
      let r := splitChars rest
      if c == Char.ofNat 95 then [] :: r
      else
        match r with
        | g :: gs => (c :: g) :: gs
        | [] => [[c]]

def splitOnUnderscore (s : String) : List String := (splitChars s.data).map String.mk

/-- `getTargetIfConnectionType` from graph-ql-query-compiler.ts: for a
connection-suffixed type, unwrap `edges` and then `node`; otherwise unwrap
the type itself. -/
def getTargetIfConnectionType (type : GqlType) : Except CompErr GqlType :=
  if testConnectionSuffix type.jsName then do
    let edges ← type.lookupField "edges"
    let node ← (unwrapType edges.type).lookupField "node"
    pure (unwrapType node.type)
  else
    pure (unwrapType type)

def JsVal.isNumber : JsVal → Bool
  | .int _ => true
  | _ => false

/-- JS ToNumber on the values that can appear in a date-shaped object;
`none` is NaN. -/
def JsVal.toNumber : JsVal → Option Int
  | .int n => some n
  | .str s => s.toInt?
  | .bool b => some (if b then 1 else 0)
  | .null => some 0
  | _ => none

def padLeftZeros (width : Nat) (s : String) : String :=
  if s.length < width then String.mk (List.replicate (width - s.length) (Char.ofNat 48)) ++ s else s

/-- Modelled from the spec: `format(new Date(year, month - 1, day),
"yyyy-MM-dd")` via the external date-fns library; the spec says date-shaped
objects normalize to yyyy-MM-dd.  Modelled for in-range dates (no calendar
rollover). -/
def formatDate (y m d : Int) : String :=
  padLeftZeros 4 (toString y) ++ "-" ++ padLeftZeros 2 (toString m) ++ "-" ++ padLeftZeros 2 (toString d)

/-- The string-quoting item map of `mapConditionValue`'s array branch. -/
def quoteStrElem : JsVal → JsVal
  | .str s => .str (sq ++ s ++ sq)
  | v => v

/-- `typeof first === "object"` on the deserialized values that can appear
in a runtime list (arrays, plain objects and null are typeof object). -/
def isObjArrNull : JsVal → Bool
  | .arr _ => true
  | .obj _ => true
  | .null => true
  | _ => false

/-- `Array.isArray(value) && (!value.length || typeof value[0] "object")`:
the guard routing runtime arrays of objects (and empty arrays) into
element-wise recursion. -/
def arrOfObjGuard : JsVal → Bool
  | .arr [] => true
  | .arr (first :: _) => isObjArrNull first
  | _ => false

/-- `mapConditionValue` from graph-ql-query-compiler.ts: serialize a runtime
condition value into its Cypher-literal form.  Falsy values pass through;
date-shaped objects (truthy `year`, numeric `month`) normalize to a
yyyy-MM-dd string (a missing or non-numeric remaining part makes date-fns
throw on the invalid date); arrays become bracketed token arrays with string
items single-quoted; strings are single-quoted; other values pass through. -/
def mapConditionValue (value : JsVal) : Except CompErr JsVal :=
  if !value.jsTruthy then .ok value
  else match value with
    | .obj fields =>
        let yearV := (fields.lookup "year").getD .undefJ
        let monthV := (fields.lookup "month").getD .undefJ
        if yearV.jsTruthy && monthV.isNumber then
          match yearV.toNumber, monthV.toNumber, (((fields.lookup "day").getD .undefJ).toNumber) with
          | some y, some m, some d => .ok (.str (formatDate y m d))
          | _, _, _ => .error .typeErr
        else .ok value
    | .arr elems =>
        .ok (.arr ([.str "["] ++
          insertBetweenJsItems (elems.map quoteStrElem) (.str ",") ++ [.str "]"]))
    | .str s => .ok (.str (sq ++ s ++ sq))
    | value => .ok value

mutual
/-- `createConditionTreesByObject` from graph-ql-query-compiler.ts: build
condition trees from a deserialized runtime `where` value.  `Object.entries`
on null or undefined throws; on numbers and booleans it yields nothing; a
non-empty string would yield index keys whose schema field lookup then
throws. -/
def createConditionTreesByObject (obj : JsVal) (parentType : GqlType)
    (parentPropertyName : Option String) : Except CompErr (List Condition) :=
  match obj with
  | .arr items => createConditionTreesByObjectArr items parentType parentPropertyName
  | .obj fields => createConditionTreesByObjectEntries fields parentType parentPropertyName
  | .null => .error .typeErr
  | .undefJ => .error .typeErr
  | .str s => if s == "" then .ok [] else .error .typeErr
  | _ => .ok []
termination_by (sizeOf obj, 0)

/-- `obj.flatMap(item => this.createConditionTreesByObject(item, …))`. -/
def createConditionTreesByObjectArr (items : List JsVal) (parentType : GqlType)
    (parentPropertyName : Option String) : Except CompErr (List Condition) :=
  match items with
  | [] => .ok []
  | item :: rest => do
      let head ← createConditionTreesByObject item parentType parentPropertyName
      let tail ← createConditionTreesByObjectArr rest parentType parentPropertyName
      pure (head ++ tail)
termination_by (sizeOf items, 0)

/-- `Object.entries(obj).flatMap(([name, value]) =>
this.createConditionTreesByObjectField(name, value, …))`. -/
def createConditionTreesByObjectEntries (fields : List (String × JsVal)) (parentType : GqlType)
    (parentPropertyName : Option String) : Except CompErr (List Condition) :=
  match fields with
  | [] => .ok []
  | (name, value) :: rest => do
      let head ← createConditionTreesByObjectField name value parentType parentPropertyName
      let tail ← createConditionTreesByObjectEntries rest parentType parentPropertyName
      pure (head ++ tail)
termination_by (sizeOf fields, 0)

/-- `OR` handling in the runtime path: each array element becomes a group
condition (`value` cast to an array: a non-array throws on `.map`). -/
def createOrGroupsByObject (values : List JsVal) (parentType : GqlType)
    (parentPropertyName : Option String) : Except CompErr (List Condition) :=
  match values with
  | [] => .ok []
  | source :: rest => do
      let nested ← createConditionTreesByObject source parentType parentPropertyName
      let tail ← createOrGroupsByObject rest parentType parentPropertyName
      pure (Condition.mk none none none "" false true false .undefJ nested :: tail)
termination_by (sizeOf values, 0)

/-- `createConditionTreesByObjectField` from graph-ql-query-compiler.ts. -/
def createConditionTreesByObjectField (field : String) (value : JsVal) (parentType : GqlType)
    (parentPropertyName : Option String) : Except CompErr (List Condition) :=
  if optStrTruthy parentPropertyName && testConnectionSuffix (jsOptStr parentPropertyName) &&
      field == "node" then do
    let target ← getTargetIfConnectionType parentType
    createConditionTreesByObject value target parentPropertyName
  else if optStrTruthy parentPropertyName && testConnectionSuffix (jsOptStr parentPropertyName) &&
      field == "edge" then do
    let edges ← parentType.lookupField "edges"
    createConditionTreesByObject value (unwrapType edges.type) parentPropertyName
  else if field == "OR" then do
    let target ← getTargetIfConnectionType parentType
    match value with
    | .arr values => do
        let groups ← createOrGroupsByObject values parentType parentPropertyName
        pure [Condition.mk (some target) parentPropertyName none "" true false false .undefJ groups]
    | _ => .error .typeErr
  else if arrOfObjGuard value then
    match value with
    | .arr items => createConditionTreesByObjectArr items parentType parentPropertyName
    | _ => .ok []
  else do
    let property := (splitOnUnderscore field).headD ""
    let schemaField ← parentType.lookupField property
    let fieldType := unwrapType schemaField.type
    let target ← getTargetIfConnectionType parentType
    let operator := String.intercalate "_" (splitOnUnderscore field).tail
    let isRel := testRelationshipSuffix parentType.jsName
    if fieldType.isObject then do
      let nested ← createConditionTreesByObject value fieldType (some property)
      pure [Condition.mk (some target) parentPropertyName (some property) operator
        false false isRel .null nested]
    else do
      let v ← mapConditionValue value
      pure [Condition.mk (some target) parentPropertyName (some property) operator
        false false isRel v []]
termination_by (sizeOf value, 1)
end

mutual
/-- `readValue` from graph-ql-query-compiler.ts: serialize an AST value node
into its Cypher-literal form (raw numeric and boolean literals, single-quoted
strings and enums, bracketed token arrays for lists, `$name` for vars,
null for object-typed targets and everything else). -/
def readValue (fieldType : GqlType) (value : ValueNode) : JsVal :=
  match value with
  | .boolV b => .bool b
  | .floatV s => .str s
  | .intV s => .str s
  | .stringV s => .str (sq ++ s ++ sq)
  | .enumV s => .str (sq ++ s ++ sq)
  | value =>
      if fieldType.isObject then .null
      else match value with
        | .listV items =>
            .arr ([.str "["] ++
              insertBetweenJsItems (readValueList fieldType items) (.str ",") ++ [.str "]"])
        | .variableV name => .str ("$" ++ name)
        | _ => .null

def readValueList (fieldType : GqlType) (values : List ValueNode) : List JsVal :=
  match values with
  | [] => []
  | v :: rest => readValue fieldType v :: readValueList fieldType rest
end

mutual
/-- `createConditionTrees` from graph-ql-query-compiler.ts: build condition
trees from an AST `where` value node; vars defer to the runtime-object
path through the compiler instance variable values. -/
def createConditionTrees (vars : List (String × JsVal)) (valueNode : ValueNode)
    (parentType : GqlType) (parentPropertyName : Option String) :
    Except CompErr (List Condition) :=
  match valueNode with
  | .objectV fields => createConditionsByFieldList vars fields parentType parentPropertyName
  | .listV values => createConditionTreesList vars values parentType parentPropertyName
  | .variableV name =>
      createConditionTreesByObject ((vars.lookup name).getD .undefJ) parentType
        parentPropertyName
  | _ => .ok []
termination_by (sizeOf valueNode, 0)

/-- `valueNode.fields.flatMap(field => this.createConditionsByObjectFieldNode(…))`. -/
def createConditionsByFieldList (vars : List (String × JsVal))
    (fields : List (String × ValueNode)) (parentType : GqlType)
    (parentPropertyName : Option String) : Except CompErr (List Condition) :=
  match fields with
  | [] => .ok []
  | (name, value) :: rest => do
      let head ← createConditionsByObjectFieldNode vars name value parentType parentPropertyName
      let tail ← createConditionsByFieldList vars rest parentType parentPropertyName
      pure (head ++ tail)
termination_by (sizeOf fields, 0)

/-- `valueNode.values.flatMap(listItem => this.createConditionTrees(…))`. -/
def createConditionTreesList (vars : List (String × JsVal)) (values : List ValueNode)
    (parentType : GqlType) (parentPropertyName : Option String) :
    Except CompErr (List Condition) :=
  match values with
  | [] => .ok []
  | v :: rest => do
      let head ← createConditionTrees vars v parentType parentPropertyName
      let tail ← createConditionTreesList vars rest parentType parentPropertyName
      pure (head ++ tail)
termination_by (sizeOf values, 0)

/-- `OR` handling in the AST path: the value is cast to a list node and each
element becomes a group condition; non-list values throw on `.values`. -/
def createOrGroups (vars : List (String × JsVal)) (values : List ValueNode)
    (parentType : GqlType) (parentPropertyName : Option String) :
    Except CompErr (List Condition) :=
  match values with
  | [] => .ok []
  | v :: rest => do
      let nested ← createConditionTrees vars v parentType parentPropertyName
      let tail ← createOrGroups vars rest parentType parentPropertyName
      pure (Condition.mk none none none "" false true false .undefJ nested :: tail)
termination_by (sizeOf values, 0)

/-- `createConditionsByObjectFieldNode` from graph-ql-query-compiler.ts. -/
def createConditionsByObjectFieldNode (vars : List (String × JsVal)) (field : String)
    (value : ValueNode) (parentType : GqlType) (parentPropertyName : Option String) :
    Except CompErr (List Condition) :=
  if optStrTruthy parentPropertyName && testConnectionSuffix (jsOptStr parentPropertyName) &&
      field == "node" then do
    let target ← getTargetIfConnectionType parentType
    createConditionTrees vars value target parentPropertyName
  else if optStrTruthy parentPropertyName && testConnectionSuffix (jsOptStr parentPropertyName) &&
      field == "edge" then do
    let edges ← parentType.lookupField "edges"
    createConditionTrees vars value (unwrapType edges.type) parentPropertyName
  else if field == "OR" then
    match value with
    | .listV values => do
        let groups ← createOrGroups vars values parentType parentPropertyName
        pure [Condition.mk (some parentType) parentPropertyName none "" true false false
          .undefJ groups]
    | _ => .error .typeErr
  else if field == "AND" then
    match value with
    | .listV values => createConditionTreesList vars values parentType parentPropertyName
    | v => createConditionTrees vars v parentType parentPropertyName
  else do
    let property := (splitOnUnderscore field).headD ""
    let schemaField ← parentType.lookupField property
    let fieldType := unwrapType schemaField.type
    let target ← getTargetIfConnectionType parentType
    let operator := String.intercalate "_" (splitOnUnderscore field).tail
    let isRel := testRelationshipSuffix parentType.jsName
    if fieldType.isObject then do
      let nested ← createConditionTrees vars value fieldType (some property)
      pure [Condition.mk (some target) parentPropertyName (some property) operator
        false false isRel .undefJ nested]
    else
      pure [Condition.mk (some target) parentPropertyName (some property) operator
        false false isRel (readValue fieldType value) []]
termination_by (sizeOf value, 1)
end

/-- `createConditionTreesByField` from graph-ql-query-compiler.ts (the base
compiler): find the `where` argument and analyze it; no argument means no
conditions. -/
def createConditionTreesByField (vars : List (String × JsVal))
    (args : Option (List Argument)) (fieldType : GqlType) (fieldName : String) :
    Except CompErr (List Condition) :=
  match (args.getD []).find? (fun a => a.name == "where") with
  | some whereArg => createConditionTrees vars whereArg.value fieldType (some fieldName)
  | none => .ok []

/-- The tenant-exempt deny-list from tenant-based-graph-ql-query-compiler.ts
(`sentBy` appears twice in the source). -/
def fieldsWithoutFilters : List String :=
  ["sentBy", "includedIn", "updatedBy", "proposedBy", "creator", "sentBy", "mappingInstances"]

/-- `TenantBasedGraphQlQueryCompiler.createConditionTreesByField`: when the
(connection-unwrapped) target type declares a tenant discriminator and the
field is neither on the deny-list nor of type FlexEntity, rewrite the
`where` argument to AND-combine a tenant predicate before delegating to the
base builder. -/
def tenantCreateConditionTreesByField (vars : List (String × JsVal))
    (args : Option (List Argument)) (fieldType : GqlType) (fieldName : String) :
    Except CompErr (List Condition) := do
  let targetType ← getTargetIfConnectionType fieldType
  let fields ← targetType.fieldsOf
  let hasTenantId := ((fields.find? (fun f => f.name == "tenantId")).isSome)
  let hasTenantIds := ((fields.find? (fun f => f.name == "tenantIds")).isSome)
  if (!hasTenantId && !hasTenantIds) || ["FlexEntity"].contains fieldType.jsName ||
      fieldsWithoutFilters.contains fieldName then
    createConditionTreesByField vars args fieldType fieldName
  else
    let whereArg := (args.getD []).find? (fun a => a.name == "where")
    let tenantCondition : ValueNode :=
      if hasTenantId then .objectV [("tenantId", .variableV "cypherParams.tenantId")]
      else .objectV [("tenantIds_INCLUDES", .variableV "cypherParams.tenantId")]
    let nodeCondition : ValueNode :=
      if testConnectionSuffix fieldName then .objectV [("node", tenantCondition)]
      else tenantCondition
    let extendedWhereArgumentValue : ValueNode :=
      match whereArg with
      | some w => .objectV [("AND", .listV [w.value, nodeCondition])]
      | none => nodeCondition
    let extendedWhereArgument : Argument := ⟨"where", extendedWhereArgumentValue⟩
    let newArgs : List Argument :=
      if (args.getD []).any (fun a => a.name == "where") then
        (args.getD []).map (fun a => if a.name == "where" then extendedWhereArgument else a)
      else (args.getD []) ++ [extendedWhereArgument]
    createConditionTreesByField vars (some newArgs) fieldType fieldName

/-- Left brace as text. -/
def lbrace : String := "\x7b"

/-- Right brace as text. -/
def rbrace : String := "\x7d"

/-- The accessor prefix of `createSinglePropertyConditionExpression`:
`rel_<parentPropertyName><level>.<property>` for relationship conditions,
otherwise `camelCase(parentType.name)<level>.<property>`; reading `.name`
off a missing parent type throws. -/
def propertyAccessorExpression (condition : Condition) (level : String) :
    Except CompErr String :=
  if condition.isRelationship then
    .ok ("rel_" ++ jsOptStr condition.parentPropertyName ++ level ++ "." ++
      jsOptStr condition.property)
  else match condition.parentType with
    | some pt => .ok (toCamelCase pt.jsName ++ level ++ "." ++ jsOptStr condition.property)
    | none => .error .typeErr

/-- `createSinglePropertyConditionExpression` from graph-ql-query-compiler.ts:
map a leaf condition operator (EQUALS when absent) to its Cypher emission;
unknown operators raise an ApolloError carrying the operator text. -/
def createSinglePropertyConditionExpression (condition : Condition) (level : String) :
    Except CompErr (List JsVal) := do
  let acc ← propertyAccessorExpression condition level
  let X : JsVal := .str acc
  let v := condition.value
  let op := if condition.operator == "" then "EQUALS" else condition.operator
  if op == "CONTAINS" then .ok [X, .str "CONTAINS", v]
  else if op == "IN" then .ok [X, .str "IN", v]
  else if op == "NOT_IN" then .ok [.str "NOT", .str "(", X, .str "IN", v, .str ")"]
  else if op == "INCLUDES" then .ok [v, .str "IN", X]
  else if op == "MATCHES" then .ok [X, .str "=~", v]
  else if op == "ENDS_WITH" then .ok [X, .str "ENDS WITH", v]
  else if op == "NOT_ENDS_WITH" then
    .ok [.str "NOT", .str "(", X, .str "ENDS WITH", v, .str ")"]
  else if op == "NOT_CONTAINS" then
    .ok [.str "NOT", .str "(", X, .str "CONTAINS", v, .str ")"]
  else if op == "GT" then .ok [X, .str ">", v]
  else if op == "GTE" then .ok [X, .str ">=", v]
  else if op == "LT" then .ok [X, .str "<", v]
  else if op == "LTE" then .ok [X, .str "<=", v]
  else if op == "NOT" then .ok [X, .str "<>", v]
  else if op == "EQUALS" then .ok [X, .str "=", v]
  else .error (.apollo ("Unknown operator: " ++ condition.operator))

mutual
/-- `isRelationshipCondition` from graph-ql-query-compiler.ts: has nested
conditions while being neither group nor OR, or has some relationship
descendant. -/
def isRelationshipCondition : Condition → Bool
  | .mk _ _ _ _ isOr isGroup _ _ nested =>
      (!nested.isEmpty && !isGroup && !isOr) || anyIsRelationshipCondition nested

def anyIsRelationshipCondition : List Condition → Bool
  | [] => false
  | c :: rest => isRelationshipCondition c || anyIsRelationshipCondition rest
end

/-- `createPropertyMatchingPatternPart` from graph-ql-query-compiler.ts: the
inline property map; keeps conditions matching the node-vs-relationship
flag, without nested conditions, with a non-array value and no operator. -/
def createPropertyMatchingPatternPart (conditionTrees : List Condition) (isNode : Bool) :
    List JsVal :=
  let items := (conditionTrees.filter (fun c =>
    (isNode == !c.isRelationship) && c.nested.isEmpty && !c.value.isArray &&
      c.operator == "")).map
    (fun c => jsOptStr c.property ++ ": " ++ c.value.jsToString)
  if !items.isEmpty then [.str (lbrace ++ String.intercalate ", " items ++ rbrace)] else []

mutual
/-- `createPropertyConditionExpressions` from graph-ql-query-compiler.ts:
OR conditions render their non-relationship children OR-joined in
parentheses with equality included; leaves render when they carry an
operator or equality is requested; groups recurse and AND-join. -/
def createPropertyConditionExpressions (condition : Condition) (level : Int)
    (index : Option Int) (includeEquality : Bool) : Except CompErr (List (List JsVal)) :=
  match condition with
  | .mk pt ppn prop op isOr isGroup isRel value nested =>
      if isOr then do
        let ors ← cpceOrChildren nested level index
        .ok (if !ors.isEmpty then
          [[.str "("] ++ (insertBetweenTokenLists ors [.str "OR"]).flatten ++ [.str ")"]]
        else [])
      else if !isGroup then
        if !(op == "") || includeEquality then do
          let single ← createSinglePropertyConditionExpression
            (.mk pt ppn prop op isOr isGroup isRel value nested)
            (match index with
              | none => toString level
              | some i => toString level ++ "_" ++ toString i)
          .ok [jsFlatOne single]
        else .ok []
      else do
        let result ← cpceChildren nested level index includeEquality
        .ok (insertBetweenTokenLists (result.filter (fun e => !e.isEmpty)) [.str "AND"])
termination_by (sizeOf condition, 1)

/-- The OR branch: `nested!.filter(c => !isRelationshipCondition(c))
.flatMap(n => createPropertyConditionExpressions(n, level, index, true))`. -/
def cpceOrChildren (nested : List Condition) (level : Int) (index : Option Int) :
    Except CompErr (List (List JsVal)) :=
  match nested with
  | [] => .ok []
  | c :: rest =>
      if isRelationshipCondition c then cpceOrChildren rest level index
      else do
        let h ← createPropertyConditionExpressions c level index true
        let t ← cpceOrChildren rest level index
        .ok (h ++ t)
termination_by (sizeOf nested, 0)

/-- The group branch and the generic flat-map used by the callers:
`list.map(c => createPropertyConditionExpressions(c, level, index,
includeEquality)).flat()`. -/
def cpceChildren (nested : List Condition) (level : Int) (index : Option Int)
    (includeEquality : Bool) : Except CompErr (List (List JsVal)) :=
  match nested with
  | [] => .ok []
  | c :: rest => do
      let h ← createPropertyConditionExpressions c level index includeEquality
      let t ← cpceChildren rest level index includeEquality
      .ok (h ++ t)
termination_by (sizeOf nested, 0)
end

/-- `canCreateFastExistentialExpression` from graph-ql-query-compiler.ts:
every path condition has no operator and each of its direct children has no
operator and either has no children of its own or is a non-OR whose
children all lack operators. -/
def canCreateFastExistentialExpression : List Condition → Bool
  | [] => true
  | head :: rest =>
      head.operator == "" && canCreateFastExistentialExpression rest &&
      head.nested.all (fun nested =>
        (nested.nested.isEmpty ||
          (!nested.isOr && nested.nested.all (fun c => c.operator == ""))) &&
        nested.operator == "")

mutual
/-- `getDeepFirstSearchPaths` from graph-ql-query-compiler.ts: enumerate the
depth-first chains of non-relationship conditions carrying nested
conditions; when no child extends the chain the accumulated path is a leaf
path. -/
def getDeepFirstSearchPaths (condition : Condition) (parentConditions : List Condition) :
    List (List Condition) :=
  match condition with
  | .mk pt ppn prop op isOr isGroup isRel value nested =>
      let nextParentConditions :=
        parentConditions ++ [Condition.mk pt ppn prop op isOr isGroup isRel value nested]
      let nestedPaths := getDeepFirstSearchPathsList nested nextParentConditions
      if !nestedPaths.isEmpty then nestedPaths else [nextParentConditions]
termination_by (sizeOf condition, 1)

def getDeepFirstSearchPathsList (conditions : List Condition) (parents : List Condition) :
    List (List Condition) :=
  match conditions with
  | [] => []
  | c :: rest =>
      (if !c.isRelationship && !c.nested.isEmpty then getDeepFirstSearchPaths c parents
        else []) ++ getDeepFirstSearchPathsList rest parents
termination_by (sizeOf conditions, 0)
end

/-- `createRelationshipPatternPart` from graph-ql-query-compiler.ts: the
`-[rel_<field><level>:<TYPE> <inline props>]->` fragment (or its reversed
arrows for non-OUT directions), with the variable omitted on request. -/
def createRelationshipPatternPart (relationshipDirective : Directive) (fieldName : String)
    (searchConditionTrees : List Condition) (level : String) (omitVariables : Bool) :
    List JsVal :=
  let relationshipType :=
    (relationshipDirective.args.find? (fun a => a.name == "type")).map (fun a => a.value)
  let relationshipDirection :=
    (relationshipDirective.args.find? (fun a => a.name == "direction")).map (fun a => a.value)
  let propertyMatchingPatternPart := createPropertyMatchingPatternPart searchConditionTrees false
  [.str (if isOutDirection relationshipDirection then "-" else "<-"), .str "["] ++
  (if omitVariables then [] else [.str ("rel_" ++ fieldName ++ level)]) ++
  [.str (":" ++ (match relationshipType with
    | some v => v.jsValueProp
    | none => "undefined"))] ++
  propertyMatchingPatternPart ++
  [.str "]", .str (if isOutDirection relationshipDirection then "->" else "-")]

/-- `createExistentialExpressionPatternByPathRecursive` from
graph-ql-query-compiler.ts: render the relationship chain of a search path;
group and OR conditions are skipped without consuming an index; the source
node pattern is emitted only at index 0. -/
def createExistentialExpressionPatternByPathRecursive
    (dirs : List (String × List Directive)) :
    List Condition → Int → Bool → Int → Except CompErr (List JsVal)
  | [], _, _, _ => .ok []
  | head :: rest, level, omitVariables, index =>
      if head.isOr || head.isGroup then
        createExistentialExpressionPatternByPathRecursive dirs rest level omitVariables index
      else do
        let pt ← (match head.parentType with
          | some t => Except.ok t
          | none => Except.error CompErr.typeErr)
        let relationshipField ← pt.lookupField (jsOptStr head.property)
        let key := pt.jsName ++ "." ++ stripConnectionSuffix relationshipField.name
        let rel ← (match ((dirs.lookup key).getD []).find? (fun d => d.name == "relationship") with
          | some d => Except.ok d
          | none => Except.error CompErr.typeErr)
        let fieldType := unwrapType relationshipField.type
        let target ← getTargetIfConnectionType fieldType
        let tail ← createExistentialExpressionPatternByPathRecursive dirs rest level
          omitVariables (index + 1)
        .ok ((if index == 0 then
            [.str "(", .str (toCamelCase pt.jsName ++ toString level), .str ")"]
          else []) ++
          createRelationshipPatternPart rel (jsOptStr head.property) head.nested
            (toString level ++ "_" ++ toString index) omitVariables ++
          [.str "("] ++
          (if omitVariables then []
            else [.str (toCamelCase fieldType.jsName ++ toString level ++ "_" ++ toString index)]) ++
          [.str (":" ++ target.jsName)] ++
          createPropertyMatchingPatternPart head.nested true ++
          [.str ")"] ++ tail)

/-- The `reduce` of `createExistentialWhereConditions`: pair every path
condition with the running index, which only advances past non-group,
non-OR conditions. -/
def existentialTuples (path : List Condition) : List (Condition × Int) :=
  (path.foldl (fun (a : Int × List (Condition × Int)) c =>
    ((if c.isGroup || c.isOr then a.1 else a.1 + 1), a.2 ++ [(c, a.1)])) (0, [])).2

/-- `tuples.flatMap(({condition, index}) => (condition.nested || [])
.flatMap(nested => createPropertyConditionExpressions(nested, level, index)))`. -/
def existentialTupleExpressions (tuples : List (Condition × Int)) (level : Int) :
    Except CompErr (List (List JsVal)) :=
  match tuples with
  | [] => .ok []
  | (c, idx) :: rest => do
      let h ← cpceChildren c.nested level (some idx) false
      let t ← existentialTupleExpressions rest level
      .ok (h ++ t)

/-- `createExistentialWhereConditions` from graph-ql-query-compiler.ts. -/
def createExistentialWhereConditions (path : List Condition) (level : Int) :
    Except CompErr (List (List JsVal)) := do
  let exprs ← existentialTupleExpressions (existentialTuples path) level
  .ok (insertBetweenTokenLists exprs [.str "AND"])

/-- `createExistentialExpressionPatternByPathRoot` from
graph-ql-query-compiler.ts: choose the fast `exists( … )` form when the path
qualifies, otherwise the slow `exists … WHERE … ` block form. -/
def createExistentialExpressionPatternByPathRoot (dirs : List (String × List Directive))
    (path : List Condition) (level : Int) : Except CompErr (List JsVal) := do
  let canFast := canCreateFastExistentialExpression path
  let patternElements ← createExistentialExpressionPatternByPathRecursive dirs path level
    canFast 0
  if canFast then
    .ok ([.str "exists", .str "("] ++ patternElements ++ [.str ")"])
  else do
    let whereConditions ← createExistentialWhereConditions path level
    .ok ([.str "exists", .str lbrace] ++ patternElements ++ [.str "WHERE"] ++
      whereConditions.flatten ++ [.str rbrace])

/-- `createConditionExpressions` from graph-ql-query-compiler.ts: paths made
only of groups, ORs, operator leaves or childless conditions render as plain
property predicates; anything else renders as an existential pattern. -/
def createConditionExpressions (dirs : List (String × List Directive))
    (path : List Condition) (level : Int) : Except CompErr (List JsVal) :=
  if path.all (fun c => c.isGroup || c.isOr || !(c.operator == "") || c.nested.isEmpty) then do
    let exprs ← cpceChildren path level none false
    .ok exprs.flatten
  else
    createExistentialExpressionPatternByPathRoot dirs path level

/-- `ORPaths.map(path => createConditionExpressions(path, level))` (and the
same for AND paths). -/
def mapConditionExpressions (dirs : List (String × List Directive))
    (paths : List (List Condition)) (level : Int) : Except CompErr (List (List JsVal)) :=
  match paths with
  | [] => .ok []
  | p :: rest => do
      let h ← createConditionExpressions dirs p level
      let t ← mapConditionExpressions dirs rest level
      .ok (h :: t)

/-- `createWhereCondition` from graph-ql-query-compiler.ts: relationship
conditions expand to depth-first paths, split into OR-joined and AND-joined
groups, with the plain property predicates appended; a WHERE keyword is
prepended only when anything was produced. -/
def createWhereCondition (dirs : List (String × List Directive))
    (conditionTrees : List Condition) (level : Int) : Except CompErr (List JsVal) := do
  let relationshipConditions := conditionTrees.filter isRelationshipCondition
  let allPaths := relationshipConditions.flatMap (fun c => getDeepFirstSearchPaths c [])
  let (orPaths, andPaths) := jsPartition allPaths (fun path => path.any (fun c => c.isOr))
  let orExprs ← mapConditionExpressions dirs orPaths level
  let andExprs ← mapConditionExpressions dirs andPaths level
  let treeExprs ← cpceChildren conditionTrees level none false
  let elements := (insertBetweenTokenLists
    ([(insertBetweenTokenLists orExprs [.str "OR"]).flatten] ++ andExprs ++ treeExprs)
    [.str "AND"]).flatten
  .ok (if !elements.isEmpty then .str "WHERE" :: elements else [])

/-- `createNodeMatchingExpression` from graph-ql-query-compiler.ts. -/
def createNodeMatchingExpression (dirs : List (String × List Directive))
    (fieldType : GqlType) (searchConditionTrees : List Condition) (level : Int) :
    Except CompErr (List JsVal) := do
  let whereCondition ← createWhereCondition dirs searchConditionTrees level
  .ok ([.str "(", .str (toCamelCase fieldType.jsName ++ toString level), .str ":",
    .str fieldType.jsName] ++
    createPropertyMatchingPatternPart searchConditionTrees true ++
    [.str ")"] ++ whereCondition)

/-- JS `array[array.length - k]`: undefined when the index falls outside the
array. -/
def nthFromEnd (l : List α) (k : Nat) : Option α :=
  if k ≤ l.length && k > 0 then l.get? (l.length - k) else none

/-- Object-spread accumulation `(a, field) => (…a, [key]: v)`: re-assigning
an existing key keeps its position, a new key appends. -/
def jsUpsert (fields : List (String × JsVal)) (key : String) (v : JsVal) :
    List (String × JsVal) :=
  if fields.any (fun f => f.1 == key) then
    fields.map (fun f => if f.1 == key then (key, v) else f)
  else fields ++ [(key, v)]

mutual
/-- `readOptions` from graph-ql-query-compiler.ts: turn the `options`
argument value into a runtime value; a missing node yields an empty object,
variables read the compiler variables, lists and objects recurse, strings
get single-quoted, int and float literals keep their raw source text (a
string!), null becomes null and the remaining literal kinds expose their
`.value`. -/
def readOptions (vars : List (String × JsVal)) : Option ValueNode → JsVal
  | none => .obj []
  | some (.variableV name) => (vars.lookup name).getD .undefJ
  | some (.listV values) => .arr (readOptionsList vars values)
  | some (.objectV fields) => .obj (readOptionsFields vars fields [])
  | some (.stringV s) => .str (sq ++ s ++ sq)
  | some .nullV => .null
  | some (.boolV b) => .bool b
  | some (.intV s) => .str s
  | some (.floatV s) => .str s
  | some (.enumV s) => .str s
termination_by node => sizeOf node

def readOptionsList (vars : List (String × JsVal)) : List ValueNode → List JsVal
  | [] => []
  | v :: rest => readOptions vars (some v) :: readOptionsList vars rest
termination_by values => 1 + sizeOf values

def readOptionsFields (vars : List (String × JsVal)) :
    List (String × ValueNode) → List (String × JsVal) → List (String × JsVal)
  | [], acc => acc
  | (name, v) :: rest, acc =>
      readOptionsFields vars rest (jsUpsert acc name (readOptions vars (some v)))
termination_by fields => 1 + sizeOf fields
end

/-- Modelled from the spec: the shared `castToArray` helper (imported from
shared code outside this repo slice).  Per the spec the `sort` option is an
object or a list of objects: a list stays itself, a missing value casts to
the empty list and anything else is wrapped in a singleton. -/
def castToArray : JsVal → List JsVal
  | .arr xs => xs
  | .null => []
  | .undefJ => []
  | v => [v]

/-- `Object.entries` on a runtime value: objects expose their fields, arrays
index-value pairs; null and undefined throw; other primitives expose
nothing except non-empty strings, whose index keys would fail the later
lookups. -/
def jsEntries : JsVal → Except CompErr (List (String × JsVal))
  | .obj fields => .ok fields
  | .arr xs => .ok (xs.enum.map (fun p => (toString p.1, p.2)))
  | .null => .error .typeErr
  | .undefJ => .error .typeErr
  | .str s => if s == "" then .ok [] else .error .typeErr
  | _ => .ok []

/-- `processOptions` from graph-ql-query-compiler.ts: parse the `options`
argument and emit, in order, ORDER BY entries, SKIP when the offset is not
empty (an explicit 0 included) and LIMIT when the limit is truthy.
`fieldTypeOpt` is `last(this.typePath)`, only consulted when sort entries
exist. -/
def processOptions (vars : List (String × JsVal)) (args : Option (List Argument))
    (fieldTypeOpt : Option (Option GqlType)) (level : Int) :
    Except CompErr (List JsVal) := do
  let options := readOptions vars
    (((args.getD []).find? (fun a => a.name == "options")).map (fun a => a.value))
  let sortV ← options.getProp "sort"
  let sortEntries ← (castToArray sortV).foldlM
    (fun (acc : List (String × JsVal)) v => do
      let es ← jsEntries v
      pure (acc ++ es)) []
  let sortItems : List String ←
    match sortEntries with
    | [] => pure []
    | es => do
        let name ← (match fieldTypeOpt with
          | some (some t) => Except.ok t.jsName
          | _ => Except.error CompErr.typeErr)
        pure (es.map (fun kv =>
          toCamelCase name ++ toString level ++ "." ++ kv.1 ++ " " ++ kv.2.jsToString))
  let offsetV ← options.getProp "offset"
  let limitV ← options.getProp "limit"
  .ok ((if !sortItems.isEmpty then
      [JsVal.str "ORDER BY"] ++ (insertBetweenStringItems sortItems ",").map JsVal.str
    else []) ++
    (if !offsetV.isEmptyValue then [JsVal.str "SKIP", JsVal.str offsetV.jsToString] else []) ++
    (if limitV.jsTruthy then [JsVal.str "LIMIT", JsVal.str limitV.jsToString] else []))

mutual
/-- The query-document selection AST (graphql FieldNode / SelectionNode /
SelectionSetNode). -/
inductive FieldNode where
  | mk (name : String) (aliasName : Option String) (arguments : List Argument)
       (selectionSet : Option SelectionSet)

inductive Selection where
  | field (f : FieldNode)
  | inlineFragment (typeCondition : Option String) (selectionSet : Option SelectionSet)
  | fragmentSpread (name : String)

inductive SelectionSet where
  | mk (selections : List Selection)
end

def FieldNode.name : FieldNode → String
  | .mk n _ _ _ => n

def FieldNode.aliasName : FieldNode → Option String
  | .mk _ a _ _ => a

def FieldNode.arguments : FieldNode → List Argument
  | .mk _ _ args _ => args

def FieldNode.selectionSet : FieldNode → Option SelectionSet
  | .mk _ _ _ ss => ss

/-- `fieldNode.alias?.value || fieldNode.name.value`. -/
def FieldNode.aliasOrName (f : FieldNode) : String :=
  match f.aliasName with
  | some a => if a == "" then f.name else a
  | none => f.name

/-- An operation definition: only its selection set matters to the walk. -/
structure OperationDefinition where
  selectionSet : SelectionSet

/-- The AST node kinds the emitter distinguishes when closing a selection
set. -/
inductive NodeKind where
  | operationDefinitionKind
  | fieldKind
  | inlineFragmentKind
  | fragmentDefinitionKind
deriving DecidableEq

/-- The compiler environment: the schema as a type-name resolver, the
process-wide `typeFieldsToDirectivesMap` directive index (built outside the
compiler from the schema SDL), the compiler variables, the fragments table
of the traversal info, and the root field name used to filter the operation
root selection set. -/
structure Env where
  schema : List (String × GqlType)
  dirs : List (String × List Directive)
  vars : List (String × JsVal)
  fragments : List (String × SelectionSet)
  rootFieldName : String

/-- models.ts `Token`. -/
structure Token where
  type : String
  level : Int
  value : List JsVal

/-- `"single" | "list" | null`. -/
inductive LCFlag where
  | nullFlag
  | single
  | list
deriving DecidableEq

/-- The mutable compiler state of GraphQlQueryCompiler. -/
structure CState where
  fieldPath : List GqlField
  fieldNodePath : List FieldNode
  typePath : List (Option GqlType)
  listComprehensionFlagPath : List LCFlag
  level : Int
  buffer : List JsVal
  tokenBuffer : List Token

/-- `visitOperation`: reset all state; `typePath` starts with the schema
Query type (undefined when the schema lacks one). -/
def visitOperationState (env : Env) : CState :=
  { fieldPath := [], fieldNodePath := [], typePath := [env.schema.lookup "Query"],
    listComprehensionFlagPath := [], level := -1, buffer := [], tokenBuffer := [] }

/-- `tryGetSystemFieldValue`: only `__typename`, rendered from the top of
the type path (the text null when the path is empty or its top is
undefined). -/
def tryGetSystemFieldValue (s : CState) (field : FieldNode) : Option (List JsVal) :=
  if field.name == "__typename" then
    some [.str field.name, .str ":",
      match s.typePath.getLast? with
      | some (some t) => .str (sq ++ t.jsName ++ sq)
      | _ => .str "null"]
  else none

/-- `getCypherDirective`: look up `Type.field` for the enclosing type and the
current field in the directive index. -/
def getCypherDirective (env : Env) (s : CState) : Except CompErr (Option Directive) := do
  let parent ← (match nthFromEnd s.typePath 2 with
    | some (some t) => Except.ok t
    | _ => Except.error CompErr.typeErr)
  let fieldName ← (match s.fieldPath.getLast? with
    | some f => Except.ok f.name
    | none => Except.error CompErr.typeErr)
  .ok (((env.dirs.lookup (parent.jsName ++ "." ++ fieldName)).getD []).find?
    (fun d => d.name == "cypher"))

/-- `getRelationshipDirective`: none for connection-suffixed fields; for
`edges` shift one frame further back; the looked-up field name has its
connection suffix stripped (a missing path entry reads as the text
undefined). -/
def getRelationshipDirective (env : Env) (s : CState) : Except CompErr (Option Directive) := do
  let lastField ← (match s.fieldPath.getLast? with
    | some f => Except.ok f
    | none => Except.error CompErr.typeErr)
  let fieldName := lastField.name
  if testConnectionSuffix fieldName then .ok none
  else do
    let shift : Nat := if fieldName == "edges" then 1 else 0
    let parent ← (match nthFromEnd s.typePath (2 + shift) with
      | some (some t) => Except.ok t
      | _ => Except.error CompErr.typeErr)
    let fname := (match nthFromEnd s.fieldPath (1 + shift) with
      | some f => stripConnectionSuffix f.name
      | none => "undefined")
    .ok (((env.dirs.lookup (parent.jsName ++ "." ++ fname)).getD []).find?
      (fun d => d.name == "relationship"))

/-- `getClosestNodeLevel`: scan backwards through all but the last field for
the most recent field that is neither `node` nor connection-suffixed
(`findIndex` yields -1 when absent). -/
def getClosestNodeLevel (s : CState) : Int :=
  let sliced := (s.fieldPath.take (s.fieldPath.length - 1)).reverse
  let idx : Int := (match sliced.findIdx?
      (fun f => !(f.name == "node") && !(testConnectionSuffix f.name)) with
    | some i => (i : Int)
    | none => -1)
  (s.fieldPath.length : Int) - 2 - idx

/-- `nodeVariableName`: the connection-unwrapped type three frames back,
camel-cased, at the previous level. -/
def nodeVariableName (s : CState) : Except CompErr String := do
  let t ← (match nthFromEnd s.typePath 3 with
    | some (some t) => Except.ok t
    | _ => Except.error CompErr.typeErr)
  let target ← getTargetIfConnectionType t
  .ok (toCamelCase target.jsName ++ toString (s.level - 1))

/-- `createCypherCodeCallExpression`: the apoc.cypher.runFirstColumn call
with the quoted statement and the closest node as `this`. -/
def createCypherCodeCallExpression (s : CState) (cypherDirective : Directive) :
    Except CompErr (List JsVal) := do
  let statementArgument ← (match cypherDirective.args.find?
      (fun a => a.name == "statement") with
    | some a => Except.ok a
    | none => Except.error CompErr.typeErr)
  let statement := statementArgument.value.jsValueProp
  let parent ← (match nthFromEnd s.typePath 2 with
    | some (some t) => Except.ok t
    | _ => Except.error CompErr.typeErr)
  .ok [.str "apoc.cypher.runFirstColumn(", .str ("\"" ++ statement ++ "\""), .str ",",
    .str lbrace, .str "this", .str ":",
    .str (toCamelCase parent.jsName ++ toString (getClosestNodeLevel s)), .str ",",
    .str "cypherParams", .str ":", .str "$cypherParams", .str rbrace, .str ")"]

/-- `insertTopLevelExpression`: UNWIND for cypher-directive roots, otherwise
MATCH with the node matching expression built from the `where` conditions. -/
def insertTopLevelExpression (env : Env) (s : CState) (fieldNode : FieldNode)
    (fieldType : GqlType) (cypherDirective : Option Directive) :
    Except CompErr (List JsVal) := do
  let fieldName := toCamelCase fieldType.jsName ++ toString s.level
  match cypherDirective with
  | some d => do
      let call ← createCypherCodeCallExpression s d
      .ok ([.str "UNWIND"] ++ call ++ [.str "as", .str fieldName, .str "RETURN",
        .str fieldName])
  | none => do
      let searchConditionTrees ← createConditionTreesByField env.vars
        (some fieldNode.arguments) fieldType fieldNode.name
      let nme ← createNodeMatchingExpression env.dirs fieldType searchConditionTrees s.level
      .ok ([.str "MATCH"] ++ nme ++ [.str "RETURN", .str fieldName])

/-- `createRelationshipBasedComprehension`: the
`[ (src) -[rel…]- (tgt…) | yielded` fragment (the closing bracket is added
by visitEndField). -/
def createRelationshipBasedComprehension (env : Env) (s : CState) (fieldNode : FieldNode)
    (relationshipDirective : Directive) : Except CompErr (List JsVal) := do
  let isEdges := fieldNode.name == "edges"
  let k2 : Nat := if isEdges then 3 else 2
  let k1 : Nat := if isEdges then 2 else 1
  let relationshipType ← (match nthFromEnd s.typePath k1 with
    | some (some t) => Except.ok t
    | _ => Except.error CompErr.typeErr)
  let targetType ← getTargetIfConnectionType relationshipType
  let relationshipFieldNode ← (match nthFromEnd s.fieldNodePath k1 with
    | some f => Except.ok f
    | none => Except.error CompErr.typeErr)
  let searchConditionTrees ← createConditionTreesByField env.vars
    (some relationshipFieldNode.arguments) relationshipType relationshipFieldNode.name
  let sourceType ← (match nthFromEnd s.typePath k2 with
    | some (some t) => Except.ok t
    | _ => Except.error CompErr.typeErr)
  let rpp := createRelationshipPatternPart relationshipDirective fieldNode.name
    searchConditionTrees (toString s.level) false
  let nme ← createNodeMatchingExpression env.dirs targetType searchConditionTrees s.level
  .ok ([.str "[",
    .str ("(" ++ toCamelCase sourceType.jsName ++ toString (getClosestNodeLevel s) ++ ")")] ++
    rpp ++ nme ++
    [.str "|", .str (if isEdges then "rel_" ++ fieldNode.name ++ toString s.level
      else toCamelCase targetType.jsName ++ toString s.level)])

/-- `createCypherBasedListComprehension`: `[ x in apoc.… | x` (the closing
bracket is added by visitEndField). -/
def createCypherBasedListComprehension (s : CState) (cypherDirective : Directive) :
    Except CompErr (List JsVal) := do
  let lastField ← (match s.fieldPath.getLast? with
    | some f => Except.ok f
    | none => Except.error CompErr.typeErr)
  let fieldType := unwrapType lastField.type
  let call ← createCypherCodeCallExpression s cypherDirective
  let v := toCamelCase fieldType.jsName ++ toString s.level
  .ok ([.str "[", .str v, .str "in"] ++ call ++ [.str "|", .str v])

/-- Append a finished token at the given level. -/
def pushToken (s : CState) (level : Int) (value : List JsVal) : CState :=
  { s with tokenBuffer := s.tokenBuffer ++ [⟨"property-selector", level, value⟩] }

/-- Append tokens to the value of the last token in the buffer (no-op when
the buffer is empty, matching the optional-chained call). -/
def appendToLastToken (s : CState) (toks : List JsVal) : CState :=
  match s.tokenBuffer.getLast? with
  | some t => { s with tokenBuffer := s.tokenBuffer.dropLast ++ [{ t with value := t.value ++ toks }] }
  | none => s

/-- `this.listComprehensionFlagPath[length - 1] = flag` (writing at index -1
of an empty JS array creates no element). -/
def setLastFlag (s : CState) (flag : LCFlag) : CState :=
  if s.listComprehensionFlagPath.isEmpty then s
  else { s with listComprehensionFlagPath := s.listComprehensionFlagPath.dropLast ++ [flag] }

/-- `visitField` from graph-ql-query-compiler.ts.  Returns the new state and
the handled flag (true stops descent). -/
def visitField (env : Env) (fieldNode : FieldNode) (s : CState) :
    Except CompErr (CState × Bool) := do
  let isConnection := testConnectionSuffix fieldNode.name
  let level := s.level + 1
  let sL := { s with level := level }
  match tryGetSystemFieldValue sL fieldNode with
  | some systemValue => .ok (pushToken sL level systemValue, false)
  | none => do
    let lastType ← (match sL.typePath.getLast? with
      | some (some t) => Except.ok t
      | _ => Except.error CompErr.typeErr)
    let schemaField ← lastType.lookupField fieldNode.name
    let fieldType := unwrapType schemaField.type
    let s2 := { sL with
      fieldNodePath := sL.fieldNodePath ++ [fieldNode],
      fieldPath := sL.fieldPath ++ [schemaField],
      listComprehensionFlagPath := sL.listComprehensionFlagPath ++ [LCFlag.nullFlag],
      typePath := sL.typePath ++ [some fieldType] }
    let cypherDirective ← getCypherDirective env s2
    let relationshipDirective ← getRelationshipDirective env s2
    if level == 0 then do
      let toks ← insertTopLevelExpression env s2 fieldNode fieldType cypherDirective
      .ok (pushToken s2 level toks, false)
    else if fieldType.isScalar || fieldType.isEnum then
      match cypherDirective with
      | some d => do
          let call ← createCypherCodeCallExpression s2 d
          .ok (pushToken s2 level
            ([.str fieldNode.aliasOrName, .str ":"] ++ call ++
              (if (unwrapNullableType schemaField.type).isList then [] else [.str "[0]"])),
            false)
      | none => .ok (pushToken s2 level [.str ("." ++ fieldNode.name)], false)
    else
      let pre : List JsVal := [.str fieldNode.aliasOrName, .str ":"]
      if cypherDirective.isNone && relationshipDirective.isNone then
        if fieldNode.name == "node" then do
          let nv ← nodeVariableName s2
          .ok (pushToken s2 level (pre ++ [.str nv]), false)
        else if !isConnection then
          .ok (pushToken s2 level (pre ++ [.str "null"]), true)
        else
          .ok (pushToken s2 level pre, false)
      else do
        let flag := if (relationshipDirective.isSome || cypherDirective.isSome) &&
            (unwrapNullableType schemaField.type).isList then LCFlag.list else LCFlag.single
        let s3 := setLastFlag s2 flag
        match cypherDirective with
        | some d => do
            let comp ← createCypherBasedListComprehension s3 d
            .ok (pushToken s3 level (pre ++ comp), false)
        | none => do
            let rel ← (match relationshipDirective with
              | some d => Except.ok d
              | none => Except.error CompErr.typeErr)
            let comp ← createRelationshipBasedComprehension env s3 fieldNode rel
            .ok (pushToken s3 level (pre ++ comp), false)

/-- `visitEndField` from graph-ql-query-compiler.ts. -/
def visitEndField (env : Env) (fieldNode : FieldNode) (s : CState) :
    Except CompErr CState := do
  let s1 ←
    if s.level == 0 then
      match s.tokenBuffer.getLast? with
      | none => pure s
      | some _ => do
          let opts ← processOptions env.vars (some fieldNode.arguments)
            (s.typePath.getLast?) s.level
          pure (appendToLastToken s opts)
    else pure s
  if (tryGetSystemFieldValue s1 fieldNode).isSome then
    .ok { s1 with level := s1.level - 1 }
  else do
    let flag := s1.listComprehensionFlagPath.getLast?
    let s2 := { s1 with
      listComprehensionFlagPath := s1.listComprehensionFlagPath.dropLast }
    let s3 ←
      if (match flag with
          | some LCFlag.single => true
          | some LCFlag.list => true
          | _ => false) && s2.level > 0 then
        match s2.tokenBuffer.getLast? with
        | none => Except.error CompErr.typeErr
        | some _ => pure (appendToLastToken s2
            (match flag with
              | some LCFlag.list => [JsVal.str "]"]
              | _ => [JsVal.str "]", JsVal.str "[0]"]))
      else pure s2
    .ok { s3 with
      fieldNodePath := s3.fieldNodePath.dropLast,
      fieldPath := s3.fieldPath.dropLast,
      typePath := s3.typePath.dropLast,
      level := s3.level - 1 }

/-- `visitEndSelectionSet` from graph-ql-query-compiler.ts: collapse the
tokens of the closing level into a map projection attached to the parent
token or, at the top, to the main buffer; fragment parents do nothing. -/
def visitEndSelectionSet (parentKind : NodeKind) (s : CState) : CState :=
  if parentKind == NodeKind.fragmentDefinitionKind ||
      parentKind == NodeKind.inlineFragmentKind || s.level == -1 then s
  else
    let (thisLevelFieldTokens, upperLevelFieldTokens) := jsPartition s.tokenBuffer
      (fun token => token.type == "property-selector" && token.level > s.level)
    let payload := [JsVal.str lbrace] ++
      (insertBetweenTokenLists (thisLevelFieldTokens.map (fun t => t.value))
        [.str ","]).flatten ++ [JsVal.str rbrace]
    match upperLevelFieldTokens.getLast? with
    | some t => { s with tokenBuffer := upperLevelFieldTokens.dropLast ++
        [{ t with value := t.value ++ payload }] }
    | none => { s with tokenBuffer := [], buffer := s.buffer ++ payload }

/-- `visitInlineFragment`: a missing type condition raises; otherwise the
type named by the condition (undefined when the schema lacks it) is pushed
onto the type path. -/
def visitInlineFragment (env : Env) (typeCondition : Option String) (s : CState) :
    Except CompErr CState :=
  match typeCondition with
  | none => .error (.apollo "Type condition is not specified")
  | some name => .ok { s with typePath := s.typePath ++ [env.schema.lookup name] }

/-- `visitEndInlineFragment`. -/
def visitEndInlineFragment (s : CState) : CState :=
  { s with typePath := s.typePath.dropLast }

/-- `compile` from graph-ql-query-compiler.ts: flush the token buffer into
the main buffer and join with single spaces. -/
def compile (s : CState) : String × CState :=
  let buffer := s.buffer ++ (s.tokenBuffer.flatMap (fun token => token.value))
  (String.intercalate " " (buffer.map JsVal.joinElem),
    { s with buffer := buffer, tokenBuffer := [] })

mutual
/-- `GraphQlQueryTraverse.walk` from graph-ql-query-traverse.ts, driving the
compiler visitor.  The returned list is the trace of compiler states
observed right after each visitor callback.  `fuel` bounds fragment-spread
chasing (cyclic fragments would not terminate in the source either); an
exhausted fuel is modelled as a failure. -/
def walkNode (env : Env) (fuel : Nat) (node : Selection) (s : CState) :
    Except CompErr (CState × List CState) :=
  match node with
  | .field (.mk name al args ss) => do
      let fieldNode := FieldNode.mk name al args ss
      let (s1, isHandled) ← visitField env fieldNode s
      let (s2, tr2) ←
        if !isHandled then
          walkSelectionSetOf env fuel NodeKind.fieldKind ss s1
        else pure (s1, [])
      let s3 ← visitEndField env fieldNode s2
      .ok (s3, [s1] ++ tr2 ++ [s3])
  | .inlineFragment typeCondition ss => do
      let s1 ← visitInlineFragment env typeCondition s
      let (s2, tr2) ← walkSelectionSetOf env fuel NodeKind.inlineFragmentKind ss s1
      let s3 := visitEndInlineFragment s2
      .ok (s3, [s1] ++ tr2 ++ [s3])
  | .fragmentSpread name =>
      match fuel with
      | 0 => .error CompErr.typeErr
      | fuel + 1 =>
          match env.fragments.lookup name with
          | some ss => walkSelectionSetOf env fuel NodeKind.fragmentDefinitionKind
              (some ss) s
          | none => .error CompErr.typeErr
termination_by (fuel, sizeOf node)

/-- `walkSelectionSet` for non-root nodes: walk the child selections, then
fire visitEndSelectionSet with the parent kind.  (At the operation root the
selections are filtered to the root field first; `walkOperation` below does
that specialization.) -/
def walkSelectionSetOf (env : Env) (fuel : Nat) (parentKind : NodeKind)
    (ss : Option SelectionSet) (s : CState) :
    Except CompErr (CState × List CState) :=
  match ss with
  | none => .ok (s, [])
  | some (.mk selections) => do
      let (s1, tr1) ← walkSelections env fuel selections s
      let s2 := visitEndSelectionSet parentKind s1
      .ok (s2, tr1 ++ [s2])
termination_by (fuel, sizeOf ss)

/-- Walk a list of selections in order. -/
def walkSelections (env : Env) (fuel : Nat) (selections : List Selection) (s : CState) :
    Except CompErr (CState × List CState) :=
  match selections with
  | [] => .ok (s, [])
  | sel :: rest => do
      let (s1, tr1) ← walkNode env fuel sel s
      let (s2, tr2) ← walkSelections env fuel rest s1
      .ok (s2, tr1 ++ tr2)
termination_by (fuel, sizeOf selections)
end

/-- `walk` on an operation definition: visitOperation, then the root
selection set restricted to the root field name. -/
def walkOperation (env : Env) (fuel : Nat) (op : OperationDefinition) :
    Except CompErr (CState × List CState) := do
  let s0 := visitOperationState env
  let selections := (match op.selectionSet with | .mk sels => sels)
  let filtered := selections.filter (fun sel =>
    match sel with
    | .field f => f.name == env.rootFieldName
    | _ => false)
  let (s1, tr1) ← walkSelections env fuel filtered s0
  let s2 := visitEndSelectionSet NodeKind.operationDefinitionKind s1
  .ok (s2, [s0] ++ tr1 ++ [s2])

/-- The full pipeline of graph-ql-db-reader.ts: construct the compiler (its
constructor calls visitOperation), walk the operation and compile. -/
def compileQuery (env : Env) (fuel : Nat) (op : OperationDefinition) :
    Except CompErr String := do
  let (s1, _) ← walkOperation env fuel op
  .ok (compile s1).1

/-! ## Claim theorems -/

/-- Bind on a successful Except is application. -/
theorem exceptOkBind (a : α) (f : α → Except CompErr β) : (Except.ok a >>= f) = f a := rfl

/-- Bind on a failed Except propagates the error. -/
theorem exceptErrBind (e : CompErr) (f : α → Except CompErr β) :
    ((Except.error e : Except CompErr α) >>= f) = Except.error e := rfl

/-- Bind on a pure Except value is application. -/
theorem exceptPureBind (a : α) (f : α → Except CompErr β) :
    ((pure a : Except CompErr α) >>= f) = f a := rfl

/-- C1: for every leaf Condition and level, with X the accessor
`prefix.property` and v the value, the single-property predicate emitter
produces: EQUALS (also when the operator is absent) the tokens X = v; NOT
gives X <> v; GT X > v; GTE X >= v; LT X < v; LTE X <= v; IN X IN v;
NOT_IN NOT ( X IN v ); CONTAINS X CONTAINS v; NOT_CONTAINS
NOT ( X CONTAINS v ); ENDS_WITH X ENDS WITH v; NOT_ENDS_WITH
NOT ( X ENDS WITH v ); MATCHES X =~ v; INCLUDES v IN X with the argument
order reversed; and every operator outside this set fails with a
compilation error whose message contains the offending operator text. -/
theorem C1_single_property_operator_table (c : Condition) (lvl : String) (X : String)
    (hX : propertyAccessorExpression c lvl = Except.ok X) :
    ((c.operator = "EQUALS" ∨ c.operator = "") →
      createSinglePropertyConditionExpression c lvl =
        Except.ok [JsVal.str X, JsVal.str "=", c.value]) ∧
    (c.operator = "NOT" →
      createSinglePropertyConditionExpression c lvl =
        Except.ok [JsVal.str X, JsVal.str "<>", c.value]) ∧
    (c.operator = "GT" →
      createSinglePropertyConditionExpression c lvl =
        Except.ok [JsVal.str X, JsVal.str ">", c.value]) ∧
    (c.operator = "GTE" →
      createSinglePropertyConditionExpression c lvl =
        Except.ok [JsVal.str X, JsVal.str ">=", c.value]) ∧
    (c.operator = "LT" →
      createSinglePropertyConditionExpression c lvl =
        Except.ok [JsVal.str X, JsVal.str "<", c.value]) ∧
    (c.operator = "LTE" →
      createSinglePropertyConditionExpression c lvl =
        Except.ok [JsVal.str X, JsVal.str "<=", c.value]) ∧
    (c.operator = "IN" →
      createSinglePropertyConditionExpression c lvl =
        Except.ok [JsVal.str X, JsVal.str "IN", c.value]) ∧
    (c.operator = "NOT_IN" →
      createSinglePropertyConditionExpression c lvl =
        Except.ok [JsVal.str "NOT", JsVal.str "(", JsVal.str X, JsVal.str "IN", c.value,
          JsVal.str ")"]) ∧
    (c.operator = "CONTAINS" →
      createSinglePropertyConditionExpression c lvl =
        Except.ok [JsVal.str X, JsVal.str "CONTAINS", c.value]) ∧
    (c.operator = "NOT_CONTAINS" →
      createSinglePropertyConditionExpression c lvl =
        Except.ok [JsVal.str "NOT", JsVal.str "(", JsVal.str X, JsVal.str "CONTAINS",
          c.value, JsVal.str ")"]) ∧
    (c.operator = "ENDS_WITH" →
      createSinglePropertyConditionExpression c lvl =
        Except.ok [JsVal.str X, JsVal.str "ENDS WITH", c.value]) ∧
    (c.operator = "NOT_ENDS_WITH" →
      createSinglePropertyConditionExpression c lvl =
        Except.ok [JsVal.str "NOT", JsVal.str "(", JsVal.str X, JsVal.str "ENDS WITH",
          c.value, JsVal.str ")"]) ∧
    (c.operator = "MATCHES" →
      createSinglePropertyConditionExpression c lvl =
        Except.ok [JsVal.str X, JsVal.str "=~", c.value]) ∧
    (c.operator = "INCLUDES" →
      createSinglePropertyConditionExpression c lvl =
        Except.ok [c.value, JsVal.str "IN", JsVal.str X]) ∧
    (c.operator ∉ (["", "EQUALS", "NOT", "GT", "GTE", "LT", "LTE", "IN", "NOT_IN",
        "CONTAINS", "NOT_CONTAINS", "ENDS_WITH", "NOT_ENDS_WITH", "MATCHES",
        "INCLUDES"] : List String) →
      createSinglePropertyConditionExpression c lvl =
        Except.error (CompErr.apollo ("Unknown operator: " ++ c.operator))) := by
  refine ⟨?_, ?_, ?_, ?_, ?_, ?_, ?_, ?_, ?_, ?_, ?_, ?_, ?_, ?_, ?_⟩
  · rintro (h | h) <;> simp [createSinglePropertyConditionExpression, exceptOkBind, exceptErrBind, hX, h]
  all_goals intro h
  case _ => simp [createSinglePropertyConditionExpression, exceptOkBind, exceptErrBind, hX, h]
  case _ => simp [createSinglePropertyConditionExpression, exceptOkBind, exceptErrBind, hX, h]
  case _ => simp [createSinglePropertyConditionExpression, exceptOkBind, exceptErrBind, hX, h]
  case _ => simp [createSinglePropertyConditionExpression, exceptOkBind, exceptErrBind, hX, h]
  case _ => simp [createSinglePropertyConditionExpression, exceptOkBind, exceptErrBind, hX, h]
  case _ => simp [createSinglePropertyConditionExpression, exceptOkBind, exceptErrBind, hX, h]
  case _ => simp [createSinglePropertyConditionExpression, exceptOkBind, exceptErrBind, hX, h]
  case _ => simp [createSinglePropertyConditionExpression, exceptOkBind, exceptErrBind, hX, h]
  case _ => simp [createSinglePropertyConditionExpression, exceptOkBind, exceptErrBind, hX, h]
  case _ => simp [createSinglePropertyConditionExpression, exceptOkBind, exceptErrBind, hX, h]
  case _ => simp [createSinglePropertyConditionExpression, exceptOkBind, exceptErrBind, hX, h]
  case _ => simp [createSinglePropertyConditionExpression, exceptOkBind, exceptErrBind, hX, h]
  case _ => simp [createSinglePropertyConditionExpression, exceptOkBind, exceptErrBind, hX, h]
  case _ =>
    simp only [List.mem_cons, List.mem_singleton, not_or] at h
    obtain ⟨h0, h1, h2, h3, h4, h5, h6, h7, h8, h9, h10, h11, h12, h13, h14⟩ := h
    simp [createSinglePropertyConditionExpression, exceptOkBind, exceptErrBind, hX,
      h0, h1, h2, h3, h4, h5, h6, h7, h8, h9, h10, h11, h12, h13, h14]

/-- The concrete condition used to witness C1: a non-relationship leaf with
operator GT. -/
def c1cond : Condition :=
  Condition.mk (some (GqlType.obj "Thing" [])) none (some "p") "GT" false false false
    (JsVal.str "3") []

/-- Witness for C1 at the GT operator on a concrete condition. -/
theorem C1_witness :
    createSinglePropertyConditionExpression c1cond "0" =
      Except.ok [JsVal.str "thing0.p", JsVal.str ">", JsVal.str "3"] :=
  (C1_single_property_operator_table c1cond "0" "thing0.p" rfl).2.2.1 rfl

/-- C5: the inline property pattern contains exactly the conditions with an
empty nested list, an isRelationship flag matching the caller's
node-vs-relationship flag, a non-list value and no operator, rendered as
`prop: value` entries inside single braces; and an equality-only leaf
condition (no operator, not a group, not an OR) contributes nothing to the
WHERE-side property condition expressions, so it surfaces inside the
pattern rather than as a WHERE equality predicate. -/
theorem C5_inline_pattern_exactness (trees : List Condition) (isNode : Bool) (lvl : Int) :
    (createPropertyMatchingPatternPart trees isNode =
      (let items := (trees.filter (fun c =>
          decide (isNode = !c.isRelationship) && c.nested.isEmpty &&
          !c.value.isArray && decide (c.operator = ""))).map
        (fun c => jsOptStr c.property ++ ": " ++ c.value.jsToString)
       if items.isEmpty then [] else
        [JsVal.str (lbrace ++ String.intercalate ", " items ++ rbrace)])) ∧
    (∀ c : Condition, c.isOr = false → c.isGroup = false → c.operator = "" →
      createPropertyConditionExpressions c lvl none false = Except.ok []) := by
  constructor
  · have hpred : ∀ c : Condition,
        ((isNode == !c.isRelationship) && c.nested.isEmpty && !c.value.isArray &&
          (c.operator == "")) =
        (decide (isNode = !c.isRelationship) && c.nested.isEmpty && !c.value.isArray &&
          decide (c.operator = "")) := by
      intro c
      rw [Bool.eq_iff_iff]
      simp [Bool.and_eq_true, beq_iff_eq]
    simp only [createPropertyMatchingPatternPart]
    rw [List.filter_congr (fun c _ => hpred c)]
    generalize (List.map (fun c => jsOptStr c.property ++ ": " ++ c.value.jsToString)
      (List.filter (fun c => decide (isNode = !c.isRelationship) && c.nested.isEmpty &&
        !c.value.isArray && decide (c.operator = "")) trees)) = items
    cases hI : items.isEmpty <;> simp [hI]
  · intro c hOr hGroup hop
    cases c with
    | mk pt ppn prop op isOr isGroup isRel v nested =>
      simp only [Condition.isOr] at hOr
      simp only [Condition.isGroup] at hGroup
      simp only [Condition.operator] at hop
      subst hOr hGroup hop
      simp [createPropertyConditionExpressions]

/-- A concrete equality-only leaf (no operator, not group, not OR). -/
def c5leaf : Condition :=
  Condition.mk (some (GqlType.obj "Thing" [])) none (some "q") "" false false false
    (JsVal.str (sq ++ "x" ++ sq)) []

/-- Witness for C5 at a concrete singleton tree with an equality-only leaf. -/
theorem C5_witness :
    (createPropertyMatchingPatternPart [c1cond] false =
      (let items := ([c1cond].filter (fun c =>
          decide (false = !c.isRelationship) && c.nested.isEmpty &&
          !c.value.isArray && decide (c.operator = ""))).map
        (fun c => jsOptStr c.property ++ ": " ++ c.value.jsToString)
       if items.isEmpty then [] else
        [JsVal.str (lbrace ++ String.intercalate ", " items ++ rbrace)])) ∧
    createPropertyConditionExpressions c5leaf 0 none false = Except.ok [] :=
  ⟨(C5_inline_pattern_exactness [c1cond] false 0).1,
    (C5_inline_pattern_exactness [c1cond] false 0).2 c5leaf rfl rfl rfl⟩

mutual
/-- The walk result does not depend on the fuel bound once it succeeds:
raising the bound reproduces the same final state and trace. -/
theorem walkNode_fuel_mono (env : Env) (fuel fuelB : Nat) (node : Selection) (s : CState)
    (r : CState × List CState) (hle : fuel ≤ fuelB)
    (h : walkNode env fuel node s = Except.ok r) :
    walkNode env fuelB node s = Except.ok r := by
  cases node with
  | field fn =>
      cases fn with
      | mk name al args ss =>
        simp only [walkNode] at h ⊢
        cases hv : visitField env (FieldNode.mk name al args ss) s with
        | error e => simp [hv, exceptErrBind] at h
        | ok p =>
            rw [hv] at h
            simp only [exceptOkBind] at h ⊢
            obtain ⟨s1, isHandled⟩ := p
            simp only at h ⊢
            cases hHandled : isHandled with
            | true =>
                rw [hHandled] at h
                simp only [Bool.not_true, reduceIte] at h ⊢
                exact h
            | false =>
                rw [hHandled] at h
                simp only [Bool.not_false, reduceIte] at h ⊢
                cases hm : walkSelectionSetOf env fuel NodeKind.fieldKind ss s1 with
                | error e => simp [hm, exceptErrBind] at h
                | ok q =>
                    rw [hm] at h
                    rw [walkSelectionSetOf_fuel_mono env fuel fuelB NodeKind.fieldKind
                      ss s1 q hle hm]
                    exact h
  | inlineFragment tc ss =>
      simp only [walkNode] at h ⊢
      cases hv : visitInlineFragment env tc s with
      | error e => simp [hv, exceptErrBind] at h
      | ok s1 =>
          rw [hv] at h
          simp only [exceptOkBind] at h ⊢
          cases hm : walkSelectionSetOf env fuel NodeKind.inlineFragmentKind ss s1 with
          | error e => simp [hm, exceptErrBind] at h
          | ok q =>
              rw [hm] at h
              rw [walkSelectionSetOf_fuel_mono env fuel fuelB NodeKind.inlineFragmentKind
                ss s1 q hle hm]
              exact h
  | fragmentSpread name =>
      cases fuel with
      | zero => simp [walkNode] at h
      | succ fuelP =>
          cases fuelB with
          | zero => omega
          | succ fuelBP =>
              simp only [walkNode] at h ⊢
              cases hf : env.fragments.lookup name with
              | none => rw [hf] at h; exact Except.noConfusion h
              | some ss =>
                  rw [hf] at h
                  exact walkSelectionSetOf_fuel_mono env fuelP fuelBP
                    NodeKind.fragmentDefinitionKind (some ss) s r (by omega) h
termination_by (fuel, sizeOf node, 0)

theorem walkSelectionSetOf_fuel_mono (env : Env) (fuel fuelB : Nat) (parentKind : NodeKind)
    (ss : Option SelectionSet) (s : CState) (r : CState × List CState) (hle : fuel ≤ fuelB)
    (h : walkSelectionSetOf env fuel parentKind ss s = Except.ok r) :
    walkSelectionSetOf env fuelB parentKind ss s = Except.ok r := by
  cases ss with
  | none => simpa [walkSelectionSetOf] using h
  | some sset =>
      cases sset with
      | mk selections =>
          simp only [walkSelectionSetOf] at h ⊢
          cases hm : walkSelections env fuel selections s with
          | error e => simp [hm, exceptErrBind] at h
          | ok q =>
              rw [hm] at h
              rw [walkSelections_fuel_mono env fuel fuelB selections s q hle hm]
              exact h
termination_by (fuel, sizeOf ss, 0)

theorem walkSelections_fuel_mono (env : Env) (fuel fuelB : Nat)
    (selections : List Selection) (s : CState) (r : CState × List CState)
    (hle : fuel ≤ fuelB) (h : walkSelections env fuel selections s = Except.ok r) :
    walkSelections env fuelB selections s = Except.ok r := by
  cases selections with
  | nil => simpa [walkSelections] using h
  | cons sel rest =>
      simp only [walkSelections] at h ⊢
      cases hm : walkNode env fuel sel s with
      | error e => simp [hm, exceptErrBind] at h
      | ok q =>
          rw [hm] at h
          rw [walkNode_fuel_mono env fuel fuelB sel s q hle hm]
          simp only [exceptOkBind] at h ⊢
          obtain ⟨s1, tr1⟩ := q
          simp only at h ⊢
          cases hm2 : walkSelections env fuel rest s1 with
          | error e => simp [hm2, exceptErrBind] at h
          | ok q2 =>
              rw [hm2] at h
              rw [walkSelections_fuel_mono env fuel fuelB rest s1 q2 hle hm2]
              exact h
termination_by (fuel, sizeOf selections, 1)
end

/-- C8: compilation is a deterministic function of schema, document and
variables.  In this embedding the only extra parameter is the fuel bound of
the fragment-spread walk, and a successful compilation is independent of
it: identical inputs give the byte-identical Cypher string for any
sufficient bound. -/
theorem C8_compile_deterministic (env envB : Env) (op opB : OperationDefinition)
    (fuel fuelB : Nat) (out : String) (hEnv : env = envB) (hOp : op = opB)
    (hle : fuel ≤ fuelB) (h : compileQuery env fuel op = Except.ok out) :
    compileQuery envB fuelB opB = Except.ok out := by
  subst hEnv hOp
  simp only [compileQuery, walkOperation] at h ⊢
  cases hm : walkSelections env fuel
      ((match op.selectionSet with | .mk sels => sels).filter (fun sel =>
        match sel with
        | .field f => f.name == env.rootFieldName
        | _ => false)) (visitOperationState env) with
  | error e => rw [hm] at h; simp [exceptErrBind] at h
  | ok q =>
      rw [walkSelections_fuel_mono env fuel fuelB _ _ q hle hm]
      rw [hm] at h
      exact h

/-- A minimal concrete schema for concrete runs: a Thing with an id. -/
def exThing : GqlType := GqlType.obj "Thing" [GqlField.mk "id" (GqlType.scalar "String")]

def exQuery : GqlType := GqlType.obj "Query" [GqlField.mk "things" (GqlType.listT exThing)]

def exEnv : Env :=
  { schema := [("Query", exQuery), ("Thing", exThing)], dirs := [], vars := [],
    fragments := [], rootFieldName := "things" }

def exOp : OperationDefinition :=
  ⟨SelectionSet.mk [Selection.field (FieldNode.mk "things" none []
    (some (SelectionSet.mk [Selection.field (FieldNode.mk "id" none [] none)])))]⟩

/-- Concrete evaluation of the pipeline on the minimal schema. -/
theorem exCompileEval : compileQuery exEnv 3 exOp =
    Except.ok "MATCH ( thing0 : Thing ) RETURN thing0 \x7b .id \x7d" := by
  simp only [compileQuery, walkOperation, walkSelections, walkNode, walkSelectionSetOf,
    visitField, visitEndField, visitEndSelectionSet, visitOperationState,
    tryGetSystemFieldValue, getCypherDirective, getRelationshipDirective,
    insertTopLevelExpression, createConditionTreesByField, createNodeMatchingExpression,
    createWhereCondition, mapConditionExpressions, cpceChildren,
    createPropertyMatchingPatternPart, processOptions, readOptions, jsEntries,
    castToArray, compile, exceptOkBind, pushToken, appendToLastToken, nthFromEnd,
    GqlType.lookupField, GqlType.fieldsOf, GqlType.hasField, unwrapType, unwrapNullableType,
    toCamelCase, jsPartition, insertBetweenTokenLists, getClosestNodeLevel,
    exEnv, exQuery, exThing, exOp, JsVal.getProp, JsVal.joinElem, JsVal.jsToString,
    testConnectionSuffix, GqlType.jsName, GqlType.isScalar, GqlType.isEnum, GqlType.isList,
    GqlField.name, GqlField.type, FieldNode.name, FieldNode.aliasOrName, FieldNode.arguments,
    FieldNode.aliasName, FieldNode.selectionSet, isRelationshipCondition, lbrace, rbrace,
    getDeepFirstSearchPathsList, JsVal.isEmptyValue, JsVal.jsTruthy, sq,
    List.lookup, List.find?, List.filter, List.map, List.flatMap, List.append_nil,
    List.nil_append, List.cons_append, List.isEmpty, List.getLast?, List.dropLast,
    List.any, List.all, List.length, String.reduceBEq, String.reduceEq, reduceIte,
    Option.getD, Option.map, Option.isSome, Option.isNone, beq_self_eq_true,
    Bool.not_true, Bool.not_false, Bool.and_true, Bool.true_and, Bool.and_false,
    Bool.false_and, Bool.or_true, Bool.true_or, Bool.or_false, Bool.false_or,
    Int.reduceAdd, Int.reduceSub, Int.reduceNeg,
    Nat.reduceAdd, Nat.reduceSub, Nat.reduceLeDiff]
  rfl

/-- Witness for C8: the same compilation at a higher fuel bound reproduces
the identical Cypher string. -/
theorem C8_witness : compileQuery exEnv 9 exOp =
    Except.ok "MATCH ( thing0 : Thing ) RETURN thing0 \x7b .id \x7d" :=
  C8_compile_deterministic exEnv exEnv exOp exOp 3 9
    "MATCH ( thing0 : Thing ) RETURN thing0 \x7b .id \x7d" rfl rfl (by omega) exCompileEval

/-- C6 counterexample: the claim says an explicit `limit: 0` emits no LIMIT
clause for AST literals and variables alike.  But an AST int literal is read
by readOptions as its raw source string, so `options: (limit: 0)` in the
query document yields the string 0, which is truthy in JS, and the emitted
clause is LIMIT 0. -/
theorem C6_counterexample :
    processOptions [] (some [⟨"options", ValueNode.objectV [("limit", ValueNode.intV "0")]⟩])
      (some (some exThing)) 0 = Except.ok [JsVal.str "LIMIT", JsVal.str "0"] ∧
    [JsVal.str "LIMIT", JsVal.str "0"] ≠ ([] : List JsVal) := by
  constructor
  · simp only [processOptions, readOptions, readOptionsFields, readOptionsList, jsUpsert,
      jsEntries, castToArray, JsVal.getProp, JsVal.isEmptyValue, JsVal.jsTruthy,
      JsVal.jsToString, exceptOkBind, List.lookup, List.find?, List.filter, List.map,
      List.flatMap, List.append_nil, List.nil_append, List.cons_append, List.isEmpty,
      List.any, List.all, List.foldlM, Option.getD, Option.map, String.reduceBEq,
      String.reduceEq, reduceIte, Bool.not_true, Bool.not_false, Bool.and_true,
      Bool.true_and, Bool.and_false, Bool.false_and, Bool.or_false, Bool.false_or]
    rfl
  · simp

/-- The shared tail of processOptions: once the sort items are fixed, the
offset and limit reads determine the clause structure. -/
theorem processOptionsTailStructure (opts : JsVal) (sortItems : List String)
    (out : List JsVal)
    (h : (do
        let offsetV ← opts.getProp "offset"
        let limitV ← opts.getProp "limit"
        Except.ok ((if !sortItems.isEmpty then
            [JsVal.str "ORDER BY"] ++ (insertBetweenStringItems sortItems ",").map JsVal.str
          else []) ++
          (if !offsetV.isEmptyValue then [JsVal.str "SKIP", JsVal.str offsetV.jsToString]
            else []) ++
          (if limitV.jsTruthy then [JsVal.str "LIMIT", JsVal.str limitV.jsToString]
            else []))) = Except.ok out) :
    ∃ orderToks offV limV,
      opts.getProp "offset" = Except.ok offV ∧
      opts.getProp "limit" = Except.ok limV ∧
      out = orderToks ++
        (if offV.isEmptyValue then [] else [JsVal.str "SKIP", JsVal.str offV.jsToString]) ++
        (if limV.jsTruthy then [JsVal.str "LIMIT", JsVal.str limV.jsToString] else []) ∧
      (offV = JsVal.int 0 → offV.isEmptyValue = false) ∧
      (limV = JsVal.int 0 →
        (if limV.jsTruthy then [JsVal.str "LIMIT", JsVal.str limV.jsToString] else []) =
          ([] : List JsVal)) ∧
      (limV = JsVal.str "0" →
        (if limV.jsTruthy then [JsVal.str "LIMIT", JsVal.str limV.jsToString] else []) =
          [JsVal.str "LIMIT", JsVal.str "0"]) := by
  cases hOff : opts.getProp "offset" with
  | error e => rw [hOff] at h; simp [exceptErrBind] at h
  | ok offV =>
      rw [hOff] at h
      simp only [exceptOkBind] at h
      cases hLim : opts.getProp "limit" with
      | error e => rw [hLim] at h; simp [exceptErrBind] at h
      | ok limV =>
          rw [hLim] at h
          simp only [exceptOkBind, Except.ok.injEq] at h
          refine ⟨(if !sortItems.isEmpty then
              [JsVal.str "ORDER BY"] ++ (insertBetweenStringItems sortItems ",").map JsVal.str
            else []), offV, limV, rfl, rfl, ?_, ?_, ?_, ?_⟩
          · rw [← h]
            cases hE : offV.isEmptyValue <;> cases hT : limV.jsTruthy <;> simp [hE, hT]
          · intro hv; subst hv; rfl
          · intro hv; subst hv; rfl
          · intro hv; subst hv; rfl

/-- C6 (amended): the emitted clause is, in order, the ORDER BY tokens, then
SKIP exactly when the parsed offset is not empty (an explicit offset 0
included), then LIMIT exactly when the parsed limit is truthy.  A runtime
limit 0 (a number, supplied through a variable) is falsy and emits no
LIMIT; an AST literal `limit: 0` is parsed as the string 0, which is truthy
and emits LIMIT 0. -/
theorem C6_amended_clause_structure (vars : List (String × JsVal))
    (args : Option (List Argument)) (ftOpt : Option (Option GqlType)) (lvl : Int)
    (out : List JsVal) (h : processOptions vars args ftOpt lvl = Except.ok out) :
    ∃ orderToks offV limV,
      (readOptions vars (((args.getD []).find? (fun a => a.name == "options")).map
        (fun a => a.value))).getProp "offset" = Except.ok offV ∧
      (readOptions vars (((args.getD []).find? (fun a => a.name == "options")).map
        (fun a => a.value))).getProp "limit" = Except.ok limV ∧
      out = orderToks ++
        (if offV.isEmptyValue then [] else [JsVal.str "SKIP", JsVal.str offV.jsToString]) ++
        (if limV.jsTruthy then [JsVal.str "LIMIT", JsVal.str limV.jsToString] else []) ∧
      (offV = JsVal.int 0 → offV.isEmptyValue = false) ∧
      (limV = JsVal.int 0 →
        (if limV.jsTruthy then [JsVal.str "LIMIT", JsVal.str limV.jsToString] else []) =
          ([] : List JsVal)) ∧
      (limV = JsVal.str "0" →
        (if limV.jsTruthy then [JsVal.str "LIMIT", JsVal.str limV.jsToString] else []) =
          [JsVal.str "LIMIT", JsVal.str "0"]) := by
  simp only [processOptions] at h
  cases hSort : (readOptions vars (((args.getD []).find? (fun a => a.name == "options")).map
      (fun a => a.value))).getProp "sort" with
  | error e => rw [hSort] at h; simp [exceptErrBind] at h
  | ok sortV =>
      rw [hSort] at h
      simp only [exceptOkBind] at h
      cases hEnt : (castToArray sortV).foldlM (fun (acc : List (String × JsVal)) v => do
          let es ← jsEntries v
          pure (acc ++ es)) ([] : List (String × JsVal)) with
      | error e => rw [hEnt] at h; simp [exceptErrBind] at h
      | ok sortEntries =>
          rw [hEnt] at h
          simp only [exceptOkBind] at h
          cases sortEntries with
          | nil =>
              simp only [exceptPureBind] at h
              exact processOptionsTailStructure _ _ _ h
          | cons e0 es0 =>
              simp only [exceptPureBind] at h
              cases ftOpt with
              | none => simp [exceptErrBind] at h
              | some o =>
                  cases o with
                  | none => simp [exceptErrBind] at h
                  | some t =>
                      simp only [exceptOkBind, exceptPureBind] at h
                      exact processOptionsTailStructure _ _ _ h

/-- Witness for C6 (amended) at the counterexample input. -/
theorem C6_amended_witness :
    ∃ orderToks offV limV,
      (readOptions []
        ((((some [⟨"options", ValueNode.objectV [("limit", ValueNode.intV "0")]⟩] :
            Option (List Argument)).getD []).find? (fun a => a.name == "options")).map
          (fun a => a.value))).getProp "offset" = Except.ok offV ∧
      (readOptions []
        ((((some [⟨"options", ValueNode.objectV [("limit", ValueNode.intV "0")]⟩] :
            Option (List Argument)).getD []).find? (fun a => a.name == "options")).map
          (fun a => a.value))).getProp "limit" = Except.ok limV ∧
      [JsVal.str "LIMIT", JsVal.str "0"] = orderToks ++
        (if offV.isEmptyValue then [] else [JsVal.str "SKIP", JsVal.str offV.jsToString]) ++
        (if limV.jsTruthy then [JsVal.str "LIMIT", JsVal.str limV.jsToString] else []) ∧
      (offV = JsVal.int 0 → offV.isEmptyValue = false) ∧
      (limV = JsVal.int 0 →
        (if limV.jsTruthy then [JsVal.str "LIMIT", JsVal.str limV.jsToString] else []) =
          ([] : List JsVal)) ∧
      (limV = JsVal.str "0" →
        (if limV.jsTruthy then [JsVal.str "LIMIT", JsVal.str limV.jsToString] else []) =
          [JsVal.str "LIMIT", JsVal.str "0"]) :=
  C6_amended_clause_structure []
    (some [⟨"options", ValueNode.objectV [("limit", ValueNode.intV "0")]⟩])
    (some (some exThing)) 0 [JsVal.str "LIMIT", JsVal.str "0"] C6_counterexample.1

mutual
/-- Modelled from the claim wording of C2: every nested descendant of a
condition, at every depth, has no operator and is not itself an OR-group
with operator-bearing children. -/
def specDescendantsOk : Condition → Bool
  | .mk _ _ _ _ _ _ _ _ nested => specDescendantsList nested
termination_by c => (sizeOf c, 1)

def specDescendantsList : List Condition → Bool
  | [] => true
  | d :: rest =>
      (d.operator == "") && !(d.isOr && d.nested.any (fun g => !(g.operator == ""))) &&
      specDescendantsOk d && specDescendantsList rest
termination_by l => (sizeOf l, 0)
end

/-- Modelled from the claim wording of C2: a path qualifies iff every
Condition in it has no operator and every nested descendant of each
Condition has no operator and is not itself an OR-group with
operator-bearing children. -/
def specQualifies (path : List Condition) : Bool :=
  path.all (fun c => c.operator == "" && specDescendantsOk c)

/-- Fixtures for C2: a relationship chain four levels deep whose innermost
leaf carries a GT operator, below the depth the source examines. -/
def c2rel : Directive :=
  ⟨"relationship", [⟨"type", .enumV "HAS_REL"⟩, ⟨"direction", .stringV "OUT"⟩]⟩

def c2TypeB : GqlType := .obj "Beta" []

def c2TypeA : GqlType := .obj "Alpha" [.mk "rel1" c2TypeB]

def c2dirs : List (String × List Directive) := [("Alpha.rel1", [c2rel])]

def c2Leaf : Condition :=
  .mk (some c2TypeB) (some "leafObj") (some "x") "GT" false false false (.str "3") []

def c2E : Condition :=
  .mk (some c2TypeB) (some "rel2") (some "leafObj") "" false false false .null [c2Leaf]

def c2D : Condition :=
  .mk (some c2TypeB) (some "rel1") (some "rel2") "" false false false .null [c2E]

def c2C : Condition :=
  .mk (some c2TypeA) (some "roots") (some "rel1") "" false false false .null [c2D]

def c2path : List Condition := [c2C]

/-- C2 counterexample: the claim says the fast form is chosen exactly when
every nested descendant (at every depth) has no operator.  On a path whose
great-grandchild condition carries a GT operator the claim-side predicate
rejects the path, yet the synthesizer still emits the fast
`exists( … )` form: the source only inspects the path conditions, their
direct children and those children's children. -/
theorem C2_counterexample :
    specQualifies c2path = false ∧
    canCreateFastExistentialExpression c2path = true ∧
    createExistentialExpressionPatternByPathRoot c2dirs c2path 5 =
      Except.ok [JsVal.str "exists", JsVal.str "(", JsVal.str "(", JsVal.str "alpha5",
        JsVal.str ")", JsVal.str "-", JsVal.str "[", JsVal.str ":HAS_REL", JsVal.str "]",
        JsVal.str "->", JsVal.str "(", JsVal.str ":Beta", JsVal.str ")", JsVal.str ")"] := by
  refine ⟨?_, rfl, ?_⟩
  · simp only [specQualifies, specDescendantsOk, specDescendantsList, c2path, c2C, c2D,
      c2E, c2Leaf, Condition.operator, Condition.isOr, Condition.nested, List.all,
      List.any, String.reduceBEq, Bool.and_true, Bool.true_and, Bool.and_false,
      Bool.false_and, Bool.not_true, Bool.not_false, Bool.or_false, Bool.false_or]
  · rfl

/-- The recursion of canCreateFastExistentialExpression unfolded into a
quantified form: every path condition has no operator and each of its
direct children has no operator and either no children or is a non-OR with
operator-free children. -/
theorem canCreateFast_iff (path : List Condition) :
    canCreateFastExistentialExpression path = true ↔
    ∀ c ∈ path, c.operator = "" ∧ ∀ d ∈ c.nested, d.operator = "" ∧
      (d.nested = [] ∨ (d.isOr = false ∧ ∀ g ∈ d.nested, g.operator = "")) := by
  induction path with
  | nil => simp [canCreateFastExistentialExpression]
  | cons head rest ih =>
      simp only [canCreateFastExistentialExpression, Bool.and_eq_true, beq_iff_eq,
        List.all_eq_true, ih, List.mem_cons, forall_eq_or_imp, Bool.or_eq_true,
        List.isEmpty_iff, Bool.not_eq_true']
      constructor
      · rintro ⟨⟨hop, hrest⟩, hnested⟩
        refine ⟨⟨hop, ?_⟩, hrest⟩
        intro d hd
        obtain ⟨hinner, hdop⟩ := hnested d hd
        exact ⟨hdop, hinner⟩
      · rintro ⟨⟨hop, hd⟩, hrest⟩
        refine ⟨⟨hop, hrest⟩, ?_⟩
        intro d hdm
        obtain ⟨hdop, hinner⟩ := hd d hdm
        exact ⟨hinner, hdop⟩

/-- C2 (amended): the synthesizer emits the fast `exists( … )` form exactly
when canCreateFastExistentialExpression accepts the path, and the slow
`exists … WHERE … ` block otherwise; the acceptance criterion examines only
the path conditions, their direct children and those children's own
children — not arbitrarily deep descendants: a path qualifies iff every
condition in it has no operator and each direct child has no operator and
either has no children or is a non-OR all of whose children lack
operators. -/
theorem C2_amended_existential_choice (dirs : List (String × List Directive))
    (path : List Condition) (level : Int) (toks : List JsVal)
    (h : createExistentialExpressionPatternByPathRoot dirs path level = Except.ok toks) :
    ((canCreateFastExistentialExpression path = true →
        ∃ p, toks = [JsVal.str "exists", JsVal.str "("] ++ p ++ [JsVal.str ")"]) ∧
     (canCreateFastExistentialExpression path = false →
        ∃ p w, toks = [JsVal.str "exists", JsVal.str lbrace] ++ p ++
          [JsVal.str "WHERE"] ++ w ++ [JsVal.str rbrace])) ∧
    (canCreateFastExistentialExpression path = true ↔
      ∀ c ∈ path, c.operator = "" ∧ ∀ d ∈ c.nested, d.operator = "" ∧
        (d.nested = [] ∨ (d.isOr = false ∧ ∀ g ∈ d.nested, g.operator = ""))) := by
  refine ⟨⟨?_, ?_⟩, canCreateFast_iff path⟩
  · intro hf
    simp only [createExistentialExpressionPatternByPathRoot, hf] at h
    cases hm : createExistentialExpressionPatternByPathRecursive dirs path level true 0 with
    | error e => rw [hm] at h; simp [exceptErrBind] at h
    | ok pe =>
        rw [hm] at h
        simp only [exceptOkBind, reduceIte, Except.ok.injEq] at h
        exact ⟨pe, h.symm⟩
  · intro hf
    simp only [createExistentialExpressionPatternByPathRoot, hf] at h
    cases hm : createExistentialExpressionPatternByPathRecursive dirs path level false 0 with
    | error e => rw [hm] at h; simp [exceptErrBind] at h
    | ok pe =>
        rw [hm] at h
        simp only [exceptOkBind, Bool.false_eq_true, reduceIte] at h
        cases hw : createExistentialWhereConditions path level with
        | error e => rw [hw] at h; simp [exceptErrBind] at h
        | ok wcs =>
            rw [hw] at h
            simp only [exceptOkBind, Except.ok.injEq] at h
            exact ⟨pe, wcs.flatten, h.symm⟩

/-- Witness for C2 (amended) at the concrete four-level path. -/
theorem C2_amended_witness :
    ((canCreateFastExistentialExpression c2path = true →
        ∃ p, [JsVal.str "exists", JsVal.str "(", JsVal.str "(", JsVal.str "alpha5",
          JsVal.str ")", JsVal.str "-", JsVal.str "[", JsVal.str ":HAS_REL", JsVal.str "]",
          JsVal.str "->", JsVal.str "(", JsVal.str ":Beta", JsVal.str ")", JsVal.str ")"] =
          [JsVal.str "exists", JsVal.str "("] ++ p ++ [JsVal.str ")"]) ∧
     (canCreateFastExistentialExpression c2path = false →
        ∃ p w, [JsVal.str "exists", JsVal.str "(", JsVal.str "(", JsVal.str "alpha5",
          JsVal.str ")", JsVal.str "-", JsVal.str "[", JsVal.str ":HAS_REL", JsVal.str "]",
          JsVal.str "->", JsVal.str "(", JsVal.str ":Beta", JsVal.str ")", JsVal.str ")"] =
          [JsVal.str "exists", JsVal.str lbrace] ++ p ++ [JsVal.str "WHERE"] ++ w ++
            [JsVal.str rbrace])) ∧
    (canCreateFastExistentialExpression c2path = true ↔
      ∀ c ∈ c2path, c.operator = "" ∧ ∀ d ∈ c.nested, d.operator = "" ∧
        (d.nested = [] ∨ (d.isOr = false ∧ ∀ g ∈ d.nested, g.operator = ""))) :=
  C2_amended_existential_choice c2dirs c2path 5 _ rfl

/-- Replacing every `where` argument keeps the first `where` position, so
the later find sees the replacement. -/
theorem find_where_map_replace (l : List Argument) (ext : Argument)
    (hExt : ext.name = "where") (h : (l.find? (fun a => a.name == "where")).isSome) :
    ((l.map (fun a => if a.name == "where" then ext else a)).find?
      (fun a => a.name == "where")) = some ext := by
  induction l with
  | nil => simp at h
  | cons a rest ih =>
      cases hb : (a.name == "where") with
      | true =>
          simp only [List.map_cons, hb, reduceIte]
          exact List.find?_cons_of_pos _ (by simp [hExt])
      | false =>
          rw [List.find?_cons_of_neg _ (by simp [hb])] at h
          simp only [List.map_cons, hb, reduceIte]
          rw [List.find?_cons_of_neg _ (by simp [hb])]
          exact ih h

/-- Appending the extended `where` argument to a list without one makes it
the first match. -/
theorem find_where_append (l : List Argument) (ext : Argument)
    (hExt : ext.name = "where") (h : l.find? (fun a => a.name == "where") = none) :
    ((l ++ [ext]).find? (fun a => a.name == "where")) = some ext := by
  rw [List.find?_append, h]
  simp [List.find?, hExt]

/-- The deny-list (which repeats sentBy) contains exactly the claim's
six-element set. -/
theorem denyListContains (fieldName : String) :
    (fieldsWithoutFilters.contains fieldName) =
      decide (fieldName ∈ (["sentBy", "includedIn", "updatedBy", "proposedBy", "creator",
        "mappingInstances"] : List String)) := by
  rw [Bool.eq_iff_iff, List.contains_eq_any_beq]
  simp only [List.any_eq_true, List.mem_cons, List.not_mem_nil, beq_iff_eq,
    decide_eq_true_eq, fieldsWithoutFilters, or_false]
  constructor
  · rintro ⟨x, hx, rfl⟩
    tauto
  · intro h
    rcases h with h|h|h|h|h|h <;> exact ⟨_, by tauto, h⟩

/-- Singleton contains is equality. -/
theorem flexContains (t : String) :
    ((["FlexEntity"] : List String).contains t) = decide (t = "FlexEntity") := by
  rw [Bool.eq_iff_iff, List.contains_eq_any_beq]
  simp

/-- isSome of find equals any. -/
theorem findIsSomeEqAny (flds : List GqlField) (p : GqlField → Bool) :
    ((flds.find? p).isSome) = flds.any p := by
  rw [Bool.eq_iff_iff]
  simp [List.find?_isSome, List.any_eq_true]

/-- C3: for every field whose connection-unwrapped target type declares a
tenantId or tenantIds field, with the field name outside the deny-list and
the field type not FlexEntity, the tenant compiler builds the condition
trees of a rewritten `where` value: the tenant predicate (tenantId equality
for the scalar discriminator, tenantIds_INCLUDES for the list one, wrapped
in a node object for connection fields), AND-combined with any pre-existing
`where` value so that the original value is the first operand of the AND
list; for every ineligible field the result is exactly the base builder
result. -/
theorem C3_tenant_predicate_injection (vars : List (String × JsVal))
    (args : Option (List Argument)) (fieldType : GqlType) (fieldName : String)
    (targetType : GqlType) (flds : List GqlField)
    (hT : getTargetIfConnectionType fieldType = Except.ok targetType)
    (hF : targetType.fieldsOf = Except.ok flds) :
    (((flds.any (fun f => f.name == "tenantId") = true ∨
        flds.any (fun f => f.name == "tenantIds") = true) ∧
      fieldName ∉ (["sentBy", "includedIn", "updatedBy", "proposedBy", "creator",
        "mappingInstances"] : List String) ∧ fieldType.jsName ≠ "FlexEntity") →
      tenantCreateConditionTreesByField vars args fieldType fieldName =
        createConditionTrees vars
          (let tenantCondition : ValueNode :=
            if flds.any (fun f => f.name == "tenantId") then
              ValueNode.objectV [("tenantId", ValueNode.variableV "cypherParams.tenantId")]
            else
              ValueNode.objectV
                [("tenantIds_INCLUDES", ValueNode.variableV "cypherParams.tenantId")]
           let nodeCondition : ValueNode :=
            if testConnectionSuffix fieldName then
              ValueNode.objectV [("node", tenantCondition)]
            else tenantCondition
           match (args.getD []).find? (fun a => a.name == "where") with
           | some w => ValueNode.objectV [("AND", ValueNode.listV [w.value, nodeCondition])]
           | none => nodeCondition)
          fieldType (some fieldName)) ∧
    (¬ (((flds.any (fun f => f.name == "tenantId") = true ∨
        flds.any (fun f => f.name == "tenantIds") = true) ∧
      fieldName ∉ (["sentBy", "includedIn", "updatedBy", "proposedBy", "creator",
        "mappingInstances"] : List String) ∧ fieldType.jsName ≠ "FlexEntity")) →
      tenantCreateConditionTreesByField vars args fieldType fieldName =
        createConditionTreesByField vars args fieldType fieldName) := by
  have hTenantId := findIsSomeEqAny flds (fun f => f.name == "tenantId")
  have hTenantIds := findIsSomeEqAny flds (fun f => f.name == "tenantIds")
  have hDeny := denyListContains fieldName
  have hFlex := flexContains fieldType.jsName
  constructor
  · rintro ⟨hTen, hName, hType⟩
    simp only [tenantCreateConditionTreesByField, hT, exceptOkBind, hF]
    have hCond : ((!(flds.find? (fun f => f.name == "tenantId")).isSome &&
        !(flds.find? (fun f => f.name == "tenantIds")).isSome) ||
        ["FlexEntity"].contains fieldType.jsName ||
        fieldsWithoutFilters.contains fieldName) = false := by
      rw [hTenantId, hTenantIds, hDeny, hFlex]
      rcases hTen with hTen | hTen <;> simp [hTen, hName, hType]
    rw [hCond]
    simp only [Bool.false_eq_true, reduceIte]
    rw [hTenantId]
    cases hW : (args.getD []).find? (fun a => a.name == "where") with
    | some w =>
        have hAny : (args.getD []).any (fun a => a.name == "where") = true := by
          have hS : ((args.getD []).find? (fun a => a.name == "where")).isSome = true := by
            rw [hW]; rfl
          exact List.any_eq_true.mpr (List.find?_isSome.mp hS)
        simp only [hW, hAny, reduceIte, createConditionTreesByField, Option.getD_some]
        rw [find_where_map_replace _ _ rfl (by rw [hW]; rfl)]
    | none =>
        have hAny : (args.getD []).any (fun a => a.name == "where") = false := by
          have hNo := List.find?_eq_none.mp hW
          rw [Bool.eq_false_iff]
          intro hcontra
          obtain ⟨x, hx, hpx⟩ := List.any_eq_true.mp hcontra
          exact hNo x hx hpx
        simp only [hW, hAny, Bool.false_eq_true, reduceIte, createConditionTreesByField,
          Option.getD_some]
        rw [find_where_append _ _ rfl hW]
  · intro hNot
    simp only [tenantCreateConditionTreesByField, hT, exceptOkBind, hF]
    have hCond : ((!(flds.find? (fun f => f.name == "tenantId")).isSome &&
        !(flds.find? (fun f => f.name == "tenantIds")).isSome) ||
        ["FlexEntity"].contains fieldType.jsName ||
        fieldsWithoutFilters.contains fieldName) = true := by
      rw [hTenantId, hTenantIds, hDeny, hFlex]
      rw [Bool.eq_iff_iff]
      simp only [Bool.or_eq_true, Bool.and_eq_true, Bool.not_eq_true',
        decide_eq_true_eq, iff_true]
      by_cases h2 : fieldName ∈ (["sentBy", "includedIn", "updatedBy", "proposedBy",
          "creator", "mappingInstances"] : List String)
      · exact Or.inr h2
      · by_cases h3 : fieldType.jsName = "FlexEntity"
        · exact Or.inl (Or.inr h3)
        · by_cases h1 : flds.any (fun f => f.name == "tenantId") = true
          · exact absurd ⟨Or.inl h1, h2, h3⟩ hNot
          · by_cases h1b : flds.any (fun f => f.name == "tenantIds") = true
            · exact absurd ⟨Or.inr h1b, h2, h3⟩ hNot
            · exact Or.inl (Or.inl ⟨by simpa using h1, by simpa using h1b⟩)
    rw [hCond]
    rfl

/-- A concrete tenant-eligible type: declares a scalar tenantId. -/
def c3Target : GqlType :=
  .obj "Agreement" [.mk "tenantId" (.scalar "String"), .mk "id" (.scalar "String")]

/-- Witness for C3 at a concrete eligible field with a pre-existing where
argument: the tenant predicate is AND-combined with the original where as
first operand. -/
theorem C3_witness :
    tenantCreateConditionTreesByField []
      (some [⟨"where", ValueNode.objectV [("id", ValueNode.stringV "X")]⟩])
      c3Target "deals" =
    createConditionTrees []
      (ValueNode.objectV [("AND", ValueNode.listV
        [ValueNode.objectV [("id", ValueNode.stringV "X")],
         ValueNode.objectV [("tenantId", ValueNode.variableV "cypherParams.tenantId")]])])
      c3Target (some "deals") :=
  (C3_tenant_predicate_injection []
      (some [⟨"where", ValueNode.objectV [("id", ValueNode.stringV "X")]⟩])
      c3Target "deals" c3Target
      [GqlField.mk "tenantId" (GqlType.scalar "String"),
       GqlField.mk "id" (GqlType.scalar "String")] rfl rfl).1
    ⟨Or.inl rfl, by decide, by decide⟩

/-- A scalar field node carrying an alias, to probe the scalar token shape. -/
def c9node : FieldNode := FieldNode.mk "id" (some "theId") [] none

/-- The compiler state just after visiting the root field `things`: level 0,
type path Query, Thing. -/
def c9state : CState :=
  { fieldPath := [GqlField.mk "things" (GqlType.listT exThing)],
    fieldNodePath := [FieldNode.mk "things" none [] none],
    typePath := [some exQuery, some exThing],
    listComprehensionFlagPath := [LCFlag.nullFlag],
    level := 0, buffer := [], tokenBuffer := [] }

/-- C9 counterexample: the claim says a scalar field without a cypher
directive at level above 0 emits `alias: .fieldName`.  But the
directive-free scalar branch of visitField pushes only the string
`.fieldName`: the alias (here theId) and the colon are dropped. -/
theorem C9_counterexample :
    (visitField exEnv c9node c9state).map
        (fun r => (r.1.tokenBuffer.map Token.value, r.2)) =
      Except.ok ([[JsVal.str ".id"]], false) ∧
    ([JsVal.str ".id"] : List JsVal) ≠
      [JsVal.str "theId", JsVal.str ":", JsVal.str ".id"] :=
  ⟨rfl, fun h => absurd (congrArg List.length h) (by decide)⟩

/-- The state visitField reaches after pushing the field onto the four
parallel paths and incrementing the level, before emitting its token. -/
def pushedFieldState (fieldNode : FieldNode) (schemaField : GqlField) (s : CState) : CState :=
  { s with
    level := s.level + 1,
    fieldNodePath := s.fieldNodePath ++ [fieldNode],
    fieldPath := s.fieldPath ++ [schemaField],
    listComprehensionFlagPath := s.listComprehensionFlagPath ++ [LCFlag.nullFlag],
    typePath := s.typePath ++ [some (unwrapType schemaField.type)] }

/-- C9 (amended): for every non-system field at level above 0 whose unwrapped
target type is scalar or enum and which carries no cypher directive, the
emitted token value is the single string `.fieldName`; the field's alias is
not part of the token. -/
theorem C9_amended_scalar_token (env : Env) (fieldNode : FieldNode) (s : CState)
    (T : GqlType) (schemaField : GqlField) (rd : Option Directive)
    (hSys : (fieldNode.name == "__typename") = false)
    (hLvl : (s.level + 1 == 0) = false)
    (hLast : s.typePath.getLast? = some (some T))
    (hF : T.lookupField fieldNode.name = Except.ok schemaField)
    (hScalar : ((unwrapType schemaField.type).isScalar ||
      (unwrapType schemaField.type).isEnum) = true)
    (hCy : getCypherDirective env (pushedFieldState fieldNode schemaField s) =
      Except.ok none)
    (hRel : getRelationshipDirective env (pushedFieldState fieldNode schemaField s) =
      Except.ok rd) :
    visitField env fieldNode s = Except.ok
      (pushToken (pushedFieldState fieldNode schemaField s) (s.level + 1)
        [JsVal.str ("." ++ fieldNode.name)], false) := by
  have hTry : tryGetSystemFieldValue { s with level := s.level + 1 } fieldNode = none := by
    simp [tryGetSystemFieldValue, hSys]
  simp only [pushedFieldState] at hCy hRel
  simp only [visitField, hTry, hLast, hF, exceptOkBind, hCy, hRel, hLvl, hScalar,
    Bool.false_eq_true, reduceIte, pushedFieldState]

/-- Witness for the amended C9 theorem at the concrete aliased scalar field:
every hypothesis is discharged by evaluation. -/
theorem C9_witness :
    visitField exEnv c9node c9state = Except.ok
      (pushToken
        (pushedFieldState c9node (GqlField.mk "id" (GqlType.scalar "String")) c9state)
        (c9state.level + 1) [JsVal.str ("." ++ c9node.name)], false) :=
  C9_amended_scalar_token exEnv c9node c9state exThing
    (GqlField.mk "id" (GqlType.scalar "String")) none
    rfl rfl rfl rfl rfl rfl rfl

/-- Successful bind on Except factors through a successful first component. -/
theorem exceptBindOk (x : Except CompErr α) (f : α → Except CompErr β) (b : β)
    (h : (x >>= f) = Except.ok b) : ∃ a, x = Except.ok a ∧ f a = Except.ok b := by
  cases x with
  | error e => rw [exceptErrBind] at h; exact Except.noConfusion h
  | ok a => exact ⟨a, rfl, h⟩

/-- Appending one element to a list with a known head keeps the head. -/
theorem c7HeadAppend (l : List α) (a : α) (x : α) (hh : l.head? = some x) :
    (l ++ [a]).head? = some x := by
  cases l with
  | nil => exact Option.noConfusion hh
  | cons b t => simpa using hh

/-- Dropping the last element of a list of length at least two keeps the
head. -/
theorem c7HeadDropLast (l : List α) (h2 : 2 ≤ l.length) (x : α) (hh : l.head? = some x) :
    l.dropLast.head? = some x := by
  match l with
  | [] => simp at h2
  | [a] => simp at h2
  | a :: b :: t => simpa [List.dropLast] using hh

/-- A list extended on the right is never empty. -/
theorem c7ConcatIsEmpty (l : List α) (a : α) : (l ++ [a]).isEmpty = false := by
  cases l <;> rfl

/-- Dropping the freshly appended last element restores the list. -/
theorem c7DropLastConcat (l : List α) (a : α) : (l ++ [a]).dropLast = l := by
  simp

/-- tryGetSystemFieldValue misses every field other than __typename. -/
theorem tryGetSystemFieldValue_ne (s : CState) (fn : FieldNode)
    (hs : (fn.name == "__typename") = false) :
    tryGetSystemFieldValue s fn = none := by
  simp [tryGetSystemFieldValue, hs]

/-- tryGetSystemFieldValue hits __typename with some value. -/
theorem tryGetSystemFieldValue_eq (s : CState) (fn : FieldNode)
    (hs : (fn.name == "__typename") = true) :
    ∃ v, tryGetSystemFieldValue s fn = some v := by
  simp only [tryGetSystemFieldValue, hs, reduceIte]
  exact ⟨_, rfl⟩

/-- Whether tryGetSystemFieldValue hits depends only on the field name. -/
theorem tryGetSystemFieldValue_isSome (s : CState) (fn : FieldNode) :
    (tryGetSystemFieldValue s fn).isSome = (fn.name == "__typename") := by
  cases hc : fn.name == "__typename" <;> simp [tryGetSystemFieldValue, hc]

/-- appendToLastToken only rewrites the token buffer. -/
theorem appendToLastToken_paths (s : CState) (toks : List JsVal) :
    (appendToLastToken s toks).fieldPath = s.fieldPath ∧
    (appendToLastToken s toks).fieldNodePath = s.fieldNodePath ∧
    (appendToLastToken s toks).listComprehensionFlagPath = s.listComprehensionFlagPath ∧
    (appendToLastToken s toks).typePath = s.typePath := by
  simp only [appendToLastToken]
  cases s.tokenBuffer.getLast? <;> exact ⟨rfl, rfl, rfl, rfl⟩

/-- A system field leaves all four path stacks unchanged in visitField. -/
theorem visitField_paths_sys (env : Env) (fn : FieldNode) (s s1 : CState) (b : Bool)
    (hs : (fn.name == "__typename") = true)
    (h : visitField env fn s = Except.ok (s1, b)) :
    s1.fieldPath = s.fieldPath ∧ s1.fieldNodePath = s.fieldNodePath ∧
    s1.listComprehensionFlagPath = s.listComprehensionFlagPath ∧
    s1.typePath = s.typePath := by
  obtain ⟨v, hv⟩ := tryGetSystemFieldValue_eq { s with level := s.level + 1 } fn hs
  simp only [visitField, hv] at h
  simp only [Except.ok.injEq, Prod.mk.injEq] at h
  obtain ⟨h1, -⟩ := h
  subst h1
  exact ⟨rfl, rfl, rfl, rfl⟩

/-- A non-system field pushes exactly one entry on each of the four path
stacks in visitField, whatever branch emits the token. -/
theorem visitField_paths_push (env : Env) (fn : FieldNode) (s s1 : CState) (b : Bool)
    (hs : (fn.name == "__typename") = false)
    (h : visitField env fn s = Except.ok (s1, b)) :
    s1.fieldPath.length = s.fieldPath.length + 1 ∧
    s1.fieldNodePath.length = s.fieldNodePath.length + 1 ∧
    s1.listComprehensionFlagPath.length = s.listComprehensionFlagPath.length + 1 ∧
    ∃ x, s1.typePath = s.typePath ++ [x] := by
  simp only [visitField, tryGetSystemFieldValue_ne _ _ hs] at h
  obtain ⟨T, hT, h⟩ := exceptBindOk _ _ _ h
  obtain ⟨sf, hsf, h⟩ := exceptBindOk _ _ _ h
  obtain ⟨cy, hcy, h⟩ := exceptBindOk _ _ _ h
  obtain ⟨rel, hrel, h⟩ := exceptBindOk _ _ _ h
  split at h
  · obtain ⟨toks, -, h⟩ := exceptBindOk _ _ _ h
    simp only [Except.ok.injEq, Prod.mk.injEq] at h
    obtain ⟨h1, -⟩ := h
    subst h1
    refine ⟨?_, ?_, ?_, some (unwrapType sf.type), ?_⟩ <;>
      simp [pushToken, setLastFlag, c7ConcatIsEmpty, c7DropLastConcat]
  · split at h
    · split at h
      · obtain ⟨call, -, h⟩ := exceptBindOk _ _ _ h
        simp only [Except.ok.injEq, Prod.mk.injEq] at h
        obtain ⟨h1, -⟩ := h
        subst h1
        refine ⟨?_, ?_, ?_, some (unwrapType sf.type), ?_⟩ <;>
          simp [pushToken, setLastFlag, c7ConcatIsEmpty, c7DropLastConcat]
      · simp only [Except.ok.injEq, Prod.mk.injEq] at h
        obtain ⟨h1, -⟩ := h
        subst h1
        refine ⟨?_, ?_, ?_, some (unwrapType sf.type), ?_⟩ <;>
          simp [pushToken, setLastFlag, c7ConcatIsEmpty, c7DropLastConcat]
    · split at h
      · split at h
        · obtain ⟨nv, -, h⟩ := exceptBindOk _ _ _ h
          simp only [Except.ok.injEq, Prod.mk.injEq] at h
          obtain ⟨h1, -⟩ := h
          subst h1
          refine ⟨?_, ?_, ?_, some (unwrapType sf.type), ?_⟩ <;>
            simp [pushToken, setLastFlag, c7ConcatIsEmpty, c7DropLastConcat]
        · split at h
          · simp only [Except.ok.injEq, Prod.mk.injEq] at h
            obtain ⟨h1, -⟩ := h
            subst h1
            refine ⟨?_, ?_, ?_, some (unwrapType sf.type), ?_⟩ <;>
              simp [pushToken, setLastFlag, c7ConcatIsEmpty, c7DropLastConcat]
          · simp only [Except.ok.injEq, Prod.mk.injEq] at h
            obtain ⟨h1, -⟩ := h
            subst h1
            refine ⟨?_, ?_, ?_, some (unwrapType sf.type), ?_⟩ <;>
              simp [pushToken, setLastFlag, c7ConcatIsEmpty, c7DropLastConcat]
      · split at h
        · obtain ⟨comp, -, h⟩ := exceptBindOk _ _ _ h
          simp only [Except.ok.injEq, Prod.mk.injEq] at h
          obtain ⟨h1, -⟩ := h
          subst h1
          refine ⟨?_, ?_, ?_, some (unwrapType sf.type), ?_⟩ <;>
            simp [pushToken, setLastFlag, c7ConcatIsEmpty, c7DropLastConcat]
        · obtain ⟨rd, -, h⟩ := exceptBindOk _ _ _ h
          obtain ⟨comp, -, h⟩ := exceptBindOk _ _ _ h
          simp only [Except.ok.injEq, Prod.mk.injEq] at h
          obtain ⟨h1, -⟩ := h
          subst h1
          refine ⟨?_, ?_, ?_, some (unwrapType sf.type), ?_⟩ <;>
            simp [pushToken, setLastFlag, c7ConcatIsEmpty, c7DropLastConcat]

/-- A system field leaves all four path stacks unchanged in visitEndField. -/
theorem visitEndField_paths_sys (env : Env) (fn : FieldNode) (s s3 : CState)
    (hs : (fn.name == "__typename") = true)
    (h : visitEndField env fn s = Except.ok s3) :
    s3.fieldPath = s.fieldPath ∧ s3.fieldNodePath = s.fieldNodePath ∧
    s3.listComprehensionFlagPath = s.listComprehensionFlagPath ∧
    s3.typePath = s.typePath := by
  simp only [visitEndField] at h
  split at h
  · split at h
    · simp only [exceptPureBind] at h
      rw [tryGetSystemFieldValue_isSome, hs] at h
      simp only [reduceIte, Except.ok.injEq] at h
      subst h
      exact ⟨rfl, rfl, rfl, rfl⟩
    · obtain ⟨opts, -, h⟩ := exceptBindOk _ _ _ h
      simp only [exceptPureBind] at h
      rw [tryGetSystemFieldValue_isSome, hs] at h
      simp only [reduceIte, Except.ok.injEq] at h
      subst h
      exact appendToLastToken_paths s opts
  · simp only [exceptPureBind] at h
    rw [tryGetSystemFieldValue_isSome, hs] at h
    simp only [reduceIte, Except.ok.injEq] at h
    subst h
    exact ⟨rfl, rfl, rfl, rfl⟩

/-- A non-system field pops exactly one entry from each of the four path
stacks in visitEndField. -/
theorem visitEndField_paths_pop (env : Env) (fn : FieldNode) (s s3 : CState)
    (hs : (fn.name == "__typename") = false)
    (h : visitEndField env fn s = Except.ok s3) :
    s3.fieldPath = s.fieldPath.dropLast ∧ s3.fieldNodePath = s.fieldNodePath.dropLast ∧
    s3.listComprehensionFlagPath = s.listComprehensionFlagPath.dropLast ∧
    s3.typePath = s.typePath.dropLast := by
  simp only [visitEndField] at h
  split at h
  · split at h
    · simp only [exceptPureBind] at h
      rw [tryGetSystemFieldValue_isSome, hs] at h
      simp only [Bool.false_eq_true, reduceIte] at h
      split at h
      · split at h
        · simp only [exceptErrBind] at h
          exact Except.noConfusion h
        · simp only [exceptPureBind, Except.ok.injEq] at h
          subst h
          obtain ⟨a1, a2, a3, a4⟩ := appendToLastToken_paths
            { s with listComprehensionFlagPath := s.listComprehensionFlagPath.dropLast }
            (match s.listComprehensionFlagPath.getLast? with
              | some LCFlag.list => [JsVal.str "]"]
              | _ => [JsVal.str "]", JsVal.str "[0]"])
          exact ⟨congrArg List.dropLast a1, congrArg List.dropLast a2, a3,
            congrArg List.dropLast a4⟩
      · simp only [exceptPureBind, Except.ok.injEq] at h
        subst h
        exact ⟨rfl, rfl, rfl, rfl⟩
    · obtain ⟨opts, -, h⟩ := exceptBindOk _ _ _ h
      simp only [exceptPureBind] at h
      rw [tryGetSystemFieldValue_isSome, hs] at h
      simp only [Bool.false_eq_true, reduceIte] at h
      obtain ⟨b1, b2, b3, b4⟩ := appendToLastToken_paths s opts
      split at h
      · split at h
        · simp only [exceptErrBind] at h
          exact Except.noConfusion h
        · simp only [exceptPureBind, Except.ok.injEq] at h
          subst h
          obtain ⟨a1, a2, a3, a4⟩ := appendToLastToken_paths
            { appendToLastToken s opts with listComprehensionFlagPath :=
                (appendToLastToken s opts).listComprehensionFlagPath.dropLast }
            (match (appendToLastToken s opts).listComprehensionFlagPath.getLast? with
              | some LCFlag.list => [JsVal.str "]"]
              | _ => [JsVal.str "]", JsVal.str "[0]"])
          exact ⟨congrArg List.dropLast (a1.trans b1),
            congrArg List.dropLast (a2.trans b2),
            a3.trans (congrArg List.dropLast b3),
            congrArg List.dropLast (a4.trans b4)⟩
      · simp only [exceptPureBind, Except.ok.injEq] at h
        subst h
        exact ⟨congrArg List.dropLast b1, congrArg List.dropLast b2,
          congrArg List.dropLast b3, congrArg List.dropLast b4⟩
  · simp only [exceptPureBind] at h
    rw [tryGetSystemFieldValue_isSome, hs] at h
    simp only [Bool.false_eq_true, reduceIte] at h
    split at h
    · split at h
      · simp only [exceptErrBind] at h
        exact Except.noConfusion h
      · simp only [exceptPureBind, Except.ok.injEq] at h
        subst h
        obtain ⟨a1, a2, a3, a4⟩ := appendToLastToken_paths
          { s with listComprehensionFlagPath := s.listComprehensionFlagPath.dropLast }
          (match s.listComprehensionFlagPath.getLast? with
            | some LCFlag.list => [JsVal.str "]"]
            | _ => [JsVal.str "]", JsVal.str "[0]"])
        exact ⟨congrArg List.dropLast a1, congrArg List.dropLast a2, a3,
          congrArg List.dropLast a4⟩
    · simp only [exceptPureBind, Except.ok.injEq] at h
      subst h
      exact ⟨rfl, rfl, rfl, rfl⟩

/-- visitInlineFragment pushes one entry on the type path only. -/
theorem visitInlineFragment_paths (env : Env) (tc : Option String) (s s1 : CState)
    (h : visitInlineFragment env tc s = Except.ok s1) :
    ∃ x, s1.typePath = s.typePath ++ [x] ∧ s1.fieldPath = s.fieldPath ∧
      s1.fieldNodePath = s.fieldNodePath ∧
      s1.listComprehensionFlagPath = s.listComprehensionFlagPath := by
  cases tc with
  | none => exact Except.noConfusion h
  | some name =>
      simp only [visitInlineFragment, Except.ok.injEq] at h
      subst h
      exact ⟨env.schema.lookup name, rfl, rfl, rfl, rfl⟩

/-- visitEndSelectionSet only rewrites the buffers, never the path stacks. -/
theorem visitEndSelectionSet_paths (k : NodeKind) (s : CState) :
    (visitEndSelectionSet k s).fieldPath = s.fieldPath ∧
    (visitEndSelectionSet k s).fieldNodePath = s.fieldNodePath ∧
    (visitEndSelectionSet k s).listComprehensionFlagPath = s.listComprehensionFlagPath ∧
    (visitEndSelectionSet k s).typePath = s.typePath := by
  simp only [visitEndSelectionSet]
  split
  · exact ⟨rfl, rfl, rfl, rfl⟩
  · split <;> exact ⟨rfl, rfl, rfl, rfl⟩

/-- The walk-state shape at field depth n with d open inline fragments: the
three field-indexed stacks have length n, the type path carries the root at
its head and one extra frame per open inline fragment. -/
def C7Shape (q : Option GqlType) (n d : Nat) (s : CState) : Prop :=
  s.fieldPath.length = n ∧ s.fieldNodePath.length = n ∧
  s.listComprehensionFlagPath.length = n ∧ s.typePath.length = n + 1 + d ∧
  s.typePath.head? = some q

/-- The observable invariant at every visited state: the three field-indexed
stacks agree, the type path is strictly longer, and its head is the root. -/
def C7Inv (q : Option GqlType) (t : CState) : Prop :=
  t.fieldPath.length = t.fieldNodePath.length ∧
  t.fieldPath.length = t.listComprehensionFlagPath.length ∧
  t.fieldPath.length + 1 ≤ t.typePath.length ∧
  t.typePath.head? = some q

theorem c7ShapeInv (q : Option GqlType) (n d : Nat) (s : CState)
    (hs : C7Shape q n d s) : C7Inv q s := by
  obtain ⟨a1, a2, a3, a4, a5⟩ := hs
  exact ⟨by rw [a1, a2], by rw [a1, a3], by rw [a1, a4]; omega, a5⟩

theorem c7ShapeCongr (q : Option GqlType) (n d : Nat) (s sB : CState)
    (p1 : sB.fieldPath = s.fieldPath) (p2 : sB.fieldNodePath = s.fieldNodePath)
    (p3 : sB.listComprehensionFlagPath = s.listComprehensionFlagPath)
    (p4 : sB.typePath = s.typePath) (hs : C7Shape q n d s) : C7Shape q n d sB := by
  obtain ⟨a1, a2, a3, a4, a5⟩ := hs
  exact ⟨by rw [p1, a1], by rw [p2, a2], by rw [p3, a3], by rw [p4, a4], by rw [p4, a5]⟩

theorem c7ShapePush (q : Option GqlType) (n d : Nat) (s sB : CState) (x : Option GqlType)
    (p1 : sB.fieldPath.length = s.fieldPath.length + 1)
    (p2 : sB.fieldNodePath.length = s.fieldNodePath.length + 1)
    (p3 : sB.listComprehensionFlagPath.length = s.listComprehensionFlagPath.length + 1)
    (p4 : sB.typePath = s.typePath ++ [x])
    (hs : C7Shape q n d s) : C7Shape q (n + 1) d sB := by
  obtain ⟨a1, a2, a3, a4, a5⟩ := hs
  refine ⟨by rw [p1, a1], by rw [p2, a2], by rw [p3, a3], ?_, ?_⟩
  · rw [p4]; simp only [List.length_append, List.length_singleton, a4]; omega
  · rw [p4]; exact c7HeadAppend _ _ _ a5

theorem c7ShapePop (q : Option GqlType) (n d : Nat) (s sB : CState)
    (p1 : sB.fieldPath = s.fieldPath.dropLast)
    (p2 : sB.fieldNodePath = s.fieldNodePath.dropLast)
    (p3 : sB.listComprehensionFlagPath = s.listComprehensionFlagPath.dropLast)
    (p4 : sB.typePath = s.typePath.dropLast)
    (hs : C7Shape q (n + 1) d s) : C7Shape q n d sB := by
  obtain ⟨a1, a2, a3, a4, a5⟩ := hs
  refine ⟨?_, ?_, ?_, ?_, ?_⟩
  · rw [p1]; simp [a1]
  · rw [p2]; simp [a2]
  · rw [p3]; simp [a3]
  · rw [p4]; simp only [List.length_dropLast, a4]; omega
  · rw [p4]; exact c7HeadDropLast _ (by rw [a4]; omega) _ a5

theorem c7ShapePushT (q : Option GqlType) (n d : Nat) (s sB : CState) (x : Option GqlType)
    (p1 : sB.fieldPath = s.fieldPath) (p2 : sB.fieldNodePath = s.fieldNodePath)
    (p3 : sB.listComprehensionFlagPath = s.listComprehensionFlagPath)
    (p4 : sB.typePath = s.typePath ++ [x])
    (hs : C7Shape q n d s) : C7Shape q n (d + 1) sB := by
  obtain ⟨a1, a2, a3, a4, a5⟩ := hs
  refine ⟨by rw [p1, a1], by rw [p2, a2], by rw [p3, a3], ?_, ?_⟩
  · rw [p4]; simp only [List.length_append, List.length_singleton, a4]; omega
  · rw [p4]; exact c7HeadAppend _ _ _ a5

theorem c7ShapePopT (q : Option GqlType) (n d : Nat) (s sB : CState)
    (p1 : sB.fieldPath = s.fieldPath) (p2 : sB.fieldNodePath = s.fieldNodePath)
    (p3 : sB.listComprehensionFlagPath = s.listComprehensionFlagPath)
    (p4 : sB.typePath = s.typePath.dropLast)
    (hs : C7Shape q n (d + 1) s) : C7Shape q n d sB := by
  obtain ⟨a1, a2, a3, a4, a5⟩ := hs
  refine ⟨by rw [p1, a1], by rw [p2, a2], by rw [p3, a3], ?_, ?_⟩
  · rw [p4]; simp only [List.length_dropLast, a4]; omega
  · rw [p4]; exact c7HeadDropLast _ (by rw [a4]; omega) _ a5

mutual
/-- Path-stack preservation along walkNode: from a well-shaped state every
successful walk returns a state of the same shape and every traced state
satisfies the observable invariant. -/
theorem walkNode_c7 (env : Env) (fuel : Nat) (node : Selection) (s : CState)
    (r : CState × List CState) (q : Option GqlType) (n d : Nat)
    (hs : C7Shape q n d s) (h : walkNode env fuel node s = Except.ok r) :
    C7Shape q n d r.1 ∧ ∀ t ∈ r.2, C7Inv q t := by
  cases node with
  | field fn =>
      cases fn with
      | mk name al args ss =>
          simp only [walkNode] at h
          obtain ⟨⟨s1, isHandled⟩, hv, h⟩ := exceptBindOk _ _ _ h
          cases hname : ((FieldNode.mk name al args ss).name == "__typename") with
          | true =>
              obtain ⟨p1, p2, p3, p4⟩ := visitField_paths_sys env _ s s1 isHandled hname hv
              have hs1 : C7Shape q n d s1 := c7ShapeCongr q n d s s1 p1 p2 p3 p4 hs
              split at h
              · obtain ⟨⟨s2, tr2⟩, hm, h⟩ := exceptBindOk _ _ _ h
                obtain ⟨s3, he, h⟩ := exceptBindOk _ _ _ h
                simp only [Except.ok.injEq] at h
                subst h
                obtain ⟨hs2, hinv2⟩ := walkSelectionSetOf_c7 env fuel NodeKind.fieldKind
                  ss s1 (s2, tr2) q n d hs1 hm
                obtain ⟨e1, e2, e3, e4⟩ := visitEndField_paths_sys env _ s2 s3 hname he
                have hs3 : C7Shape q n d s3 := c7ShapeCongr q n d s2 s3 e1 e2 e3 e4 hs2
                refine ⟨hs3, fun t ht => ?_⟩
                simp only [List.cons_append, List.nil_append, List.mem_cons,
                  List.mem_append] at ht
                rcases ht with rfl | ht | rfl | hF
                · exact c7ShapeInv q n d _ hs1
                · exact hinv2 t ht
                · exact c7ShapeInv q n d _ hs3
                · cases hF
              · simp only [exceptPureBind] at h
                obtain ⟨s3, he, h⟩ := exceptBindOk _ _ _ h
                simp only [Except.ok.injEq] at h
                subst h
                obtain ⟨e1, e2, e3, e4⟩ := visitEndField_paths_sys env _ s1 s3 hname he
                have hs3 : C7Shape q n d s3 := c7ShapeCongr q n d s1 s3 e1 e2 e3 e4 hs1
                refine ⟨hs3, fun t ht => ?_⟩
                simp only [List.cons_append, List.nil_append, List.mem_cons,
                  List.mem_append] at ht
                rcases ht with rfl | rfl | hF
                · exact c7ShapeInv q n d _ hs1
                · exact c7ShapeInv q n d _ hs3
                · cases hF
          | false =>
              obtain ⟨p1, p2, p3, x, p4⟩ :=
                visitField_paths_push env _ s s1 isHandled hname hv
              have hs1 : C7Shape q (n + 1) d s1 :=
                c7ShapePush q n d s s1 x p1 p2 p3 p4 hs
              split at h
              · obtain ⟨⟨s2, tr2⟩, hm, h⟩ := exceptBindOk _ _ _ h
                obtain ⟨s3, he, h⟩ := exceptBindOk _ _ _ h
                simp only [Except.ok.injEq] at h
                subst h
                obtain ⟨hs2, hinv2⟩ := walkSelectionSetOf_c7 env fuel NodeKind.fieldKind
                  ss s1 (s2, tr2) q (n + 1) d hs1 hm
                obtain ⟨e1, e2, e3, e4⟩ := visitEndField_paths_pop env _ s2 s3 hname he
                have hs3 : C7Shape q n d s3 := c7ShapePop q n d s2 s3 e1 e2 e3 e4 hs2
                refine ⟨hs3, fun t ht => ?_⟩
                simp only [List.cons_append, List.nil_append, List.mem_cons,
                  List.mem_append] at ht
                rcases ht with rfl | ht | rfl | hF
                · exact c7ShapeInv q (n + 1) d _ hs1
                · exact hinv2 t ht
                · exact c7ShapeInv q n d _ hs3
                · cases hF
              · simp only [exceptPureBind] at h
                obtain ⟨s3, he, h⟩ := exceptBindOk _ _ _ h
                simp only [Except.ok.injEq] at h
                subst h
                obtain ⟨e1, e2, e3, e4⟩ := visitEndField_paths_pop env _ s1 s3 hname he
                have hs3 : C7Shape q n d s3 := c7ShapePop q n d s1 s3 e1 e2 e3 e4 hs1
                refine ⟨hs3, fun t ht => ?_⟩
                simp only [List.cons_append, List.nil_append, List.mem_cons,
                  List.mem_append] at ht
                rcases ht with rfl | rfl | hF
                · exact c7ShapeInv q (n + 1) d _ hs1
                · exact c7ShapeInv q n d _ hs3
                · cases hF
  | inlineFragment tc ss =>
      simp only [walkNode] at h
      obtain ⟨s1, hv, h⟩ := exceptBindOk _ _ _ h
      obtain ⟨⟨s2, tr2⟩, hm, h⟩ := exceptBindOk _ _ _ h
      simp only [Except.ok.injEq] at h
      subst h
      obtain ⟨x, p4, p1, p2, p3⟩ := visitInlineFragment_paths env tc s s1 hv
      have hs1 : C7Shape q n (d + 1) s1 := c7ShapePushT q n d s s1 x p1 p2 p3 p4 hs
      obtain ⟨hs2, hinv2⟩ := walkSelectionSetOf_c7 env fuel NodeKind.inlineFragmentKind
        ss s1 (s2, tr2) q n (d + 1) hs1 hm
      have hs3 : C7Shape q n d (visitEndInlineFragment s2) :=
        c7ShapePopT q n d s2 _ rfl rfl rfl rfl hs2
      refine ⟨hs3, fun t ht => ?_⟩
      simp only [List.cons_append, List.nil_append, List.mem_cons,
        List.mem_append] at ht
      rcases ht with rfl | ht | rfl | hF
      · exact c7ShapeInv q n (d + 1) _ hs1
      · exact hinv2 t ht
      · exact c7ShapeInv q n d _ hs3
      · cases hF
  | fragmentSpread name =>
      cases fuel with
      | zero => simp [walkNode] at h
      | succ fuelP =>
          simp only [walkNode] at h
          cases hf : env.fragments.lookup name with
          | none => rw [hf] at h; exact Except.noConfusion h
          | some ss =>
              rw [hf] at h
              exact walkSelectionSetOf_c7 env fuelP NodeKind.fragmentDefinitionKind
                (some ss) s r q n d hs h
termination_by (fuel, sizeOf node, 0)

theorem walkSelectionSetOf_c7 (env : Env) (fuel : Nat) (parentKind : NodeKind)
    (ss : Option SelectionSet) (s : CState) (r : CState × List CState)
    (q : Option GqlType) (n d : Nat)
    (hs : C7Shape q n d s) (h : walkSelectionSetOf env fuel parentKind ss s = Except.ok r) :
    C7Shape q n d r.1 ∧ ∀ t ∈ r.2, C7Inv q t := by
  cases ss with
  | none =>
      simp only [walkSelectionSetOf, Except.ok.injEq] at h
      subst h
      exact ⟨hs, by simp⟩
  | some sset =>
      cases sset with
      | mk selections =>
          simp only [walkSelectionSetOf] at h
          obtain ⟨⟨sA, trA⟩, hm, h⟩ := exceptBindOk _ _ _ h
          simp only [Except.ok.injEq] at h
          subst h
          obtain ⟨hsA, hinvA⟩ := walkSelections_c7 env fuel selections s (sA, trA)
            q n d hs hm
          obtain ⟨e1, e2, e3, e4⟩ := visitEndSelectionSet_paths parentKind sA
          have hsE : C7Shape q n d (visitEndSelectionSet parentKind sA) :=
            c7ShapeCongr q n d sA _ e1 e2 e3 e4 hsA
          refine ⟨hsE, fun t ht => ?_⟩
          simp only [List.mem_append, List.mem_cons] at ht
          rcases ht with ht | rfl | hF
          · exact hinvA t ht
          · exact c7ShapeInv q n d _ hsE
          · cases hF
termination_by (fuel, sizeOf ss, 0)

theorem walkSelections_c7 (env : Env) (fuel : Nat) (selections : List Selection)
    (s : CState) (r : CState × List CState) (q : Option GqlType) (n d : Nat)
    (hs : C7Shape q n d s) (h : walkSelections env fuel selections s = Except.ok r) :
    C7Shape q n d r.1 ∧ ∀ t ∈ r.2, C7Inv q t := by
  cases selections with
  | nil =>
      simp only [walkSelections, Except.ok.injEq] at h
      subst h
      exact ⟨hs, by simp⟩
  | cons sel rest =>
      simp only [walkSelections] at h
      obtain ⟨⟨s1, tr1⟩, hm1, h⟩ := exceptBindOk _ _ _ h
      obtain ⟨⟨s2, tr2⟩, hm2, h⟩ := exceptBindOk _ _ _ h
      simp only [Except.ok.injEq] at h
      subst h
      obtain ⟨hs1, hinv1⟩ := walkNode_c7 env fuel sel s (s1, tr1) q n d hs hm1
      obtain ⟨hs2, hinv2⟩ := walkSelections_c7 env fuel rest s1 (s2, tr2) q n d hs1 hm2
      refine ⟨hs2, fun t ht => ?_⟩
      rcases List.mem_append.mp ht with ht | ht
      · exact hinv1 t ht
      · exact hinv2 t ht
termination_by (fuel, sizeOf selections, 1)
end

/-- C7 (amended): between any two visitor callbacks of a successful walk the
three field-indexed stacks have equal lengths and the type path is strictly
longer, with the schema Query lookup at its head; the exact relation
`typePath = fieldPath + 1` holds only outside inline fragments, which push a
type-path frame without a matching field frame.  The final state is fully
balanced: all field stacks empty and a single type-path frame. -/
theorem C7_amended_walk_invariant (env : Env) (fuel : Nat) (op : OperationDefinition)
    (sF : CState) (tr : List CState)
    (h : walkOperation env fuel op = Except.ok (sF, tr)) :
    (∀ t ∈ tr,
      t.fieldPath.length = t.fieldNodePath.length ∧
      t.fieldPath.length = t.listComprehensionFlagPath.length ∧
      t.fieldPath.length + 1 ≤ t.typePath.length ∧
      t.typePath.head? = some (env.schema.lookup "Query")) ∧
    sF.fieldPath.length = 0 ∧ sF.fieldNodePath.length = 0 ∧
    sF.listComprehensionFlagPath.length = 0 ∧ sF.typePath.length = 1 := by
  simp only [walkOperation] at h
  obtain ⟨⟨sA, trA⟩, hm, h⟩ := exceptBindOk _ _ _ h
  simp only [Except.ok.injEq, Prod.mk.injEq] at h
  obtain ⟨hF, hT⟩ := h
  subst hF
  subst hT
  have hs0 : C7Shape (env.schema.lookup "Query") 0 0 (visitOperationState env) :=
    ⟨rfl, rfl, rfl, rfl, rfl⟩
  obtain ⟨hsA, hinvA⟩ := walkSelections_c7 env fuel _ _ _ (env.schema.lookup "Query")
    0 0 hs0 hm
  obtain ⟨e1, e2, e3, e4⟩ :=
    visitEndSelectionSet_paths NodeKind.operationDefinitionKind sA
  have hsE : C7Shape (env.schema.lookup "Query") 0 0
      (visitEndSelectionSet NodeKind.operationDefinitionKind sA) :=
    c7ShapeCongr _ 0 0 sA _ e1 e2 e3 e4 hsA
  constructor
  · intro t ht
    simp only [List.cons_append, List.nil_append, List.mem_cons,
      List.mem_append] at ht
    rcases ht with rfl | ht | rfl | hF
    · exact c7ShapeInv _ 0 0 _ hs0
    · exact hinvA t ht
    · exact c7ShapeInv _ 0 0 _ hsE
    · cases hF
  · exact ⟨hsE.1, hsE.2.1, hsE.2.2.1, hsE.2.2.2.1⟩

/-- A query with an inline fragment inside the root field's selection set. -/
def c7op : OperationDefinition :=
  ⟨SelectionSet.mk [Selection.field (FieldNode.mk "things" none []
    (some (SelectionSet.mk [Selection.inlineFragment (some "Thing")
      (some (SelectionSet.mk [Selection.field (FieldNode.mk "id" none [] none)]))])))]⟩

/-- The schema field of the root `things` selection. -/
def c7fThings : GqlField := GqlField.mk "things" (GqlType.listT exThing)

/-- The root field node of `c7op`. -/
def c7nThings : FieldNode :=
  FieldNode.mk "things" none []
    (some (SelectionSet.mk [Selection.inlineFragment (some "Thing")
      (some (SelectionSet.mk [Selection.field (FieldNode.mk "id" none [] none)]))]))

/-- The MATCH/RETURN token emitted when the root field is entered. -/
def c7tok0 : Token :=
  Token.mk "property-selector" 0 [.str "MATCH", .str "(", .str "thing0", .str ":",
    .str "Thing", .str ")", .str "RETURN", .str "thing0"]

/-- The scalar projection token of the id field. -/
def c7tok1 : Token := Token.mk "property-selector" 1 [.str ".id"]

/-- The token after the field selection set closes and merges the buffers. -/
def c7tokF : Token :=
  Token.mk "property-selector" 0 [.str "MATCH", .str "(", .str "thing0", .str ":",
    .str "Thing", .str ")", .str "RETURN", .str "thing0", .str "\x7b", .str ".id", .str "\x7d"]

/-- Walk state of the c7op run: initial. -/
def c7s0 : CState := CState.mk [] [] [some exQuery] [] (-1) [] []

/-- Walk state after visitField on things. -/
def c7s1 : CState :=
  CState.mk [c7fThings] [c7nThings] [some exQuery, some exThing] [LCFlag.nullFlag] 0 [] [c7tok0]

/-- Walk state after visitInlineFragment. -/
def c7s2 : CState :=
  CState.mk [c7fThings] [c7nThings] [some exQuery, some exThing, some exThing]
    [LCFlag.nullFlag] 0 [] [c7tok0]

/-- Walk state after visitField on id. -/
def c7s3 : CState :=
  CState.mk [c7fThings, GqlField.mk "id" (GqlType.scalar "String")]
    [c7nThings, FieldNode.mk "id" none [] none]
    [some exQuery, some exThing, some exThing, some (GqlType.scalar "String")]
    [LCFlag.nullFlag, LCFlag.nullFlag] 1 [] [c7tok0, c7tok1]

/-- Walk state after visitEndField on id (also after the fragment selection
set closes). -/
def c7s4 : CState :=
  CState.mk [c7fThings] [c7nThings] [some exQuery, some exThing, some exThing]
    [LCFlag.nullFlag] 0 [] [c7tok0, c7tok1]

/-- Walk state after visitEndInlineFragment. -/
def c7s6 : CState :=
  CState.mk [c7fThings] [c7nThings] [some exQuery, some exThing]
    [LCFlag.nullFlag] 0 [] [c7tok0, c7tok1]

/-- Walk state after the things selection set closes. -/
def c7s7 : CState :=
  CState.mk [c7fThings] [c7nThings] [some exQuery, some exThing]
    [LCFlag.nullFlag] 0 [] [c7tokF]

/-- Walk state after visitEndField on things (also the final state). -/
def c7s8 : CState := CState.mk [] [] [some exQuery] [] (-1) [] [c7tokF]

/-- The c7op walk starts from the literal initial state. -/
theorem c7e0 : visitOperationState exEnv = c7s0 := rfl

/-- Entering the root field pushes the frames and the MATCH token. -/
theorem c7e1 :
    visitField exEnv (FieldNode.mk "things" none []
      (some (SelectionSet.mk [Selection.inlineFragment (some "Thing")
        (some (SelectionSet.mk [Selection.field (FieldNode.mk "id" none [] none)]))])))
      c7s0 = Except.ok (c7s1, false) := by
  simp only [visitField, visitEndField, tryGetSystemFieldValue, getCypherDirective,
    getRelationshipDirective, insertTopLevelExpression, createConditionTreesByField,
    createNodeMatchingExpression, createWhereCondition, mapConditionExpressions,
    cpceChildren, createPropertyMatchingPatternPart, processOptions, readOptions,
    jsEntries, castToArray, exceptOkBind, pushToken, appendToLastToken, setLastFlag,
    nthFromEnd, GqlType.lookupField, GqlType.fieldsOf, GqlType.hasField, unwrapType,
    unwrapNullableType, toCamelCase, jsPartition, insertBetweenTokenLists,
    getClosestNodeLevel, exEnv, exQuery, exThing, JsVal.getProp, JsVal.joinElem,
    JsVal.jsToString, testConnectionSuffix, GqlType.jsName, GqlType.isScalar,
    GqlType.isEnum, GqlType.isList, GqlField.name, GqlField.type, FieldNode.name,
    FieldNode.aliasOrName, FieldNode.arguments, FieldNode.aliasName,
    FieldNode.selectionSet, isRelationshipCondition, lbrace, rbrace,
    getDeepFirstSearchPathsList, JsVal.isEmptyValue, JsVal.jsTruthy, sq,
    List.lookup, List.find?, List.filter, List.map, List.flatMap, List.append_nil,
    List.nil_append, List.cons_append, List.isEmpty, List.getLast?, List.dropLast,
    List.any, List.all, List.length, String.reduceBEq, String.reduceEq, reduceIte,
    Option.getD, Option.map, Option.isSome, Option.isNone, beq_self_eq_true,
    Bool.not_true, Bool.not_false, Bool.and_true, Bool.true_and, Bool.and_false,
    Bool.false_and, Bool.or_true, Bool.true_or, Bool.or_false, Bool.false_or,
    Int.reduceAdd, Int.reduceSub, Int.reduceNeg, Nat.reduceAdd, Nat.reduceSub,
    Nat.reduceLeDiff, Bool.false_eq_true, List.getLast, decide_True, Nat.reduceGT,
    Int.reduceBEq, Char.reduceBEq, String.reduceAppend, List.isSuffixOf, List.isPrefixOf, List.reverse,
    List.reverseAux, List.get?, c7s0, c7s1, c7s2, c7s3, c7s4, c7s6, c7s7, c7s8,
    c7fThings, c7nThings, c7tok0, c7tok1, c7tokF]
  try rfl

/-- The inline fragment pushes only a type frame. -/
theorem c7e2 :
    visitInlineFragment exEnv (some "Thing") c7s1 = Except.ok c7s2 := rfl

/-- Entering the scalar id field pushes its frames and projection token. -/
theorem c7e3 :
    visitField exEnv (FieldNode.mk "id" none [] none) c7s2 = Except.ok (c7s3, false) := by
  simp only [visitField, visitEndField, tryGetSystemFieldValue, getCypherDirective,
    getRelationshipDirective, insertTopLevelExpression, createConditionTreesByField,
    createNodeMatchingExpression, createWhereCondition, mapConditionExpressions,
    cpceChildren, createPropertyMatchingPatternPart, processOptions, readOptions,
    jsEntries, castToArray, exceptOkBind, pushToken, appendToLastToken, setLastFlag,
    nthFromEnd, GqlType.lookupField, GqlType.fieldsOf, GqlType.hasField, unwrapType,
    unwrapNullableType, toCamelCase, jsPartition, insertBetweenTokenLists,
    getClosestNodeLevel, exEnv, exQuery, exThing, JsVal.getProp, JsVal.joinElem,
    JsVal.jsToString, testConnectionSuffix, GqlType.jsName, GqlType.isScalar,
    GqlType.isEnum, GqlType.isList, GqlField.name, GqlField.type, FieldNode.name,
    FieldNode.aliasOrName, FieldNode.arguments, FieldNode.aliasName,
    FieldNode.selectionSet, isRelationshipCondition, lbrace, rbrace,
    getDeepFirstSearchPathsList, JsVal.isEmptyValue, JsVal.jsTruthy, sq,
    List.lookup, List.find?, List.filter, List.map, List.flatMap, List.append_nil,
    List.nil_append, List.cons_append, List.isEmpty, List.getLast?, List.dropLast,
    List.any, List.all, List.length, String.reduceBEq, String.reduceEq, reduceIte,
    Option.getD, Option.map, Option.isSome, Option.isNone, beq_self_eq_true,
    Bool.not_true, Bool.not_false, Bool.and_true, Bool.true_and, Bool.and_false,
    Bool.false_and, Bool.or_true, Bool.true_or, Bool.or_false, Bool.false_or,
    Int.reduceAdd, Int.reduceSub, Int.reduceNeg, Nat.reduceAdd, Nat.reduceSub,
    Nat.reduceLeDiff, Bool.false_eq_true, List.getLast, decide_True, Nat.reduceGT,
    Int.reduceBEq, Char.reduceBEq, String.reduceAppend, List.isSuffixOf, List.isPrefixOf, List.reverse,
    List.reverseAux, List.get?, c7s0, c7s1, c7s2, c7s3, c7s4, c7s6, c7s7, c7s8,
    c7fThings, c7nThings, c7tok0, c7tok1, c7tokF]
  try rfl

/-- Leaving the id field pops its frames. -/
theorem c7e4 :
    visitEndField exEnv (FieldNode.mk "id" none [] none) c7s3 = Except.ok c7s4 := rfl

/-- Closing the fragment selection set changes nothing here. -/
theorem c7e5 :
    visitEndSelectionSet NodeKind.inlineFragmentKind c7s4 = c7s4 := rfl

/-- Leaving the inline fragment pops the type frame. -/
theorem c7e6 : visitEndInlineFragment c7s4 = c7s6 := rfl

/-- Closing the things selection set merges the token buffers. -/
theorem c7e7 :
    visitEndSelectionSet NodeKind.fieldKind c7s6 = c7s7 := rfl

/-- Leaving the things field pops its frames. -/
theorem c7e8 :
    visitEndField exEnv (FieldNode.mk "things" none []
      (some (SelectionSet.mk [Selection.inlineFragment (some "Thing")
        (some (SelectionSet.mk [Selection.field (FieldNode.mk "id" none [] none)]))])))
      c7s7 = Except.ok c7s8 := by
  simp only [visitField, visitEndField, tryGetSystemFieldValue, getCypherDirective,
    getRelationshipDirective, insertTopLevelExpression, createConditionTreesByField,
    createNodeMatchingExpression, createWhereCondition, mapConditionExpressions,
    cpceChildren, createPropertyMatchingPatternPart, processOptions, readOptions,
    jsEntries, castToArray, exceptOkBind, pushToken, appendToLastToken, setLastFlag,
    nthFromEnd, GqlType.lookupField, GqlType.fieldsOf, GqlType.hasField, unwrapType,
    unwrapNullableType, toCamelCase, jsPartition, insertBetweenTokenLists,
    getClosestNodeLevel, exEnv, exQuery, exThing, JsVal.getProp, JsVal.joinElem,
    JsVal.jsToString, testConnectionSuffix, GqlType.jsName, GqlType.isScalar,
    GqlType.isEnum, GqlType.isList, GqlField.name, GqlField.type, FieldNode.name,
    FieldNode.aliasOrName, FieldNode.arguments, FieldNode.aliasName,
    FieldNode.selectionSet, isRelationshipCondition, lbrace, rbrace,
    getDeepFirstSearchPathsList, JsVal.isEmptyValue, JsVal.jsTruthy, sq,
    List.lookup, List.find?, List.filter, List.map, List.flatMap, List.append_nil,
    List.nil_append, List.cons_append, List.isEmpty, List.getLast?, List.dropLast,
    List.any, List.all, List.length, String.reduceBEq, String.reduceEq, reduceIte,
    Option.getD, Option.map, Option.isSome, Option.isNone, beq_self_eq_true,
    Bool.not_true, Bool.not_false, Bool.and_true, Bool.true_and, Bool.and_false,
    Bool.false_and, Bool.or_true, Bool.true_or, Bool.or_false, Bool.false_or,
    Int.reduceAdd, Int.reduceSub, Int.reduceNeg, Nat.reduceAdd, Nat.reduceSub,
    Nat.reduceLeDiff, Bool.false_eq_true, List.getLast, decide_True, Nat.reduceGT,
    Int.reduceBEq, Char.reduceBEq, String.reduceAppend, List.isSuffixOf, List.isPrefixOf, List.reverse,
    List.reverseAux, List.get?, c7s0, c7s1, c7s2, c7s3, c7s4, c7s6, c7s7, c7s8,
    c7fThings, c7nThings, c7tok0, c7tok1, c7tokF]
  try rfl

/-- Closing the operation selection set changes nothing here. -/
theorem c7e9 :
    visitEndSelectionSet NodeKind.operationDefinitionKind c7s8 = c7s8 := rfl

/-- The root field filter of the c7op walk keys on the env root name. -/
theorem c7root : exEnv.rootFieldName = "things" := rfl

/-- The full walk of c7op, assembled from the per-callback steps. -/
theorem c7walkEval : walkOperation exEnv 3 c7op =
    Except.ok (c7s8, [c7s0, c7s1, c7s2, c7s3, c7s4, c7s4, c7s6, c7s7, c7s8, c7s8]) := by
  simp only [walkOperation, c7op, c7e0, List.filter, FieldNode.name, c7root,
    walkSelections, walkNode, walkSelectionSetOf,
    c7e1, c7e2, c7e3, c7e4, c7e5, c7e6, c7e7, c7e8, c7e9,
    exceptOkBind, exceptPureBind, Bool.not_false, Bool.not_true, reduceIte,
    String.reduceBEq, String.reduceEq,
    List.cons_append, List.nil_append, List.append_nil]

/-- C7 counterexample: the claim asserts the exact relation
`typePath.length = fieldPath.length + 1` between any two callbacks.  Inside
an inline fragment the walker pushes a type-path frame with no matching
field frame, so the traced state right after visitInlineFragment has
type-path length 3 with field-path length 1. -/
theorem C7_counterexample :
    (walkOperation exEnv 3 c7op).map
        (fun r => r.2.map (fun t => (t.typePath.length, t.fieldPath.length))) =
      Except.ok [(1, 0), (2, 1), (3, 1), (4, 2), (3, 1), (3, 1), (2, 1), (2, 1),
        (1, 0), (1, 0)] ∧
    ((3, 1) ∈ [(1, 0), (2, 1), (3, 1), (4, 2), (3, 1), (3, 1), (2, 1), (2, 1),
        (1, 0), (1, 0)] : Prop) ∧
    ¬ ((3 : Nat) = 1 + 1) := by
  refine ⟨?_, by simp, by decide⟩
  rw [c7walkEval]
  rfl

/-- An operation with an empty selection list: the walk fires only
visitOperation and the closing visitEndSelectionSet. -/
def c7emptyOp : OperationDefinition := ⟨SelectionSet.mk []⟩

/-- Witness for the amended C7 theorem on a concrete walk: the initial state
satisfies the invariant and the final state is balanced. -/
theorem C7_witness :
    ((visitOperationState exEnv).fieldPath.length + 1 ≤
        (visitOperationState exEnv).typePath.length ∧
      (visitOperationState exEnv).typePath.head? =
        some (exEnv.schema.lookup "Query")) ∧
    (visitOperationState exEnv).fieldPath.length = 0 := by
  have h := C7_amended_walk_invariant exEnv 1 c7emptyOp (visitOperationState exEnv)
    [visitOperationState exEnv, visitOperationState exEnv]
    (by simp [walkOperation, walkSelections, visitEndSelectionSet, visitOperationState,
      c7emptyOp, exEnv, exceptOkBind, List.filter, reduceIte])
  exact ⟨⟨(h.1 (visitOperationState exEnv) (by simp)).2.2.1,
    (h.1 (visitOperationState exEnv) (by simp)).2.2.2⟩, h.2.1⟩

/-- Parse a digit run into a natural number (none on a non-digit). -/
def parseNatChars (cs : List Char) (acc : Nat) : Option Nat :=
  match cs with
  | [] => some acc
  | c :: rest => if c.isDigit then parseNatChars rest (acc * 10 + (c.toNat - 48)) else none

/-- Modelled from the spec: parsing an integer literal of the query document
the way a JSON deserializer would parse the same characters into a runtime
number (optional minus sign, digit run). -/
def parseIntString (s : String) : Option Int :=
  match s.data with
  | [] => none
  | c :: rest =>
      if c == Char.ofNat 45 then
        match rest with
        | [] => none
        | _ => (parseNatChars rest 0).map (fun m => -(m : Int))
      else (parseNatChars s.data 0).map (fun m => (m : Int))

mutual
/-- Modelled from the spec: deserializing the runtime value that is
structurally equal to an AST value node (what JSON.parse would yield for the
same literal).  Variables and float literals have no runtime counterpart
here. -/
def deser (v : ValueNode) : Option JsVal :=
  match v with
  | .objectV fields => (desFields fields).map JsVal.obj
  | .listV values => (desList values).map JsVal.arr
  | .stringV s => some (.str s)
  | .enumV s => some (.str s)
  | .intV s => (parseIntString s).map JsVal.int
  | .boolV b => some (.bool b)
  | .nullV => some .null
  | .floatV _ => none
  | .variableV _ => none
termination_by (sizeOf v, 0)

def desList (vs : List ValueNode) : Option (List JsVal) :=
  match vs with
  | [] => some []
  | v :: rest =>
      match deser v, desList rest with
      | some jv, some jrest => some (jv :: jrest)
      | _, _ => none
termination_by (sizeOf vs, 0)

def desFields (fields : List (String × ValueNode)) : Option (List (String × JsVal)) :=
  match fields with
  | [] => some []
  | (n, v) :: rest =>
      match deser v, desFields rest with
      | some jv, some jrest => some ((n, jv) :: jrest)
      | _, _ => none
termination_by (sizeOf fields, 0)
end

def JsVal.isNullish : JsVal → Bool
  | .null => true
  | .undefJ => true
  | _ => false

/-- Serialized condition values correspond when they render identically into
the Cypher text (JS string coercion), or are both nullish (neither is ever
rendered: group and nested conditions never print their value). -/
def valSim (a b : JsVal) : Prop :=
  a.jsToString = b.jsToString ∨ (a.isNullish = true ∧ b.isNullish = true)

mutual
/-- Structural similarity of condition trees: all components equal except
the serialized value, compared by valSim. -/
def condSim : Condition → Condition → Prop
  | .mk pt1 ppn1 p1 op1 o1 g1 r1 v1 n1, .mk pt2 ppn2 p2 op2 o2 g2 r2 v2 n2 =>
      pt1 = pt2 ∧ ppn1 = ppn2 ∧ p1 = p2 ∧ op1 = op2 ∧ o1 = o2 ∧ g1 = g2 ∧
      r1 = r2 ∧ valSim v1 v2 ∧ condListSim n1 n2

def condListSim : List Condition → List Condition → Prop
  | [], [] => True
  | c1 :: r1, c2 :: r2 => condSim c1 c2 ∧ condListSim r1 r2
  | _, _ => False
end

theorem condListSim_append (l1 l2 r1 r2 : List Condition)
    (h1 : condListSim l1 l2) (h2 : condListSim r1 r2) :
    condListSim (l1 ++ r1) (l2 ++ r2) := by
  induction l1 generalizing l2 with
  | nil =>
      cases l2 with
      | nil => simpa using h2
      | cons d ds => simp [condListSim] at h1
  | cons c cs ih =>
      cases l2 with
      | nil => simp [condListSim] at h1
      | cons d ds =>
          simp only [condListSim] at h1
          exact ⟨h1.1, ih ds h1.2⟩

/-- A type on which getTargetIfConnectionType is the identity: unwrapped and
not connection-suffixed. -/
def isBareType : GqlType → Bool
  | .obj _ _ => true
  | .scalar _ => true
  | .enumT _ => true
  | _ => false

theorem getTarget_bare (t : GqlType) (h1 : testConnectionSuffix t.jsName = false)
    (h2 : isBareType t = true) : getTargetIfConnectionType t = Except.ok t := by
  cases t <;> simp [isBareType] at h2 <;>
    simp [getTargetIfConnectionType, GqlType.jsName] at h1 ⊢ <;>
    simp [h1, unwrapType, pure, Except.pure]

def ValueNode.isObjectV : ValueNode → Bool
  | .objectV _ => true
  | _ => false

/-- A scalar list element the two serializers agree on: strings, enums,
canonically written integers and booleans. -/
def goodListElem : ValueNode → Bool
  | .stringV _ => true
  | .enumV _ => true
  | .boolV _ => true
  | .intV s =>
      (match parseIntString s with
        | some n => toString n == s
        | none => false)
  | _ => false

/-- A leaf value both serializers agree on: non-empty strings and enums,
canonically written integers, booleans, null, and non-empty flat lists of
scalar elements. -/
def goodLeafValue : ValueNode → Bool
  | .stringV s => !(s == "")
  | .enumV s => !(s == "")
  | .intV s =>
      (match parseIntString s with
        | some n => toString n == s
        | none => false)
  | .boolV _ => true
  | .nullV => true
  | .listV items => !items.isEmpty && items.all goodListElem
  | _ => false

/-- Run a Bool predicate on the payload of a successful Except; a failure is
vacuously fine (the AST builder then fails too). -/
def exceptBoolOk (x : Except CompErr α) (f : α → Bool) : Bool :=
  match x with
  | .ok a => f a
  | .error _ => true

/-- A Bool predicate on the elements of a list value node; false on every
other node. -/
def onListV (value : ValueNode) (f : List ValueNode → Bool) : Bool :=
  match value with
  | .listV values => f values
  | _ => false

mutual
/-- The domain on which the AST and runtime condition-tree builders agree:
object and list values whose fields avoid the divergent constructs (OR under
a retargeting parent, object-form AND, lists of objects under a property
field, empty strings, empty lists, non-canonical int literals, floats,
variables, date-shaped objects on scalar fields). -/
def goodTree (v : ValueNode) (pT : GqlType) (ppn : Option String) : Bool :=
  match v with
  | .objectV fields => goodFieldList fields pT ppn
  | .listV values => goodTreeList values pT ppn
  | _ => false
termination_by (sizeOf v, 0, 0)

def goodTreeList (vs : List ValueNode) (pT : GqlType) (ppn : Option String) : Bool :=
  match vs with
  | [] => true
  | v :: rest => goodTree v pT ppn && goodTreeList rest pT ppn
termination_by (sizeOf vs, 0, 0)

def goodFieldList (fields : List (String × ValueNode)) (pT : GqlType)
    (ppn : Option String) : Bool :=
  match fields with
  | [] => true
  | (n, v) :: rest => goodField n v pT ppn && goodFieldList rest pT ppn
termination_by (sizeOf fields, 0, 0)

def goodFieldLeaf (value : ValueNode) (schemaField : GqlField) (property : String)
    (pT : GqlType) (ppn : Option String) : Bool :=
  if (unwrapType schemaField.type).isObject then
    value.isObjectV && goodTree value (unwrapType schemaField.type) (some property)
  else goodLeafValue value
termination_by (sizeOf value, 1, 0)

def goodField (field : String) (value : ValueNode) (pT : GqlType)
    (ppn : Option String) : Bool :=
  if optStrTruthy ppn && testConnectionSuffix (jsOptStr ppn) && field == "node" then
    exceptBoolOk (getTargetIfConnectionType pT) (fun target => goodTree value target ppn)
  else if optStrTruthy ppn && testConnectionSuffix (jsOptStr ppn) && field == "edge" then
    exceptBoolOk (pT.lookupField "edges")
      (fun edges => goodTree value (unwrapType edges.type) ppn)
  else if field == "OR" then
    (!testConnectionSuffix pT.jsName) && isBareType pT &&
      (match value with
        | .listV values => goodTreeList values pT ppn
        | _ => false)
  else if field == "AND" then
    (match value with
      | .listV values => goodTreeList values pT ppn
      | _ => false)
  else
    exceptBoolOk (pT.lookupField ((splitOnUnderscore field).headD ""))
      (fun schemaField =>
        goodFieldLeaf value schemaField ((splitOnUnderscore field).headD "") pT ppn)
termination_by (sizeOf value, 1, 1)
end

/-- The element-wise correspondence between the two serialized forms of a
list literal: equal values, or the raw source string of a canonically
written integer against the integer itself. -/
def c4R (a b : JsVal) : Prop :=
  a = b ∨ ∃ n s, a = JsVal.str s ∧ b = JsVal.int n ∧ toString n = s ∧ s ≠ ""

theorem c4R_jsToString (a b : JsVal) (h : c4R a b) :
    a.jsToString = b.jsToString := by
  rcases h with rfl | ⟨n, s, rfl, rfl, hns, -⟩
  · rfl
  · simp [JsVal.jsToString, hns]

theorem c4R_keep (a b : JsVal) (h : c4R a b) :
    (!a.isEmptyValue && !a.isEmptyArray) = (!b.isEmptyValue && !b.isEmptyArray) := by
  rcases h with rfl | ⟨n, s, rfl, rfl, -, hne⟩
  · rfl
  · simp [JsVal.isEmptyValue, JsVal.isEmptyArray, hne]

theorem c4R_not_nullish (a b : JsVal) (h : c4R a b) (ha : a.isNullish = false) :
    b.isNullish = false := by
  rcases h with rfl | ⟨n, s, rfl, rfl, -, -⟩
  · exact ha
  · rfl

theorem forall2_filter_c4R (l1 l2 : List JsVal)
    (h : List.Forall₂ c4R l1 l2) :
    List.Forall₂ c4R
      (l1.filter (fun item => !item.isEmptyValue && !item.isEmptyArray))
      (l2.filter (fun item => !item.isEmptyValue && !item.isEmptyArray)) := by
  induction h with
  | nil => simp
  | cons hab hrest ih =>
      rename_i a b as bs
      simp only [List.filter_cons]
      rw [c4R_keep a b hab]
      cases hk : (!b.isEmptyValue && !b.isEmptyArray) with
      | true => exact List.Forall₂.cons hab ih
      | false => exact ih

theorem forall2_flatMap_sep (sep : JsVal) (hsep : c4R sep sep) (l1 l2 : List JsVal)
    (h : List.Forall₂ c4R l1 l2) :
    List.Forall₂ c4R (l1.flatMap (fun item => [sep, item]))
      (l2.flatMap (fun item => [sep, item])) := by
  induction h with
  | nil => simp
  | cons hab hrest ih =>
      simp only [List.flatMap_cons, List.cons_append, List.nil_append]
      exact List.Forall₂.cons hsep (List.Forall₂.cons hab ih)

theorem forall2_insertBetween (l1 l2 : List JsVal) (h : List.Forall₂ c4R l1 l2) :
    List.Forall₂ c4R (insertBetweenJsItems l1 (.str ","))
      (insertBetweenJsItems l2 (.str ",")) := by
  have hf := forall2_filter_c4R l1 l2 h
  simp only [insertBetweenJsItems]
  generalize List.filter (fun item => !item.isEmptyValue && !item.isEmptyArray) l1 = k1 at hf ⊢
  generalize List.filter (fun item => !item.isEmptyValue && !item.isEmptyArray) l2 = k2 at hf ⊢
  cases hf with
  | nil => exact List.Forall₂.nil
  | cons hab hrest =>
      exact List.Forall₂.cons hab
        (forall2_flatMap_sep (.str ",") (Or.inl rfl) _ _ hrest)

theorem forall2_append_c4R (l1 l2 r1 r2 : List JsVal)
    (h1 : List.Forall₂ c4R l1 l2) (h2 : List.Forall₂ c4R r1 r2) :
    List.Forall₂ c4R (l1 ++ r1) (l2 ++ r2) := by
  induction h1 with
  | nil => simpa using h2
  | cons hab hrest ih => exact List.Forall₂.cons hab ih

theorem jsToStringArr_congr (l1 l2 : List JsVal) (h : List.Forall₂ c4R l1 l2) :
    JsVal.jsToStringArr l1 = JsVal.jsToStringArr l2 := by
  induction h with
  | nil => rfl
  | cons hab hrest ih =>
      rename_i a b as bs
      rcases hab with rfl | ⟨n, s, rfl, rfl, hns, -⟩
      · cases a <;> simp [JsVal.jsToStringArr, ih]
      · simp [JsVal.jsToStringArr, JsVal.jsToString, hns, ih]

theorem arr_jsToString_congr (l1 l2 : List JsVal) (h : List.Forall₂ c4R l1 l2) :
    (JsVal.arr l1).jsToString = (JsVal.arr l2).jsToString := by
  simp only [JsVal.jsToString]
  exact congrArg (String.intercalate ",") (jsToStringArr_congr l1 l2 h)

theorem parseIntString_ne_empty (s : String) (n : Int)
    (hp : parseIntString s = some n) : s ≠ "" := by
  intro hEq
  subst hEq
  simp [parseIntString] at hp

theorem goodListElem_c4R (ft : GqlType) (v : ValueNode) (jv : JsVal)
    (hg : goodListElem v = true) (hd : deser v = some jv) :
    c4R (readValue ft v) (quoteStrElem jv) := by
  cases v with
  | stringV s =>
      simp only [deser, Option.some.injEq] at hd
      subst hd
      exact Or.inl (by simp [readValue, quoteStrElem])
  | enumV s =>
      simp only [deser, Option.some.injEq] at hd
      subst hd
      exact Or.inl (by simp [readValue, quoteStrElem])
  | boolV b =>
      simp only [deser, Option.some.injEq] at hd
      subst hd
      exact Or.inl (by simp [readValue, quoteStrElem])
  | intV s =>
      simp only [goodListElem] at hg
      cases hp : parseIntString s with
      | none => rw [hp] at hg; simp at hg
      | some n =>
          rw [hp] at hg
          simp only [beq_iff_eq] at hg
          simp only [deser, hp, Option.map_some', Option.some.injEq] at hd
          subst hd
          exact Or.inr ⟨n, s, by simp [readValue, quoteStrElem], rfl, hg,
            parseIntString_ne_empty s n hp⟩
  | nullV => exact Bool.noConfusion hg
  | floatV s => exact Bool.noConfusion hg
  | variableV s => exact Bool.noConfusion hg
  | listV vs => exact Bool.noConfusion hg
  | objectV fs => exact Bool.noConfusion hg

theorem readValueList_forall2 (ft : GqlType) (items : List ValueNode) (jits : List JsVal)
    (hg : items.all goodListElem = true) (hd : desList items = some jits) :
    List.Forall₂ c4R (readValueList ft items) (jits.map quoteStrElem) := by
  induction items generalizing jits with
  | nil =>
      simp only [desList, Option.some.injEq] at hd
      subst hd
      simp only [readValueList, List.map_nil]
      exact List.Forall₂.nil
  | cons v rest ih =>
      simp only [List.all_cons, Bool.and_eq_true] at hg
      simp only [desList] at hd
      cases hdv : deser v with
      | none => rw [hdv] at hd; simp at hd
      | some jv =>
          rw [hdv] at hd
          cases hdr : desList rest with
          | none => rw [hdr] at hd; simp at hd
          | some jrest =>
              rw [hdr] at hd
              simp only [Option.some.injEq] at hd
              subst hd
              simp only [readValueList, List.map_cons]
              exact List.Forall₂.cons (goodListElem_c4R ft v jv hg.1 hdv)
                (ih jrest hg.2 hdr)

/-- A good tree value deserializes to an object or an array, which the
runtime array-of-objects guard tests positively. -/
theorem goodTree_deser_objarr (v : ValueNode) (pT : GqlType) (ppn : Option String)
    (j : JsVal) (hg : goodTree v pT ppn = true) (hd : deser v = some j) :
    isObjArrNull j = true := by
  cases v with
  | objectV fields =>
      simp only [deser] at hd
      cases hdf : desFields fields with
      | none => rw [hdf] at hd; simp at hd
      | some jfs =>
          rw [hdf] at hd
          simp only [Option.map_some', Option.some.injEq] at hd
          subst hd
          rfl
  | listV values =>
      simp only [deser] at hd
      cases hdl : desList values with
      | none => rw [hdl] at hd; simp at hd
      | some jvs =>
          rw [hdl] at hd
          simp only [Option.map_some', Option.some.injEq] at hd
          subst hd
          rfl
  | stringV s => simp [goodTree] at hg
  | enumV s => simp [goodTree] at hg
  | intV s => simp [goodTree] at hg
  | floatV s => simp [goodTree] at hg
  | boolV b => simp [goodTree] at hg
  | nullV => simp [goodTree] at hg
  | variableV s => simp [goodTree] at hg

/-- A good scalar leaf deserializes to a value the runtime array-of-objects
guard rejects, and mapConditionValue serializes it valSim-equivalently to
readValue on the AST side. -/
theorem goodLeaf_map (value : ValueNode) (ft : GqlType) (jv : JsVal)
    (hns : ft.isObject = false)
    (hg : goodLeafValue value = true) (hd : deser value = some jv) :
    arrOfObjGuard jv = false ∧
    ∃ w, mapConditionValue jv = Except.ok w ∧ valSim (readValue ft value) w := by
  cases value with
  | stringV s =>
      have hgs : (s == "") = false := by
        simpa [goodLeafValue] using hg
      simp only [deser, Option.some.injEq] at hd
      subst hd
      refine ⟨rfl, JsVal.str (sq ++ s ++ sq), ?_, ?_⟩
      · simp only [mapConditionValue, JsVal.jsTruthy]
        rw [hgs]
        rfl
      · exact Or.inl (by simp [readValue])
  | enumV s =>
      have hgs : (s == "") = false := by
        simpa [goodLeafValue] using hg
      simp only [deser, Option.some.injEq] at hd
      subst hd
      refine ⟨rfl, JsVal.str (sq ++ s ++ sq), ?_, ?_⟩
      · simp only [mapConditionValue, JsVal.jsTruthy]
        rw [hgs]
        rfl
      · exact Or.inl (by simp [readValue])
  | intV s =>
      simp only [goodLeafValue] at hg
      cases hp : parseIntString s with
      | none => rw [hp] at hg; simp at hg
      | some n =>
          rw [hp] at hg
          simp only [beq_iff_eq] at hg
          simp only [deser, hp, Option.map_some', Option.some.injEq] at hd
          subst hd
          refine ⟨rfl, JsVal.int n, ?_, ?_⟩
          · simp only [mapConditionValue, JsVal.jsTruthy]
            cases hz : (n == 0) <;> rfl
          · exact Or.inl (by simp [readValue, JsVal.jsToString, hg])
  | boolV b =>
      simp only [deser, Option.some.injEq] at hd
      subst hd
      refine ⟨rfl, JsVal.bool b, ?_, ?_⟩
      · simp only [mapConditionValue, JsVal.jsTruthy]
        cases b <;> rfl
      · exact Or.inl (by simp [readValue])
  | nullV =>
      simp only [deser, Option.some.injEq] at hd
      subst hd
      refine ⟨rfl, JsVal.null, rfl, ?_⟩
      exact Or.inl (by simp [readValue, hns, JsVal.jsToString])
  | listV items =>
      simp only [goodLeafValue, Bool.and_eq_true] at hg
      simp only [deser] at hd
      cases hdl : desList items with
      | none => rw [hdl] at hd; simp at hd
      | some jits =>
          rw [hdl] at hd
          simp only [Option.map_some', Option.some.injEq] at hd
          subst hd
          have hfa := readValueList_forall2 ft items jits hg.2 hdl
          constructor
          · cases items with
            | nil => simp at hg
            | cons v rest =>
                simp only [desList] at hdl
                cases hdv : deser v with
                | none => rw [hdv] at hdl; simp at hdl
                | some jfirst =>
                    rw [hdv] at hdl
                    cases hdr : desList rest with
                    | none => rw [hdr] at hdl; simp at hdl
                    | some jrest =>
                        rw [hdr] at hdl
                        simp only [Option.some.injEq] at hdl
                        subst hdl
                        simp only [List.all_cons, Bool.and_eq_true] at hg
                        have hge := hg.2.1
                        cases v with
                        | stringV s =>
                            simp only [deser, Option.some.injEq] at hdv; subst hdv; rfl
                        | enumV s =>
                            simp only [deser, Option.some.injEq] at hdv; subst hdv; rfl
                        | boolV b =>
                            simp only [deser, Option.some.injEq] at hdv; subst hdv; rfl
                        | intV s =>
                            simp only [deser] at hdv
                            cases hp : parseIntString s with
                            | none => rw [hp] at hdv; simp at hdv
                            | some m =>
                                rw [hp] at hdv
                                simp only [Option.map_some', Option.some.injEq] at hdv
                                subst hdv; rfl
                        | nullV => exact Bool.noConfusion hge
                        | floatV s => exact Bool.noConfusion hge
                        | variableV s => exact Bool.noConfusion hge
                        | listV vs => exact Bool.noConfusion hge
                        | objectV fs => exact Bool.noConfusion hge
          · refine ⟨JsVal.arr ([JsVal.str "["] ++
                insertBetweenJsItems (jits.map quoteStrElem) (JsVal.str ",") ++
                [JsVal.str "]"]), ?_, ?_⟩
            · rfl
            · refine Or.inl ?_
              have hmid := forall2_insertBetween _ _ hfa
              have hall : List.Forall₂ c4R
                  ([JsVal.str "["] ++
                    insertBetweenJsItems (readValueList ft items) (JsVal.str ",") ++
                    [JsVal.str "]"])
                  ([JsVal.str "["] ++
                    insertBetweenJsItems (jits.map quoteStrElem) (JsVal.str ",") ++
                    [JsVal.str "]"]) :=
                forall2_append_c4R _ _ _ _
                  (forall2_append_c4R _ _ _ _
                    (List.Forall₂.cons (Or.inl rfl) List.Forall₂.nil) hmid)
                  (List.Forall₂.cons (Or.inl rfl) List.Forall₂.nil)
              have hEq := arr_jsToString_congr _ _ hall
              rw [show readValue ft (ValueNode.listV items) =
                  JsVal.arr ([JsVal.str "["] ++
                    insertBetweenJsItems (readValueList ft items) (JsVal.str ",") ++
                    [JsVal.str "]"]) from by simp [readValue, hns]]
              exact hEq
  | floatV s => exact Bool.noConfusion hg
  | variableV s => exact Bool.noConfusion hg
  | objectV fs => exact Bool.noConfusion hg

theorem condListSim_nil : condListSim [] [] := by
  simp [condListSim]

theorem condListSim_cons (a b : Condition) (l1 l2 : List Condition)
    (h1 : condSim a b) (h2 : condListSim l1 l2) : condListSim (a :: l1) (b :: l2) := by
  simp only [condListSim]
  exact ⟨h1, h2⟩

theorem condSim_mk (pt : Option GqlType) (ppn : Option String) (p : Option String)
    (op : String) (o g r : Bool) (v1 v2 : JsVal) (n1 n2 : List Condition)
    (hv : valSim v1 v2) (hn : condListSim n1 n2) :
    condSim (.mk pt ppn p op o g r v1 n1) (.mk pt ppn p op o g r v2 n2) := by
  simp [condSim, hv, hn]

theorem goodFieldList_cons (head : String × ValueNode) (rest : List (String × ValueNode))
    (pT : GqlType) (ppn : Option String) :
    goodFieldList (head :: rest) pT ppn =
      (goodField head.1 head.2 pT ppn && goodFieldList rest pT ppn) := by
  obtain ⟨n, v⟩ := head
  simp [goodFieldList]

theorem desFields_cons (head : String × ValueNode) (rest : List (String × ValueNode)) :
    desFields (head :: rest) =
      (match deser head.2, desFields rest with
        | some jv, some jrest => some ((head.1, jv) :: jrest)
        | _, _ => none) := by
  obtain ⟨n, v⟩ := head
  simp [desFields]

theorem createConditionsByFieldList_cons (vars : List (String × JsVal))
    (head : String × ValueNode) (rest : List (String × ValueNode)) (pT : GqlType)
    (ppn : Option String) :
    createConditionsByFieldList vars (head :: rest) pT ppn =
      (do
        let h1 ← createConditionsByObjectFieldNode vars head.1 head.2 pT ppn
        let tail ← createConditionsByFieldList vars rest pT ppn
        pure (h1 ++ tail)) := by
  obtain ⟨n, v⟩ := head
  simp [createConditionsByFieldList]

mutual
/-- The AST and runtime condition-tree builders agree (up to valSim on the
serialized values) on every good tree value. -/
theorem c4Tree (vars : List (String × JsVal)) (v : ValueNode) (pT : GqlType)
    (ppn : Option String) (l1 : List Condition) (jv : JsVal)
    (hg : goodTree v pT ppn = true) (hd : deser v = some jv)
    (h : createConditionTrees vars v pT ppn = Except.ok l1) :
    ∃ l2, createConditionTreesByObject jv pT ppn = Except.ok l2 ∧ condListSim l1 l2 := by
  cases v with
  | objectV fields =>
      simp only [deser] at hd
      cases hdf : desFields fields with
      | none => rw [hdf] at hd; simp at hd
      | some jfs =>
          rw [hdf] at hd
          simp only [Option.map_some', Option.some.injEq] at hd
          subst hd
          simp only [createConditionTrees] at h
          simp only [goodTree] at hg
          obtain ⟨l2, h2, hs⟩ := c4FieldList vars fields pT ppn l1 jfs hg hdf h
          refine ⟨l2, ?_, hs⟩
          simp only [createConditionTreesByObject]
          exact h2
  | listV values =>
      simp only [deser] at hd
      cases hdl : desList values with
      | none => rw [hdl] at hd; simp at hd
      | some jvs =>
          rw [hdl] at hd
          simp only [Option.map_some', Option.some.injEq] at hd
          subst hd
          simp only [createConditionTrees] at h
          simp only [goodTree] at hg
          obtain ⟨l2, h2, hs⟩ := c4TreeList vars values pT ppn l1 jvs hg hdl h
          refine ⟨l2, ?_, hs⟩
          simp only [createConditionTreesByObject]
          exact h2
  | stringV s => simp [goodTree] at hg
  | enumV s => simp [goodTree] at hg
  | intV s => simp [goodTree] at hg
  | floatV s => simp [goodTree] at hg
  | boolV b => simp [goodTree] at hg
  | nullV => simp [goodTree] at hg
  | variableV s => simp [goodTree] at hg
termination_by (sizeOf v, 0)
decreasing_by all_goals (subst_vars; (try rcases fv with ⟨fn, fvv⟩); simp_wf; omega)

theorem c4TreeList (vars : List (String × JsVal)) (vs : List ValueNode) (pT : GqlType)
    (ppn : Option String) (l1 : List Condition) (jvs : List JsVal)
    (hg : goodTreeList vs pT ppn = true) (hd : desList vs = some jvs)
    (h : createConditionTreesList vars vs pT ppn = Except.ok l1) :
    ∃ l2, createConditionTreesByObjectArr jvs pT ppn = Except.ok l2 ∧
      condListSim l1 l2 := by
  cases vs with
  | nil =>
      simp only [desList, Option.some.injEq] at hd
      subst hd
      simp only [createConditionTreesList, Except.ok.injEq] at h
      subst h
      exact ⟨[], by simp [createConditionTreesByObjectArr], condListSim_nil⟩
  | cons v rest =>
      simp only [goodTreeList, Bool.and_eq_true] at hg
      simp only [desList] at hd
      cases hdv : deser v with
      | none => rw [hdv] at hd; simp at hd
      | some jv =>
          rw [hdv] at hd
          cases hdr : desList rest with
          | none => rw [hdr] at hd; simp at hd
          | some jrest =>
              rw [hdr] at hd
              simp only [Option.some.injEq] at hd
              subst hd
              simp only [createConditionTreesList] at h
              obtain ⟨head1, hh1, h⟩ := exceptBindOk _ _ _ h
              obtain ⟨tail1, ht1, h⟩ := exceptBindOk _ _ _ h
              simp only [pure, Except.pure, Except.ok.injEq] at h
              subst h
              obtain ⟨head2, hh2, hsH⟩ := c4Tree vars v pT ppn head1 jv hg.1 hdv hh1
              obtain ⟨tail2, ht2, hsT⟩ := c4TreeList vars rest pT ppn tail1 jrest
                hg.2 hdr ht1
              refine ⟨head2 ++ tail2, ?_, condListSim_append _ _ _ _ hsH hsT⟩
              simp only [createConditionTreesByObjectArr, hh2, exceptOkBind, ht2]
              rfl
termination_by (sizeOf vs, 0)
decreasing_by all_goals (subst_vars; (try rcases fv with ⟨fn, fvv⟩); simp_wf; omega)

theorem c4FieldList (vars : List (String × JsVal)) (fields : List (String × ValueNode))
    (pT : GqlType) (ppn : Option String) (l1 : List Condition)
    (jfs : List (String × JsVal))
    (hg : goodFieldList fields pT ppn = true) (hd : desFields fields = some jfs)
    (h : createConditionsByFieldList vars fields pT ppn = Except.ok l1) :
    ∃ l2, createConditionTreesByObjectEntries jfs pT ppn = Except.ok l2 ∧
      condListSim l1 l2 := by
  cases fields with
  | nil =>
      simp only [desFields, Option.some.injEq] at hd
      subst hd
      simp only [createConditionsByFieldList, Except.ok.injEq] at h
      subst h
      exact ⟨[], by simp [createConditionTreesByObjectEntries], condListSim_nil⟩
  | cons fv rest =>
      rw [goodFieldList_cons] at hg
      simp only [Bool.and_eq_true] at hg
      rw [desFields_cons] at hd
      cases hdv : deser fv.2 with
      | none => rw [hdv] at hd; simp at hd
      | some jv =>
          rw [hdv] at hd
          cases hdr : desFields rest with
          | none => rw [hdr] at hd; simp at hd
          | some jrest =>
              rw [hdr] at hd
              simp only [Option.some.injEq] at hd
              subst hd
              rw [createConditionsByFieldList_cons] at h
              obtain ⟨head1, hh1, h⟩ := exceptBindOk _ _ _ h
              obtain ⟨tail1, ht1, h⟩ := exceptBindOk _ _ _ h
              simp only [pure, Except.pure, Except.ok.injEq] at h
              subst h
              obtain ⟨head2, hh2, hsH⟩ := c4Field vars fv.1 fv.2 pT ppn head1 jv
                hg.1 hdv hh1
              obtain ⟨tail2, ht2, hsT⟩ := c4FieldList vars rest pT ppn tail1 jrest
                hg.2 hdr ht1
              refine ⟨head2 ++ tail2, ?_, condListSim_append _ _ _ _ hsH hsT⟩
              simp only [createConditionTreesByObjectEntries, hh2, exceptOkBind, ht2]
              rfl
termination_by (sizeOf fields, 0)
decreasing_by all_goals (subst_vars; (try rcases fv with ⟨fn, fvv⟩); simp_wf; omega)

theorem c4OrGroups (vars : List (String × JsVal)) (vs : List ValueNode) (pT : GqlType)
    (ppn : Option String) (l1 : List Condition) (jvs : List JsVal)
    (hg : goodTreeList vs pT ppn = true) (hd : desList vs = some jvs)
    (h : createOrGroups vars vs pT ppn = Except.ok l1) :
    ∃ l2, createOrGroupsByObject jvs pT ppn = Except.ok l2 ∧ condListSim l1 l2 := by
  cases vs with
  | nil =>
      simp only [desList, Option.some.injEq] at hd
      subst hd
      simp only [createOrGroups, Except.ok.injEq] at h
      subst h
      exact ⟨[], by simp [createOrGroupsByObject], condListSim_nil⟩
  | cons v rest =>
      simp only [goodTreeList, Bool.and_eq_true] at hg
      simp only [desList] at hd
      cases hdv : deser v with
      | none => rw [hdv] at hd; simp at hd
      | some jv =>
          rw [hdv] at hd
          cases hdr : desList rest with
          | none => rw [hdr] at hd; simp at hd
          | some jrest =>
              rw [hdr] at hd
              simp only [Option.some.injEq] at hd
              subst hd
              simp only [createOrGroups] at h
              obtain ⟨nested1, hn1, h⟩ := exceptBindOk _ _ _ h
              obtain ⟨tail1, ht1, h⟩ := exceptBindOk _ _ _ h
              simp only [pure, Except.pure, Except.ok.injEq] at h
              subst h
              obtain ⟨nested2, hn2, hsN⟩ := c4Tree vars v pT ppn nested1 jv hg.1 hdv hn1
              obtain ⟨tail2, ht2, hsT⟩ := c4OrGroups vars rest pT ppn tail1 jrest
                hg.2 hdr ht1
              refine ⟨Condition.mk none none none "" false true false .undefJ nested2
                :: tail2, ?_, ?_⟩
              · simp only [createOrGroupsByObject, hn2, exceptOkBind, ht2]
                rfl
              · exact condListSim_cons _ _ _ _
                  (condSim_mk _ _ _ _ _ _ _ _ _ _ _ (Or.inr ⟨rfl, rfl⟩) hsN) hsT
termination_by (sizeOf vs, 0)
decreasing_by all_goals (subst_vars; (try rcases fv with ⟨fn, fvv⟩); simp_wf; omega)

theorem c4Field (vars : List (String × JsVal)) (field : String) (value : ValueNode)
    (pT : GqlType) (ppn : Option String) (l1 : List Condition) (jv : JsVal)
    (hg : goodField field value pT ppn = true) (hd : deser value = some jv)
    (h : createConditionsByObjectFieldNode vars field value pT ppn = Except.ok l1) :
    ∃ l2, createConditionTreesByObjectField field jv pT ppn = Except.ok l2 ∧
      condListSim l1 l2 := by
  rw [createConditionsByObjectFieldNode.eq_def] at h
  rw [goodField.eq_def] at hg
  cases hc1 : (optStrTruthy ppn && testConnectionSuffix (jsOptStr ppn) &&
      field == "node") with
  | true =>
      rw [hc1] at h hg
      simp only [reduceIte] at h hg
      cases hTgt : getTargetIfConnectionType pT with
      | error e => rw [hTgt] at h; simp [exceptErrBind] at h
      | ok target =>
          rw [hTgt] at h hg
          simp only [exceptOkBind] at h
          obtain ⟨l2, h2, hs⟩ := c4Tree vars value target ppn l1 jv hg hd h
          refine ⟨l2, ?_, hs⟩
          simp only [createConditionTreesByObjectField.eq_def, hc1, reduceIte, hTgt,
            exceptOkBind]
          exact h2
  | false =>
      rw [hc1] at h hg
      simp only [Bool.false_eq_true, reduceIte] at h hg
      cases hc2 : (optStrTruthy ppn && testConnectionSuffix (jsOptStr ppn) &&
          field == "edge") with
      | true =>
          rw [hc2] at h hg
          simp only [reduceIte] at h hg
          cases hE : pT.lookupField "edges" with
          | error e => rw [hE] at h; simp [exceptErrBind] at h
          | ok edges =>
              rw [hE] at h hg
              simp only [exceptOkBind] at h
              obtain ⟨l2, h2, hs⟩ := c4Tree vars value (unwrapType edges.type) ppn
                l1 jv hg hd h
              refine ⟨l2, ?_, hs⟩
              simp only [createConditionTreesByObjectField.eq_def, hc1, hc2,
                Bool.false_eq_true, reduceIte, hE, exceptOkBind]
              exact h2
      | false =>
          rw [hc2] at h hg
          simp only [Bool.false_eq_true, reduceIte] at h hg
          cases hc3 : (field == "OR") with
          | true =>
              rw [hc3] at h hg
              simp only [reduceIte] at h hg
              simp only [Bool.and_eq_true] at hg
              obtain ⟨⟨hgc, hgb⟩, hgv⟩ := hg
              cases value with
              | listV values =>
                  simp only [deser] at hd
                  cases hdl : desList values with
                  | none => rw [hdl] at hd; simp at hd
                  | some jvs =>
                      rw [hdl] at hd
                      simp only [Option.map_some', Option.some.injEq] at hd
                      subst hd
                      obtain ⟨groups1, hgr1, h⟩ := exceptBindOk _ _ _ h
                      simp only [pure, Except.pure, Except.ok.injEq] at h
                      subst h
                      obtain ⟨groups2, hgr2, hsG⟩ := c4OrGroups vars values pT ppn
                        groups1 jvs hgv hdl hgr1
                      have hTgt : getTargetIfConnectionType pT = Except.ok pT :=
                        getTarget_bare pT (by simpa using hgc) hgb
                      refine ⟨[Condition.mk (some pT) ppn none "" true false false
                        JsVal.undefJ groups2], ?_, ?_⟩
                      · simp only [createConditionTreesByObjectField.eq_def, hc1, hc2, hc3,
                          Bool.false_eq_true, reduceIte, hTgt, exceptOkBind, hgr2]
                        rfl
                      · exact condListSim_cons _ _ _ _
                          (condSim_mk _ _ _ _ _ _ _ _ _ _ _ (Or.inr ⟨rfl, rfl⟩) hsG)
                          condListSim_nil
              | stringV s => exact Bool.noConfusion hgv
              | enumV s => exact Bool.noConfusion hgv
              | intV s => exact Bool.noConfusion hgv
              | floatV s => exact Bool.noConfusion hgv
              | boolV b => exact Bool.noConfusion hgv
              | nullV => exact Bool.noConfusion hgv
              | variableV s => exact Bool.noConfusion hgv
              | objectV fs => exact Bool.noConfusion hgv
          | false =>
              rw [hc3] at h hg
              simp only [Bool.false_eq_true, reduceIte] at h hg
              cases hc4 : (field == "AND") with
              | true =>
                  rw [hc4] at h hg
                  simp only [reduceIte] at h hg
                  cases value with
                  | listV values =>
                      simp only [deser] at hd
                      cases hdl : desList values with
                      | none => rw [hdl] at hd; simp at hd
                      | some jvs =>
                          rw [hdl] at hd
                          simp only [Option.map_some', Option.some.injEq] at hd
                          subst hd
                          obtain ⟨l2, h2, hs⟩ := c4TreeList vars values pT ppn l1 jvs
                            hg hdl h
                          refine ⟨l2, ?_, hs⟩
                          have hguard : arrOfObjGuard (JsVal.arr jvs) = true := by
                            cases values with
                            | nil =>
                                simp only [desList, Option.some.injEq] at hdl
                                subst hdl
                                rfl
                            | cons v rest =>
                                simp only [desList] at hdl
                                cases hdv : deser v with
                                | none => rw [hdv] at hdl; simp at hdl
                                | some jfirst =>
                                    rw [hdv] at hdl
                                    cases hdr : desList rest with
                                    | none => rw [hdr] at hdl; simp at hdl
                                    | some jrest =>
                                        rw [hdr] at hdl
                                        simp only [Option.some.injEq] at hdl
                                        subst hdl
                                        have hgh : goodTree v pT ppn = true := by
                                          have hthis : goodTreeList (v :: rest) pT ppn
                                              = true := hg
                                          simp only [goodTreeList,
                                            Bool.and_eq_true] at hthis
                                          exact hthis.1
                                        exact goodTree_deser_objarr v pT ppn jfirst
                                          hgh hdv
                          simp only [createConditionTreesByObjectField.eq_def, hc1, hc2, hc3,
                            Bool.false_eq_true, reduceIte, hguard]
                          exact h2
                  | stringV s => exact Bool.noConfusion hg
                  | enumV s => exact Bool.noConfusion hg
                  | intV s => exact Bool.noConfusion hg
                  | floatV s => exact Bool.noConfusion hg
                  | boolV b => exact Bool.noConfusion hg
                  | nullV => exact Bool.noConfusion hg
                  | variableV s => exact Bool.noConfusion hg
                  | objectV fs => exact Bool.noConfusion hg
              | false =>
                  rw [hc4] at h hg
                  simp only [Bool.false_eq_true, reduceIte] at h hg
                  cases hLk : pT.lookupField ((splitOnUnderscore field).headD "") with
                  | error e => rw [hLk] at h; simp [exceptErrBind] at h
                  | ok schemaField =>
                      rw [hLk] at h hg
                      simp only [exceptOkBind] at h
                      have hgL : goodFieldLeaf value schemaField
                          ((splitOnUnderscore field).headD "") pT ppn = true := hg
                      cases hTgt : getTargetIfConnectionType pT with
                      | error e => rw [hTgt] at h; simp [exceptErrBind] at h
                      | ok target =>
                          rw [hTgt] at h
                          simp only [exceptOkBind] at h
                          cases hObj : (unwrapType schemaField.type).isObject with
                          | true =>
                              rw [hObj] at h
                              simp only [reduceIte] at h
                              simp only [goodFieldLeaf.eq_def, hObj, reduceIte,
                                Bool.and_eq_true] at hgL
                              obtain ⟨hIsO, hgT⟩ := hgL
                              cases value with
                              | objectV fields =>
                                  simp only [deser] at hd
                                  cases hdf : desFields fields with
                                  | none => rw [hdf] at hd; simp at hd
                                  | some jfs =>
                                      rw [hdf] at hd
                                      simp only [Option.map_some',
                                        Option.some.injEq] at hd
                                      subst hd
                                      obtain ⟨n1, hn1, h⟩ := exceptBindOk _ _ _ h
                                      simp only [pure, Except.pure,
                                        Except.ok.injEq] at h
                                      subst h
                                      obtain ⟨n2, hn2, hsN⟩ := c4Tree vars
                                        (ValueNode.objectV fields)
                                        (unwrapType schemaField.type)
                                        (some ((splitOnUnderscore field).headD ""))
                                        n1 (JsVal.obj jfs) hgT
                                        (by simp [deser, hdf]) hn1
                                      refine ⟨[Condition.mk (some target) ppn
                                        (some ((splitOnUnderscore field).headD ""))
                                        (String.intercalate "_"
                                          (splitOnUnderscore field).tail)
                                        false false
                                        (testRelationshipSuffix pT.jsName)
                                        JsVal.null n2], ?_, ?_⟩
                                      · simp only [createConditionTreesByObjectField,
                                          hc1, hc2, hc3, Bool.false_eq_true,
                                          reduceIte, arrOfObjGuard, hLk,
                                          exceptOkBind, hTgt, hObj, hn2]
                                        rfl
                                      · exact condListSim_cons _ _ _ _
                                          (condSim_mk _ _ _ _ _ _ _ _ _ _ _
                                            (Or.inr ⟨rfl, rfl⟩) hsN) condListSim_nil
                              | stringV s => exact Bool.noConfusion hIsO
                              | enumV s => exact Bool.noConfusion hIsO
                              | intV s => exact Bool.noConfusion hIsO
                              | floatV s => exact Bool.noConfusion hIsO
                              | boolV b => exact Bool.noConfusion hIsO
                              | nullV => exact Bool.noConfusion hIsO
                              | variableV s => exact Bool.noConfusion hIsO
                              | listV vs => exact Bool.noConfusion hIsO
                          | false =>
                              rw [hObj] at h
                              simp only [Bool.false_eq_true, reduceIte] at h
                              simp only [goodFieldLeaf.eq_def, hObj, Bool.false_eq_true,
                                reduceIte] at hgL
                              simp only [pure, Except.pure, Except.ok.injEq] at h
                              subst h
                              obtain ⟨hguardF, w, hw, hvs⟩ := goodLeaf_map value
                                (unwrapType schemaField.type) jv hObj hgL hd
                              refine ⟨[Condition.mk (some target) ppn
                                (some ((splitOnUnderscore field).headD ""))
                                (String.intercalate "_" (splitOnUnderscore field).tail)
                                false false (testRelationshipSuffix pT.jsName)
                                w []], ?_, ?_⟩
                              · simp only [createConditionTreesByObjectField.eq_def, hc1,
                                  hc2, hc3, Bool.false_eq_true, reduceIte, hguardF,
                                  hLk, exceptOkBind, hTgt, hObj, hw]
                                rfl
                              · exact condListSim_cons _ _ _ _
                                  (condSim_mk _ _ _ _ _ _ _ _ _ _ _ hvs
                                    condListSim_nil) condListSim_nil
termination_by (sizeOf value, 1)
decreasing_by all_goals (subst_vars; (try rcases fv with ⟨fn, fvv⟩); simp_wf; omega)
end

/-- A connection-suffixed parent type and its node target. -/
def c4Node : GqlType := GqlType.obj "Thing" [GqlField.mk "id" (GqlType.scalar "String")]

def c4Conn : GqlType := GqlType.obj "ThingsConnection"
  [GqlField.mk "edges" (GqlType.listT (GqlType.obj "ThingEdge"
    [GqlField.mk "node" c4Node]))]

/-- C4 counterexample: the claim says the AST and runtime paths build
structurally identical trees for structurally equal inputs.  For an OR group
under a connection-suffixed parent type the AST path stores the parent type
itself on the group condition while the runtime path stores the
connection-unwrapped node target, so the parent types differ. -/
theorem C4_counterexample :
    createConditionTrees [] (ValueNode.objectV [("OR", ValueNode.listV [])]) c4Conn none =
      Except.ok [Condition.mk (some c4Conn) none none "" true false false
        JsVal.undefJ []] ∧
    createConditionTreesByObject (JsVal.obj [("OR", JsVal.arr [])]) c4Conn none =
      Except.ok [Condition.mk (some c4Node) none none "" true false false
        JsVal.undefJ []] ∧
    deser (ValueNode.objectV [("OR", ValueNode.listV [])]) =
      some (JsVal.obj [("OR", JsVal.arr [])]) ∧
    c4Conn ≠ c4Node := by
  refine ⟨?_, ?_, ?_, ?_⟩
  · simp only [createConditionTrees, createConditionsByFieldList,
      createConditionsByObjectFieldNode.eq_def, createOrGroups, optStrTruthy, jsOptStr,
      testConnectionSuffix, c4Conn, c4Node, GqlType.jsName, exceptOkBind,
      Bool.false_and, Bool.and_false, Bool.and_true, Bool.true_and,
      Bool.false_eq_true, reduceIte, String.reduceBEq, String.reduceEq,
      List.cons_append, List.nil_append]
    rfl
  · simp only [createConditionTreesByObject, createConditionTreesByObjectEntries,
      createConditionTreesByObjectField.eq_def, createOrGroupsByObject,
      getTargetIfConnectionType, GqlType.lookupField, GqlType.fieldsOf, unwrapType,
      optStrTruthy, jsOptStr, testConnectionSuffix, c4Conn, c4Node, GqlType.jsName,
      exceptOkBind, List.find?, GqlField.name, GqlField.type,
      Bool.false_and, Bool.and_false, Bool.and_true, Bool.true_and,
      Bool.false_eq_true, reduceIte, String.reduceBEq, String.reduceEq,
      List.cons_append, List.nil_append]
    rfl
  · simp [deser, desFields, desList]
  · intro hEq
    simp only [c4Conn, c4Node] at hEq
    injection hEq with h1 h2
    exact absurd h1 (by decide)

/-- C4 (amended): over the agreement domain goodTree (which excludes OR
groups under retargeting parents, object-form AND, lists of objects under
property fields, empty strings and empty lists as leaf values, non-canonical
int literals, floats, variables and date-shaped objects), the AST builder
and the runtime builder applied to the structurally equal deserialized value
produce condition trees that are structurally identical up to the serialized
value fields, which render identically (or are both nullish and never
rendered); both builders are pure Lean functions of their inputs. -/
theorem C4_amended_condition_tree_refinement (vars : List (String × JsVal))
    (v : ValueNode) (pT : GqlType) (ppn : Option String) (l1 : List Condition)
    (jv : JsVal)
    (hg : goodTree v pT ppn = true) (hd : deser v = some jv)
    (h : createConditionTrees vars v pT ppn = Except.ok l1) :
    ∃ l2, createConditionTreesByObject jv pT ppn = Except.ok l2 ∧ condListSim l1 l2 :=
  c4Tree vars v pT ppn l1 jv hg hd h

/-- Witness for the amended C4 theorem at a concrete equality filter: the
runtime path agrees with the AST path on (id: "X"). -/
theorem C4_witness :
    ∃ l2, createConditionTreesByObject (JsVal.obj [("id", JsVal.str "X")]) c4Node none =
        Except.ok l2 ∧
      condListSim [Condition.mk (some c4Node) none (some "id") "" false false false
        (JsVal.str (sq ++ "X" ++ sq)) []] l2 :=
  C4_amended_condition_tree_refinement []
    (ValueNode.objectV [("id", ValueNode.stringV "X")]) c4Node none
    [Condition.mk (some c4Node) none (some "id") "" false false false
      (JsVal.str (sq ++ "X" ++ sq)) []]
    (JsVal.obj [("id", JsVal.str "X")])
    (by
      simp [goodTree, goodFieldList, goodField.eq_def, goodFieldLeaf.eq_def,
        goodLeafValue, optStrTruthy, jsOptStr, c4Node, GqlType.lookupField,
        GqlType.fieldsOf, unwrapType, GqlType.isObject, exceptBoolOk,
        splitOnUnderscore, splitChars, sq]
      rfl)
    (by simp [deser, desFields])
    (by
      simp only [createConditionTrees, createConditionsByFieldList,
        createConditionsByObjectFieldNode.eq_def, optStrTruthy, jsOptStr,
        testConnectionSuffix, c4Node, GqlType.jsName, GqlType.lookupField,
        GqlType.fieldsOf, unwrapType, GqlType.isObject, getTargetIfConnectionType,
        readValue, exceptOkBind, List.find?, GqlField.name, GqlField.type,
        Bool.false_and, Bool.and_false, Bool.and_true, Bool.true_and,
        Bool.false_eq_true, reduceIte, String.reduceBEq, String.reduceEq,
        List.cons_append, List.nil_append]
      rfl)

/-- C10: calling compile a second time without intervening visitor callbacks
returns the same string and leaves the state (in particular the output
buffer) unchanged: the first call empties the token buffer, so the second
flush appends nothing. -/
theorem C10_compile_idempotent (s : CState) :
    compile (compile s).2 = ((compile s).1, (compile s).2) := by
  simp [compile]

end GraphQlCompiler
